import Mathlib

/-!
# c8: a CHIP-8 interpreter with a replayable history of machine states

A shallow embedding of the execution engine of the repository
(`opcodes.cpp`, `src/memory.cpp`, `src/vga.cpp`, `src/cpu.cpp`) together with
theorems about it.

Conventions of the embedding.

* Machine integers are natural numbers; every place where the C++ code narrows
  a value (`std::uint8_t`, `std::uint16_t`, `std::uint64_t`) carries an explicit
  `% 256`, `% 65536` or `% 2 ^ 64`.
* The module-level variables of `c8::cpu` and `c8::mem` are fields of `Engine`,
  passed explicitly.
* Operations whose C++ behaviour is undefined on some inputs (indexing an array
  outside its bounds, `top()` of an empty `std::stack`) return `Option`, with
  `none` for those inputs.
* What the program obtains from the outside world during one clock cycle (the
  keys held down, the next value of the random generator) is an `Input`.
-/

namespace C8

/-! ## opcodes.hpp / opcodes.cpp -/

/-- The instruction kinds of `enum class Opcode`. -/
inductive Opcode where
  | Invalid
  | CLS
  | RET
  | JP_Addr
  | CALL_Addr
  | SE_Vx_Byte
  | SNE_Vx_Byte
  | SE_Vx_Vy
  | LD_Vx_Byte
  | ADD_Vx_Byte
  | LD_Vx_Vy
  | OR_Vx_Vy
  | AND_Vx_Vy
  | XOR_Vx_Vy
  | ADD_Vx_Vy
  | SUB_Vx_Vy
  | SHR_Vx_Vy
  | SUBN_Vx_Vy
  | SHL_Vx_Vy
  | SNE_Vx_Vy
  | LD_I_Addr
  | JP_V0_Addr
  | RND_Vx_Byte
  | DRW_Vx_Vy_Nibble
  | SKP_Vx
  | SKNP_Vx
  | LD_Vx_DT
  | LD_Vx_K
  | LD_DT_Vx
  | LD_ST_Vx
  | ADD_I_Vx
  | LD_F_Vx
  | LD_B_Vx
  | LD_IAddr_Vx
  | LD_Vx_IAddr
  deriving DecidableEq, Repr

/-- Top nibble: `opcode >> 12`, returned as `std::uint8_t`. -/
def getOpcodeInstruction (opcode : Nat) : Nat := (opcode >>> 12) % 256

/-- Second nibble: `(opcode >> 8) & 0b1111`. -/
def getOpcodeX (opcode : Nat) : Nat := ((opcode >>> 8) &&& 0b1111) % 256

/-- Third nibble: `(opcode >> 4) & 0b1111`. -/
def getOpcodeY (opcode : Nat) : Nat := ((opcode >>> 4) &&& 0b1111) % 256

/-- Fourth nibble: `opcode & 0b1111`. -/
def getOpcodeZ (opcode : Nat) : Nat := (opcode &&& 0b1111) % 256

/-- Low byte: `opcode & 0b0000'0000'1111'1111`. -/
def getOpcodeKK (opcode : Nat) : Nat := (opcode &&& 0b0000000011111111) % 256

/-- Low twelve bits: `opcode & 0b0000'1111'1111'1111`. -/
def getOpcodeNNN (opcode : Nat) : Nat := (opcode &&& 0b0000111111111111) % 65536

/-- Classification of a 16-bit instruction word, `c8::opcodes::decode`. -/
def decode (opcode : Nat) : Opcode :=
  if opcode = 0 then Opcode.Invalid
  else
    let instruction := getOpcodeInstruction opcode
    let z := getOpcodeZ opcode
    let kk := getOpcodeKK opcode
    match instruction with
    | 0x0 =>
      if kk = 0xE0 then Opcode.CLS
      else if kk = 0xEE then Opcode.RET
      else Opcode.Invalid
    | 0x1 => Opcode.JP_Addr
    | 0x2 => Opcode.CALL_Addr
    | 0x3 => Opcode.SE_Vx_Byte
    | 0x4 => Opcode.SNE_Vx_Byte
    | 0x5 =>
      if z = 0x0 then Opcode.SE_Vx_Vy
      else Opcode.Invalid
    | 0x6 => Opcode.LD_Vx_Byte
    | 0x7 => Opcode.ADD_Vx_Byte
    | 0x8 =>
      if z = 0x0 then Opcode.LD_Vx_Vy
      else if z = 0x1 then Opcode.OR_Vx_Vy
      else if z = 0x2 then Opcode.AND_Vx_Vy
      else if z = 0x3 then Opcode.XOR_Vx_Vy
      else if z = 0x4 then Opcode.ADD_Vx_Vy
      else if z = 0x5 then Opcode.SUB_Vx_Vy
      else if z = 0x6 then Opcode.SHR_Vx_Vy
      else if z = 0x7 then Opcode.SUBN_Vx_Vy
      else if z = 0xE then Opcode.SHL_Vx_Vy
      else Opcode.Invalid
    | 0x9 =>
      if z = 0x0 then Opcode.SNE_Vx_Vy
      else Opcode.Invalid
    | 0xA => Opcode.LD_I_Addr
    | 0xB => Opcode.JP_V0_Addr
    | 0xC => Opcode.RND_Vx_Byte
    | 0xD => Opcode.DRW_Vx_Vy_Nibble
    | 0xE =>
      if kk = 0x9E then Opcode.SKP_Vx
      else if kk = 0xA1 then Opcode.SKNP_Vx
      else Opcode.Invalid
    | 0xF =>
      if kk = 0x07 then Opcode.LD_Vx_DT
      else if kk = 0x0A then Opcode.LD_Vx_K
      else if kk = 0x15 then Opcode.LD_DT_Vx
      else if kk = 0x18 then Opcode.LD_ST_Vx
      else if kk = 0x1E then Opcode.ADD_I_Vx
      else if kk = 0x29 then Opcode.LD_F_Vx
      else if kk = 0x33 then Opcode.LD_B_Vx
      else if kk = 0x55 then Opcode.LD_IAddr_Vx
      else if kk = 0x65 then Opcode.LD_Vx_IAddr
      else Opcode.Invalid
    | _ => Opcode.Invalid

/-! ## src/memory.cpp -/

/-- Size of the memory buffer, `maxBufferSize`. -/
def maxBufferSize : Nat := 4096

/-- The two buffers of `c8::mem`: the working memory and the copy kept for reset. -/
structure Memory where
  buffer : Fin 4096 → Nat
  originalBuffer : Fin 4096 → Nat

/-- Counterpart of `c8::mem::readByte`; the parameter is a `std::uint16_t`. -/
def Memory.readByte (m : Memory) (addr : Nat) : Nat :=
  if h : addr ≥ maxBufferSize then 0
  else m.buffer ⟨addr, by unfold maxBufferSize at h; omega⟩

/-- Counterpart of `c8::mem::readWord`: the big-endian pair at `addr`, `addr + 1`. -/
def Memory.readWord (m : Memory) (addr : Nat) : Nat :=
  if addr ≥ maxBufferSize then 0
  else
    let highByte := m.readByte addr
    let lowByte := m.readByte ((addr + 1) % 65536)
    ((highByte <<< 8) ||| lowByte) % 65536

/-- Counterpart of `c8::mem::writeByte`; the address is an `int`, the data a byte. -/
def Memory.writeByte (m : Memory) (addr : Int) (data : Nat) : Memory :=
  if h : addr < 0 ∨ addr ≥ (maxBufferSize : Int) then m
  else
    have hlt : addr.toNat < 4096 := by unfold maxBufferSize at h; omega
    { m with buffer := Function.update m.buffer ⟨addr.toNat, hlt⟩ data }

/-- Counterpart of `c8::mem::reset`: the working buffer is restored from the copy. -/
def Memory.reset (m : Memory) : Memory :=
  { m with buffer := m.originalBuffer }

/-- Counterpart of `c8::mem::getFontSpriteAddress`: `spriteIndex * 5` as 16 bits. -/
def getFontSpriteAddress (spriteIndex : Nat) : Nat := (spriteIndex * 5) % 65536

/-! ## src/vga.hpp / src/vga.cpp -/

/-- Width of the frame buffer in pixels. -/
def frameBufferWidth : Nat := 64

/-- Height of the frame buffer in pixels. -/
def frameBufferHeight : Nat := 32

/-- The display: `bool frameBuffer[frameBufferHeight][frameBufferWidth]`. -/
structure VgaState where
  frameBuffer : Fin 32 → Fin 64 → Bool

/-- Counterpart of `VgaState::clear`: every pixel is switched off. -/
def VgaState.clear (_vga : VgaState) : VgaState :=
  { frameBuffer := fun _ _ => false }

/-- Reading `frameBuffer[y][x]`; outside the array the C++ access is undefined. -/
def VgaState.getPixel (vga : VgaState) (y x : Nat) : Option Bool :=
  if h : y < 32 ∧ x < 64 then some (vga.frameBuffer ⟨y, h.1⟩ ⟨x, h.2⟩) else none

/-- The assignment `frameBuffer[y][x] ^= bit`; undefined outside the array. -/
def VgaState.xorPixel (vga : VgaState) (y x : Nat) (bit : Bool) : Option VgaState :=
  if y < 32 ∧ x < 64 then
    some { frameBuffer := fun r c =>
      if r.val = y ∧ c.val = x then xor (vga.frameBuffer r c) bit else vga.frameBuffer r c }
  else none

/-- Counterpart of `VgaState::drawByte`: one sprite row of eight pixels is XORed
    into row `y` from column `x`; the result tells whether a lit pixel went dark. -/
def VgaState.drawByte (vga : VgaState) (x y byte : Nat) : Option (Bool × VgaState) := do
  let x := if x ≥ frameBufferWidth then 0 else x
  let y := if y ≥ frameBufferHeight then 0 else y
  let originalBits ← (List.range 8).mapM (fun i => vga.getPixel y (x + i))
  let vga ← vga.xorPixel y (x + 0) (decide ((byte &&& 0b10000000) > 0))
  let vga ← vga.xorPixel y (x + 1) (decide ((byte &&& 0b01000000) > 0))
  let vga ← vga.xorPixel y (x + 2) (decide ((byte &&& 0b00100000) > 0))
  let vga ← vga.xorPixel y (x + 3) (decide ((byte &&& 0b00010000) > 0))
  let vga ← vga.xorPixel y (x + 4) (decide ((byte &&& 0b00001000) > 0))
  let vga ← vga.xorPixel y (x + 5) (decide ((byte &&& 0b00000100) > 0))
  let vga ← vga.xorPixel y (x + 6) (decide ((byte &&& 0b00000010) > 0))
  let vga ← vga.xorPixel y (x + 7) (decide ((byte &&& 0b00000001) > 0))
  let newBits ← (List.range 8).mapM (fun i => vga.getPixel y (x + i))
  let didErase := (List.zip originalBits newBits).foldl
    (fun didErase bits => if bits.1 && !bits.2 then true else didErase) false
  pure (didErase, vga)

/-! ## src/cpu.cpp: what the instruction methods see besides their own state -/

/-- The two compile-time switches of `c8::quirks`; the header that fixes their
    values is not among the sources, so they are parameters of the engine. -/
structure Quirks where
  shiftWithVy : Bool
  memoryIncrementI : Bool

/-- What one clock cycle obtains from outside the program: the values of the
    mapped keys that are held down, in the order in which `c8::ui::valueByKey` is
    traversed, and the number the random generator yields when it is sampled. -/
structure Input where
  pressedKeys : List Nat
  randomValue : Nat

/-- The module-level variables an instruction method reads or writes: the memory
    of `c8::mem` and the two variables of the keyboard wait. -/
structure Shared where
  mem : Memory
  waitingForKeyboard : Bool
  keyboardPressedValue : Nat

/-! ## src/cpu.cpp: `class CpuState` -/

/-- One machine state, `class CpuState`. -/
structure CpuState where
  vgaState : VgaState
  pc : Nat
  ir : Nat
  dt : Nat
  st : Nat
  sp : Nat
  v : Fin 16 → Nat
  stack : List Nat

namespace CpuState

/-- Counterpart of `getRegister`: the register an index points to, `none` standing
    for `nullptr`. -/
def getRegister (_s : CpuState) (index : Nat) : Option (Fin 16) :=
  if h : index > 0xF then none else some ⟨index, by omega⟩

/-- Counterpart of `popFromStack`; `top()` of an empty stack is undefined. -/
def popFromStack (s : CpuState) : Option (Nat × CpuState) :=
  match s.stack with
  | [] => none
  | value :: rest => some (value, { s with stack := rest, sp := (s.sp + 255) % 256 })

/-- Counterpart of `pushToStack`. -/
def pushToStack (s : CpuState) (value : Nat) : CpuState :=
  { s with sp := (s.sp + 1) % 256, stack := value :: s.stack }

/-- Counterpart of `getCurrentKeyboardValue`: the value of the first mapped key
    found pressed, `0xFF` when there is none. -/
def getCurrentKeyboardValue (_s : CpuState) (inp : Input) : Nat :=
  match inp.pressedKeys with
  | value :: _ => value
  | [] => 0xFF

/-- Instruction `00E0`. -/
def CLS (s : CpuState) : Bool × CpuState :=
  let s := { s with vgaState := s.vgaState.clear }
  let s := { s with pc := (s.pc + 2) % 65536 }
  (true, s)

/-- Instruction `00EE`. -/
def RET (s : CpuState) : Option (Bool × CpuState) :=
  match s.popFromStack with
  | none => none
  | some (addr, s) =>
    let s := { s with pc := (addr + 2) % 65536 }
    some (true, s)

/-- Instruction `1nnn`. -/
def JP_Addr (s : CpuState) (addr : Nat) : Bool × CpuState :=
  if s.pc = addr then (false, s)
  else
    let s := { s with pc := addr }
    (true, s)

/-- Instruction `2nnn`. -/
def CALL_Addr (s : CpuState) (addr : Nat) : Bool × CpuState :=
  let s := s.pushToStack s.pc
  let s := { s with pc := addr }
  (true, s)

/-- Instruction `3xkk`. -/
def SE_Vx_Byte (s : CpuState) (x value : Nat) : Bool × CpuState :=
  match s.getRegister x with
  | none => (false, s)
  | some vx =>
    let s := if s.v vx = value then { s with pc := (s.pc + 2) % 65536 } else s
    let s := { s with pc := (s.pc + 2) % 65536 }
    (true, s)

/-- Instruction `4xkk`. -/
def SNE_Vx_Byte (s : CpuState) (x value : Nat) : Bool × CpuState :=
  match s.getRegister x with
  | none => (false, s)
  | some vx =>
    let s := if s.v vx ≠ value then { s with pc := (s.pc + 2) % 65536 } else s
    let s := { s with pc := (s.pc + 2) % 65536 }
    (true, s)

/-- Instruction `5xy0`. -/
def SE_Vx_Vy (s : CpuState) (x y : Nat) : Bool × CpuState :=
  match s.getRegister x, s.getRegister y with
  | some vx, some vy =>
    let s := if s.v vx = s.v vy then { s with pc := (s.pc + 2) % 65536 } else s
    let s := { s with pc := (s.pc + 2) % 65536 }
    (true, s)
  | _, _ => (false, s)

/-- Instruction `6xkk`. -/
def LD_Vx_Byte (s : CpuState) (x value : Nat) : Bool × CpuState :=
  match s.getRegister x with
  | none => (false, s)
  | some vx =>
    let s := { s with v := Function.update s.v vx value }
    let s := { s with pc := (s.pc + 2) % 65536 }
    (true, s)

/-- Instruction `7xkk`. -/
def ADD_Vx_Byte (s : CpuState) (x value : Nat) : Bool × CpuState :=
  match s.getRegister x with
  | none => (false, s)
  | some vx =>
    let s := { s with v := Function.update s.v vx ((s.v vx + value) % 256) }
    let s := { s with pc := (s.pc + 2) % 65536 }
    (true, s)

/-- Instruction `8xy0`. -/
def LD_Vx_Vy (s : CpuState) (x y : Nat) : Bool × CpuState :=
  match s.getRegister x, s.getRegister y with
  | some vx, some vy =>
    let s := { s with v := Function.update s.v vx (s.v vy) }
    let s := { s with pc := (s.pc + 2) % 65536 }
    (true, s)
  | _, _ => (false, s)

/-- Instruction `8xy1`. -/
def OR_Vx_Vy (s : CpuState) (x y : Nat) : Bool × CpuState :=
  match s.getRegister x, s.getRegister y with
  | some vx, some vy =>
    let s := { s with v := Function.update s.v vx ((s.v vx ||| s.v vy) % 256) }
    let s := { s with pc := (s.pc + 2) % 65536 }
    (true, s)
  | _, _ => (false, s)

/-- Instruction `8xy2`. -/
def AND_Vx_Vy (s : CpuState) (x y : Nat) : Bool × CpuState :=
  match s.getRegister x, s.getRegister y with
  | some vx, some vy =>
    let s := { s with v := Function.update s.v vx ((s.v vx &&& s.v vy) % 256) }
    let s := { s with pc := (s.pc + 2) % 65536 }
    (true, s)
  | _, _ => (false, s)

/-- Instruction `8xy3`. -/
def XOR_Vx_Vy (s : CpuState) (x y : Nat) : Bool × CpuState :=
  match s.getRegister x, s.getRegister y with
  | some vx, some vy =>
    let s := { s with v := Function.update s.v vx ((s.v vx ^^^ s.v vy) % 256) }
    let s := { s with pc := (s.pc + 2) % 65536 }
    (true, s)
  | _, _ => (false, s)

/-- Instruction `8xy4`: the sum is formed in `int`, the flag is written to `v[15]`
    first and the truncated sum to `Vx` afterwards. -/
def ADD_Vx_Vy (s : CpuState) (x y : Nat) : Bool × CpuState :=
  match s.getRegister x, s.getRegister y with
  | some vx, some vy =>
    let result := s.v vx + s.v vy
    let s := { s with v := Function.update s.v 15 (if result > 255 then 1 else 0) }
    let s := { s with v := Function.update s.v vx (result % 256) }
    let s := { s with pc := (s.pc + 2) % 65536 }
    (true, s)
  | _, _ => (false, s)

/-- Instruction `8xy5`: the difference is formed in `int` and truncated to a byte. -/
def SUB_Vx_Vy (s : CpuState) (x y : Nat) : Bool × CpuState :=
  match s.getRegister x, s.getRegister y with
  | some vx, some vy =>
    let result : Int := (s.v vx : Int) - (s.v vy : Int)
    let s := { s with v := Function.update s.v 15 (if s.v vx > s.v vy then 1 else 0) }
    let s := { s with v := Function.update s.v vx (result % 256).toNat }
    let s := { s with pc := (s.pc + 2) % 65536 }
    (true, s)
  | _, _ => (false, s)

/-- Instruction `8xy6`. -/
def SHR_Vx_Vy (s : CpuState) (q : Quirks) (x y : Nat) : Bool × CpuState :=
  match s.getRegister x, s.getRegister y with
  | some vx, some vy =>
    let s := if q.shiftWithVy then { s with v := Function.update s.v vx (s.v vy) } else s
    let bit := s.v vx &&& 0b00000001
    let s := { s with v := Function.update s.v 15 (if bit ≥ 1 then 1 else 0) }
    let s := { s with v := Function.update s.v vx ((s.v vx >>> 1) % 256) }
    let s := { s with pc := (s.pc + 2) % 65536 }
    (true, s)
  | _, _ => (false, s)

/-- Instruction `8xy7`. -/
def SUBN_Vx_Vy (s : CpuState) (x y : Nat) : Bool × CpuState :=
  match s.getRegister x, s.getRegister y with
  | some vx, some vy =>
    let result : Int := (s.v vy : Int) - (s.v vx : Int)
    let s := { s with v := Function.update s.v 15 (if s.v vy > s.v vx then 1 else 0) }
    let s := { s with v := Function.update s.v vx (result % 256).toNat }
    let s := { s with pc := (s.pc + 2) % 65536 }
    (true, s)
  | _, _ => (false, s)

/-- Instruction `8xyE`. -/
def SHL_Vx_Vy (s : CpuState) (q : Quirks) (x y : Nat) : Bool × CpuState :=
  match s.getRegister x, s.getRegister y with
  | some vx, some vy =>
    let s := if q.shiftWithVy then { s with v := Function.update s.v vx (s.v vy) } else s
    let bit := s.v vx &&& 0b10000000
    let s := { s with v := Function.update s.v 15 (if bit ≥ 1 then 1 else 0) }
    let s := { s with v := Function.update s.v vx ((s.v vx <<< 1) % 256) }
    let s := { s with pc := (s.pc + 2) % 65536 }
    (true, s)
  | _, _ => (false, s)

/-- Instruction `9xy0`. -/
def SNE_Vx_Vy (s : CpuState) (x y : Nat) : Bool × CpuState :=
  match s.getRegister x, s.getRegister y with
  | some vx, some vy =>
    let s := if s.v vx ≠ s.v vy then { s with pc := (s.pc + 2) % 65536 } else s
    let s := { s with pc := (s.pc + 2) % 65536 }
    (true, s)
  | _, _ => (false, s)

/-- Instruction `Annn`. -/
def LD_I_Addr (s : CpuState) (value : Nat) : Bool × CpuState :=
  let s := { s with ir := value }
  let s := { s with pc := (s.pc + 2) % 65536 }
  (true, s)

/-- Instruction `Bnnn`. -/
def JP_V0_Addr (s : CpuState) (value : Nat) : Bool × CpuState :=
  let s := { s with pc := (value + s.v 0) % 65536 }
  (true, s)

/-- Instruction `Cxkk`: the sampled number is narrowed to a byte before the mask. -/
def RND_Vx_Byte (s : CpuState) (inp : Input) (x value : Nat) : Bool × CpuState :=
  match s.getRegister x with
  | none => (false, s)
  | some vx =>
    let randomValue := inp.randomValue % 256
    let s := { s with v := Function.update s.v vx ((randomValue &&& value) % 256) }
    let s := { s with pc := (s.pc + 2) % 65536 }
    (true, s)

/-- Body of the loop of `DRW_Vx_Vy_Nibble` for the sprite row `i`: the byte at the
    16-bit address `ir + i` is drawn at the coordinates `Vx`, `Vy + i` (the latter
    narrowed to a byte), and `didErase` accumulates. -/
def DRW_row (s : CpuState) (mem : Memory) (vx vy : Fin 16) (acc : Bool × VgaState) (i : Nat) :
    Option (Bool × VgaState) := do
  let byte := mem.readByte ((s.ir + i) % 65536)
  let (erased, vga) ← acc.2.drawByte (s.v vx) ((s.v vy + i) % 256) byte
  pure (erased || acc.1, vga)

/-- Instruction `Dxyn`: the rows `i = 0 .. n - 1` are drawn in turn; the flag is
    written after the loop. -/
def DRW_Vx_Vy_Nibble (s : CpuState) (mem : Memory) (x y n : Nat) :
    Option (Bool × CpuState) :=
  match s.getRegister x, s.getRegister y with
  | some vx, some vy =>
    if n = 0 then some (false, s)
    else do
      let (didErase, vga) ← (List.range n).foldlM (s.DRW_row mem vx vy) (false, s.vgaState)
      let s := { s with vgaState := vga }
      let s := { s with v := Function.update s.v 15 (if didErase then 1 else 0) }
      let s := { s with pc := (s.pc + 2) % 65536 }
      pure (true, s)
  | _, _ => some (false, s)

/-- Instruction `Ex9E`. -/
def SKP_Vx (s : CpuState) (inp : Input) (x : Nat) : Bool × CpuState :=
  match s.getRegister x with
  | none => (false, s)
  | some vx =>
    let input := s.getCurrentKeyboardValue inp
    let s := if s.v vx = input then { s with pc := (s.pc + 2) % 65536 } else s
    let s := { s with pc := (s.pc + 2) % 65536 }
    (true, s)

/-- Instruction `ExA1`. -/
def SKNP_Vx (s : CpuState) (inp : Input) (x : Nat) : Bool × CpuState :=
  match s.getRegister x with
  | none => (false, s)
  | some vx =>
    let input := s.getCurrentKeyboardValue inp
    let s := if s.v vx ≠ input then { s with pc := (s.pc + 2) % 65536 } else s
    let s := { s with pc := (s.pc + 2) % 65536 }
    (true, s)

/-- Instruction `Fx07`. -/
def LD_Vx_DT (s : CpuState) (x : Nat) : Bool × CpuState :=
  match s.getRegister x with
  | none => (false, s)
  | some vx =>
    let s := { s with v := Function.update s.v vx s.dt }
    let s := { s with pc := (s.pc + 2) % 65536 }
    (true, s)

/-- Instruction `Fx0A`: the wait for a key. -/
def LD_Vx_K (s : CpuState) (g : Shared) (x : Nat) : Bool × CpuState × Shared :=
  match s.getRegister x with
  | none => (false, s, g)
  | some vx =>
    let g := { g with waitingForKeyboard := true }
    if g.keyboardPressedValue = 0xFF then (false, s, g)
    else
      let s := { s with v := Function.update s.v vx g.keyboardPressedValue }
      let s := { s with pc := (s.pc + 2) % 65536 }
      let g := { g with keyboardPressedValue := 0xFF }
      let g := { g with waitingForKeyboard := false }
      (true, s, g)

/-- Instruction `Fx15`. -/
def LD_DT_Vx (s : CpuState) (x : Nat) : Bool × CpuState :=
  match s.getRegister x with
  | none => (false, s)
  | some vx =>
    let s := { s with dt := s.v vx }
    let s := { s with pc := (s.pc + 2) % 65536 }
    (true, s)

/-- Instruction `Fx18`. -/
def LD_ST_Vx (s : CpuState) (x : Nat) : Bool × CpuState :=
  match s.getRegister x with
  | none => (false, s)
  | some vx =>
    let s := { s with st := s.v vx }
    let s := { s with pc := (s.pc + 2) % 65536 }
    (true, s)

/-- Instruction `Fx1E`. -/
def ADD_I_Vx (s : CpuState) (x : Nat) : Bool × CpuState :=
  match s.getRegister x with
  | none => (false, s)
  | some vx =>
    let s := { s with ir := (s.ir + s.v vx) % 65536 }
    let s := { s with pc := (s.pc + 2) % 65536 }
    (true, s)

/-- Instruction `Fx29`. -/
def LD_F_Vx (s : CpuState) (x : Nat) : Bool × CpuState :=
  match s.getRegister x with
  | none => (false, s)
  | some vx =>
    let s := { s with ir := getFontSpriteAddress (s.v vx) }
    let s := { s with pc := (s.pc + 2) % 65536 }
    (true, s)

/-- Instruction `Fx33`: the three decimal digits of `Vx` go to `ir`, `ir + 1`,
    `ir + 2`. -/
def LD_B_Vx (s : CpuState) (mem : Memory) (x : Nat) : Bool × CpuState × Memory :=
  match s.getRegister x with
  | none => (false, s, mem)
  | some vx =>
    let hundreds := ((s.v vx / 100) % 10) % 256
    let tens := ((s.v vx / 10) % 10) % 256
    let ones := (s.v vx % 10) % 256
    let mem := mem.writeByte (s.ir : Int) hundreds
    let mem := mem.writeByte ((s.ir : Int) + 1) tens
    let mem := mem.writeByte ((s.ir : Int) + 2) ones
    let s := { s with pc := (s.pc + 2) % 65536 }
    (true, s, mem)

/-- Instruction `Fx55`: the loop runs over `i = 0 .. x`; `getRegister i` is
    dereferenced unchecked, so an index above 15 is undefined. -/
def LD_IAddr_Vx (s : CpuState) (q : Quirks) (mem : Memory) (x : Nat) :
    Option (Bool × CpuState × Memory) := do
  let mem ← (List.range (x + 1)).foldlM
    (fun (mem : Memory) i => do
      let vx ← s.getRegister i
      pure (mem.writeByte ((s.ir : Int) + (i : Int)) (s.v vx)))
    mem
  let s := if q.memoryIncrementI then { s with ir := (s.ir + (x + 1)) % 65536 } else s
  let s := { s with pc := (s.pc + 2) % 65536 }
  pure (true, s, mem)

/-- Instruction `Fx65`: the loop runs over `i = 0 .. x`, reading the byte at the
    16-bit address `ir + i` into `v[i]`. -/
def LD_Vx_IAddr (s : CpuState) (q : Quirks) (mem : Memory) (x : Nat) :
    Option (Bool × CpuState) := do
  let s ← (List.range (x + 1)).foldlM
    (fun (s : CpuState) i => do
      let vx ← s.getRegister i
      pure { s with v := Function.update s.v vx (mem.readByte ((s.ir + i) % 65536)) })
    s
  let s := if q.memoryIncrementI then { s with ir := (s.ir + (x + 1)) % 65536 } else s
  let s := { s with pc := (s.pc + 2) % 65536 }
  pure (true, s)

/-- The `switch` of `processOpcode`, applied to one machine state: the word is
    decoded, its fields are extracted and the matching method is called. The
    result holds the method's return value, the state and the shared variables
    after the call. -/
def processOpcode (s : CpuState) (q : Quirks) (inp : Input) (g : Shared) (word : Nat) :
    Option (Bool × CpuState × Shared) :=
  let opcode := decode word
  let x := getOpcodeX word
  let y := getOpcodeY word
  let z := getOpcodeZ word
  let kk := getOpcodeKK word
  let nnn := getOpcodeNNN word
  let same : Bool × CpuState → Option (Bool × CpuState × Shared) :=
    fun r => some (r.1, r.2, g)
  match opcode with
  | Opcode.CLS => same s.CLS
  | Opcode.RET => s.RET.bind same
  | Opcode.JP_Addr => same (s.JP_Addr nnn)
  | Opcode.CALL_Addr => same (s.CALL_Addr nnn)
  | Opcode.SE_Vx_Byte => same (s.SE_Vx_Byte x kk)
  | Opcode.SNE_Vx_Byte => same (s.SNE_Vx_Byte x kk)
  | Opcode.SE_Vx_Vy => same (s.SE_Vx_Vy x y)
  | Opcode.LD_Vx_Byte => same (s.LD_Vx_Byte x kk)
  | Opcode.ADD_Vx_Byte => same (s.ADD_Vx_Byte x kk)
  | Opcode.LD_Vx_Vy => same (s.LD_Vx_Vy x y)
  | Opcode.OR_Vx_Vy => same (s.OR_Vx_Vy x y)
  | Opcode.AND_Vx_Vy => same (s.AND_Vx_Vy x y)
  | Opcode.XOR_Vx_Vy => same (s.XOR_Vx_Vy x y)
  | Opcode.ADD_Vx_Vy => same (s.ADD_Vx_Vy x y)
  | Opcode.SUB_Vx_Vy => same (s.SUB_Vx_Vy x y)
  | Opcode.SHR_Vx_Vy => same (s.SHR_Vx_Vy q x y)
  | Opcode.SUBN_Vx_Vy => same (s.SUBN_Vx_Vy x y)
  | Opcode.SHL_Vx_Vy => same (s.SHL_Vx_Vy q x y)
  | Opcode.SNE_Vx_Vy => same (s.SNE_Vx_Vy x y)
  | Opcode.LD_I_Addr => same (s.LD_I_Addr nnn)
  | Opcode.JP_V0_Addr => same (s.JP_V0_Addr nnn)
  | Opcode.RND_Vx_Byte => same (s.RND_Vx_Byte inp x kk)
  | Opcode.DRW_Vx_Vy_Nibble => (s.DRW_Vx_Vy_Nibble g.mem x y z).bind same
  | Opcode.SKP_Vx => same (s.SKP_Vx inp x)
  | Opcode.SKNP_Vx => same (s.SKNP_Vx inp x)
  | Opcode.LD_Vx_DT => same (s.LD_Vx_DT x)
  | Opcode.LD_Vx_K => some (s.LD_Vx_K g x)
  | Opcode.LD_DT_Vx => same (s.LD_DT_Vx x)
  | Opcode.LD_ST_Vx => same (s.LD_ST_Vx x)
  | Opcode.ADD_I_Vx => same (s.ADD_I_Vx x)
  | Opcode.LD_F_Vx => same (s.LD_F_Vx x)
  | Opcode.LD_B_Vx =>
    let r := s.LD_B_Vx g.mem x
    some (r.1, r.2.1, { g with mem := r.2.2 })
  | Opcode.LD_IAddr_Vx =>
    (s.LD_IAddr_Vx q g.mem x).bind (fun r => some (r.1, r.2.1, { g with mem := r.2.2 }))
  | Opcode.LD_Vx_IAddr => (s.LD_Vx_IAddr q g.mem x).bind same
  | Opcode.Invalid => some (false, s, g)

end CpuState

/-! ## src/cpu.cpp: the engine and its history of states -/

/-- Capacity of the history, `maxCpuStates`. -/
def maxCpuStates : Nat := 1000

/-- The module-level variables of `c8::cpu` (with the memory of `c8::mem`, through
    `Shared`). The two figures shown in the debug overlay, `cpuHertz` and
    `hostFps`, take no part in execution and are left out. -/
structure Engine extends Shared where
  paused : Bool
  doAdvanceOneClockCycle : Bool
  cpuStates : Fin 1000 → CpuState
  totalCpuCycles : Nat
  currentCpuStateDisplayIndex : Int
  currentCpuStateIndex : Nat
  headCpuStateIndex : Nat

namespace Engine

/-- Reading `cpuStates[i]`; outside the array the C++ access is undefined. -/
def cpuStateAt (e : Engine) (i : Nat) : Option CpuState :=
  if h : i < 1000 then some (e.cpuStates ⟨i, h⟩) else none

/-- Writing `cpuStates[i]`; outside the array the C++ access is undefined. -/
def setCpuState (e : Engine) (i : Nat) (s : CpuState) : Option Engine :=
  if h : i < 1000 then some { e with cpuStates := Function.update e.cpuStates ⟨i, h⟩ s }
  else none

/-- Counterpart of `getCurrentCpuState`: the slot under the cursor `current`. -/
def getCurrentCpuState (e : Engine) : Option CpuState :=
  e.cpuStateAt e.currentCpuStateIndex

/-- Counterpart of `reset`: both cursors and the cycle counter return to 0, slot 0
    gets `pc = 0x200` and a cleared display, and the memory is restored. -/
def reset (e : Engine) : Engine :=
  let e := { e with currentCpuStateIndex := 0, headCpuStateIndex := 0, totalCpuCycles := 0 }
  let currentCpuState := e.cpuStates 0
  let currentCpuState := { currentCpuState with pc := 0x200 }
  let currentCpuState := { currentCpuState with vgaState := currentCpuState.vgaState.clear }
  let e := { e with cpuStates := Function.update e.cpuStates 0 currentCpuState }
  { e with mem := e.mem.reset }

/-- Counterpart of `keyboardKeyPressed`. -/
def keyboardKeyPressed (e : Engine) (value : Nat) : Engine :=
  if !e.waitingForKeyboard then e
  else { e with keyboardPressedValue := value }

/-- Counterpart of `getProgramCounter`. -/
def getProgramCounter (e : Engine) : Option Nat :=
  e.getCurrentCpuState.map (fun s => s.pc)

/-- Counterpart of `togglePaused`. -/
def togglePaused (e : Engine) : Engine :=
  { e with paused := !e.paused }

/-- Counterpart of `advanceOneClockCycle`. -/
def advanceOneClockCycle (e : Engine) : Engine :=
  if !e.paused then e
  else { e with doAdvanceOneClockCycle := true }

/-- Counterpart of `backOneClockCylce` (the name is spelt as in the source). -/
def backOneClockCylce (e : Engine) : Engine :=
  if !e.paused then e
  else
    let e :=
      if e.currentCpuStateIndex ≠ e.headCpuStateIndex + 1 then
        { e with
          currentCpuStateIndex :=
            if e.currentCpuStateIndex = 0 then maxCpuStates - 1 else e.currentCpuStateIndex - 1
          currentCpuStateDisplayIndex := e.currentCpuStateDisplayIndex - 1 }
      else e
    if e.totalCpuCycles < maxCpuStates ∧ e.currentCpuStateIndex > e.headCpuStateIndex then
      { e with currentCpuStateIndex := 0, currentCpuStateDisplayIndex := 0 }
    else e

/-- Counterpart of `decrementTimers`. -/
def decrementTimers (e : Engine) : Option Engine :=
  if e.paused && !e.doAdvanceOneClockCycle then some e
  else do
    let currentCpuState ← e.getCurrentCpuState
    let currentCpuState :=
      if currentCpuState.dt > 0 then { currentCpuState with dt := currentCpuState.dt - 1 }
      else currentCpuState
    let currentCpuState :=
      if currentCpuState.st > 0 then { currentCpuState with st := currentCpuState.st - 1 }
      else currentCpuState
    e.setCpuState e.currentCpuStateIndex currentCpuState

/-- Counterpart of `processOpcode`: the method selected by the word runs on the
    slot under `current`, in place, and on the shared variables. -/
def processOpcode (e : Engine) (q : Quirks) (inp : Input) (word : Nat) :
    Option (Bool × Engine) := do
  let currentCpuState ← e.getCurrentCpuState
  let (didUpdate, currentCpuState, g) ← currentCpuState.processOpcode q inp e.toShared word
  let e ← { e with toShared := g }.setCpuState e.currentCpuStateIndex currentCpuState
  pure (didUpdate, e)

/-- Counterpart of `executeClockCycle`. -/
def executeClockCycle (e : Engine) (q : Quirks) (inp : Input) : Option Engine :=
  if e.paused && !e.doAdvanceOneClockCycle then some e
  else
    let e := { e with doAdvanceOneClockCycle := false }
    let e := { e with
      currentCpuStateDisplayIndex :=
        if e.currentCpuStateDisplayIndex = (maxCpuStates : Int) then (maxCpuStates : Int)
        else e.currentCpuStateDisplayIndex + 1 }
    if e.currentCpuStateIndex ≠ e.headCpuStateIndex then
      some { e with
        currentCpuStateIndex :=
          if e.currentCpuStateIndex = maxCpuStates - 1 then 0 else e.currentCpuStateIndex + 1 }
    else do
      let currentCpuState ← e.getCurrentCpuState
      let opcode := e.mem.readWord currentCpuState.pc
      if opcode = 0x0 then pure e
      else
        let e := { e with totalCpuCycles := (e.totalCpuCycles + 1) % 2 ^ 64 }
        let e := { e with
          headCpuStateIndex :=
            if e.headCpuStateIndex = maxCpuStates - 1 then 0 else e.headCpuStateIndex + 1 }
        let e := { e with currentCpuStateIndex := e.headCpuStateIndex }
        let e ← e.setCpuState e.headCpuStateIndex currentCpuState
        let (didUpdate, e) ← e.processOpcode q inp opcode
        if !didUpdate then
          let e := { e with
            headCpuStateIndex :=
              if e.headCpuStateIndex = 0 then maxCpuStates - 1 else e.headCpuStateIndex - 1 }
          pure { e with currentCpuStateIndex := e.headCpuStateIndex }
        else pure e

end Engine

/-! ## Reference definitions used in the statements -/

/-- The decode table as documented: the kind fixed by the top nibble `w / 4096`
    together with the low byte `kk = w % 256` or the low nibble `z = w % 16`. -/
def decodeTable (w : Nat) : Opcode :=
  let kk := w % 256
  let z := w % 16
  match w / 4096 with
  | 0x0 => if kk = 0xE0 then Opcode.CLS else if kk = 0xEE then Opcode.RET else Opcode.Invalid
  | 0x1 => Opcode.JP_Addr
  | 0x2 => Opcode.CALL_Addr
  | 0x3 => Opcode.SE_Vx_Byte
  | 0x4 => Opcode.SNE_Vx_Byte
  | 0x5 => if z = 0 then Opcode.SE_Vx_Vy else Opcode.Invalid
  | 0x6 => Opcode.LD_Vx_Byte
  | 0x7 => Opcode.ADD_Vx_Byte
  | 0x8 =>
    match z with
    | 0x0 => Opcode.LD_Vx_Vy
    | 0x1 => Opcode.OR_Vx_Vy
    | 0x2 => Opcode.AND_Vx_Vy
    | 0x3 => Opcode.XOR_Vx_Vy
    | 0x4 => Opcode.ADD_Vx_Vy
    | 0x5 => Opcode.SUB_Vx_Vy
    | 0x6 => Opcode.SHR_Vx_Vy
    | 0x7 => Opcode.SUBN_Vx_Vy
    | 0xE => Opcode.SHL_Vx_Vy
    | _ => Opcode.Invalid
  | 0x9 => if z = 0 then Opcode.SNE_Vx_Vy else Opcode.Invalid
  | 0xA => Opcode.LD_I_Addr
  | 0xB => Opcode.JP_V0_Addr
  | 0xC => Opcode.RND_Vx_Byte
  | 0xD => Opcode.DRW_Vx_Vy_Nibble
  | 0xE => if kk = 0x9E then Opcode.SKP_Vx else if kk = 0xA1 then Opcode.SKNP_Vx else Opcode.Invalid
  | 0xF =>
    match kk with
    | 0x07 => Opcode.LD_Vx_DT
    | 0x0A => Opcode.LD_Vx_K
    | 0x15 => Opcode.LD_DT_Vx
    | 0x18 => Opcode.LD_ST_Vx
    | 0x1E => Opcode.ADD_I_Vx
    | 0x29 => Opcode.LD_F_Vx
    | 0x33 => Opcode.LD_B_Vx
    | 0x55 => Opcode.LD_IAddr_Vx
    | 0x65 => Opcode.LD_Vx_IAddr
    | _ => Opcode.Invalid
  | _ => Opcode.Invalid

/-- One word for each of the 34 instruction kinds (and `0` for `Invalid`). -/
def sampleWord : Opcode → Nat
  | Opcode.Invalid => 0x0000
  | Opcode.CLS => 0x00E0
  | Opcode.RET => 0x00EE
  | Opcode.JP_Addr => 0x1234
  | Opcode.CALL_Addr => 0x2345
  | Opcode.SE_Vx_Byte => 0x3456
  | Opcode.SNE_Vx_Byte => 0x4567
  | Opcode.SE_Vx_Vy => 0x5670
  | Opcode.LD_Vx_Byte => 0x6789
  | Opcode.ADD_Vx_Byte => 0x789A
  | Opcode.LD_Vx_Vy => 0x8120
  | Opcode.OR_Vx_Vy => 0x8121
  | Opcode.AND_Vx_Vy => 0x8122
  | Opcode.XOR_Vx_Vy => 0x8123
  | Opcode.ADD_Vx_Vy => 0x8124
  | Opcode.SUB_Vx_Vy => 0x8125
  | Opcode.SHR_Vx_Vy => 0x8126
  | Opcode.SUBN_Vx_Vy => 0x8127
  | Opcode.SHL_Vx_Vy => 0x812E
  | Opcode.SNE_Vx_Vy => 0x9120
  | Opcode.LD_I_Addr => 0xA123
  | Opcode.JP_V0_Addr => 0xB123
  | Opcode.RND_Vx_Byte => 0xC1FF
  | Opcode.DRW_Vx_Vy_Nibble => 0xD125
  | Opcode.SKP_Vx => 0xE19E
  | Opcode.SKNP_Vx => 0xE1A1
  | Opcode.LD_Vx_DT => 0xF107
  | Opcode.LD_Vx_K => 0xF10A
  | Opcode.LD_DT_Vx => 0xF115
  | Opcode.LD_ST_Vx => 0xF118
  | Opcode.ADD_I_Vx => 0xF11E
  | Opcode.LD_F_Vx => 0xF129
  | Opcode.LD_B_Vx => 0xF133
  | Opcode.LD_IAddr_Vx => 0xF155
  | Opcode.LD_Vx_IAddr => 0xF165

/-! ## Total counterparts of the display operations, used in the statements -/

/-- The pixel in row `y`, column `x`; `false` outside the grid. -/
def VgaState.pixel (vga : VgaState) (y x : Nat) : Bool :=
  (vga.getPixel y x).getD false

/-- The display with the single pixel in row `y`, column `x` XORed with `bit`. -/
def VgaState.flipPixel (vga : VgaState) (y x : Nat) (bit : Bool) : VgaState :=
  { frameBuffer := fun r c =>
      if r.val = y ∧ c.val = x then xor (vga.frameBuffer r c) bit else vga.frameBuffer r c }

/-- The display with the eight pixels of row `y`, columns `x .. x + 7`, XORed with
    the bits of `byte`, bit 7 going to column `x` and bit 0 to column `x + 7`. -/
def VgaState.xorRow (vga : VgaState) (x y byte : Nat) : VgaState :=
  { frameBuffer := fun r c =>
      if r.val = y ∧ x ≤ c.val ∧ c.val < x + 8 then
        xor (vga.frameBuffer r c) (byte.testBit (7 - (c.val - x)))
      else vga.frameBuffer r c }

/-- Whether one of the eight pixels of row `y`, columns `x .. x + 7`, is lit while
    the bit of `byte` that falls on it is set. -/
def VgaState.rowErases (vga : VgaState) (x y byte : Nat) : Bool :=
  (List.range 8).any (fun i => vga.pixel y (x + i) && byte.testBit (7 - i))

/-- The display after `n` sprite rows, row `i` being the byte `rows i`, have been
    XORed into the rows `y .. y + n - 1` from column `x`. -/
def VgaState.xorRows (vga : VgaState) (x y : Nat) (rows : Nat → Nat) (n : Nat) : VgaState :=
  { frameBuffer := fun r c =>
      if y ≤ r.val ∧ r.val < y + n ∧ x ≤ c.val ∧ c.val < x + 8 then
        xor (vga.frameBuffer r c) ((rows (r.val - y)).testBit (7 - (c.val - x)))
      else vga.frameBuffer r c }

/-- Whether one of the `n` sprite rows falls on a lit pixel with a set bit. -/
def VgaState.rowsErase (vga : VgaState) (x y : Nat) (rows : Nat → Nat) (n : Nat) : Bool :=
  (List.range n).any (fun i => vga.rowErases x (y + i) (rows i))

/-! ## Reference definitions for a sprite drawn at arbitrary coordinates -/

/-- The column at which `drawByte` starts: `x`, or 0 when `x` is outside the grid. -/
def clampColumn (x : Nat) : Nat := if x ≥ frameBufferWidth then 0 else x

/-- The row into which `drawByte` draws: `y`, or 0 when `y` is outside the grid. -/
def clampRow (y : Nat) : Nat := if y ≥ frameBufferHeight then 0 else y

/-- The row of the display that receives the sprite row `i` of `DRW`. -/
def CpuState.spriteRow (s : CpuState) (vy : Fin 16) (i : Nat) : Nat :=
  clampRow ((s.v vy + i) % 256)

/-- The byte that `DRW` draws as its sprite row `i`. -/
def CpuState.spriteByte (s : CpuState) (mem : Memory) (i : Nat) : Nat :=
  mem.readByte ((s.ir + i) % 65536)

/-- The display after the sprite rows listed in `rows` have been XORed in, in
    order, from column `clampColumn Vx`. -/
def CpuState.drawnRows (s : CpuState) (mem : Memory) (vx vy : Fin 16) :
    List Nat → VgaState → VgaState
  | [], vga => vga
  | i :: rows, vga =>
    s.drawnRows mem vx vy rows
      (vga.xorRow (clampColumn (s.v vx)) (s.spriteRow vy i) (s.spriteByte mem i))

/-- Whether, while the sprite rows listed in `rows` are XORed in, in order, some
    row falls on a pixel that is lit at that moment with a set bit. -/
def CpuState.erasedByRows (s : CpuState) (mem : Memory) (vx vy : Fin 16) :
    List Nat → VgaState → Bool
  | [], _ => false
  | i :: rows, vga =>
    vga.rowErases (clampColumn (s.v vx)) (s.spriteRow vy i) (s.spriteByte mem i) ||
      s.erasedByRows mem vx vy rows
        (vga.xorRow (clampColumn (s.v vx)) (s.spriteRow vy i) (s.spriteByte mem i))

/-! ## Sequences of calls -/

/-- One call of `executeClockCycle` for each input of the list, in order. -/
def Engine.runCycles (e : Engine) (q : Quirks) : List Input → Option Engine
  | [] => some e
  | inp :: rest => (e.executeClockCycle q inp).bind (fun e' => e'.runCycles q rest)

/-- The call `executeClockCycle` takes `e` to `e'` and commits a state: the head
    cursor moves. (By `executeClockCycle_head_moved` this is the Live path taken
    to the end with an instruction that reports an update.) -/
def Engine.Commits (q : Quirks) (inp : Input) (e e' : Engine) : Prop :=
  e.executeClockCycle q inp = some e' ∧ e'.headCpuStateIndex ≠ e.headCpuStateIndex

/-- Single-step advances: `advanceOneClockCycle` followed by `executeClockCycle`,
    once for each input of the list. -/
def Engine.singleSteps (e : Engine) (q : Quirks) : List Input → Option Engine
  | [] => some e
  | inp :: rest =>
    (e.advanceOneClockCycle.executeClockCycle q inp).bind (fun e' => e'.singleSteps q rest)

/-! ## Concrete inputs at which the theorems are instantiated -/

/-- The quirks switched off. -/
def noQuirks : Quirks := { shiftWithVy := false, memoryIncrementI := false }

/-- An input with no key held down. -/
def noInput : Input := { pressedKeys := [], randomValue := 0 }

/-- The machine state whose fields are all zero, with a dark display and an empty
    stack. -/
def blankState : CpuState :=
  { vgaState := { frameBuffer := fun _ _ => false }
    pc := 0
    ir := 0
    dt := 0
    st := 0
    sp := 0
    v := fun _ => 0
    stack := [] }

/-- A machine state with `pc = 0x200`, a dark display, an empty stack and the
    registers `v[i] = (17 * i + 3) % 256` (so `v[1] = 20`, `v[2] = 37`, `v[15] = 2`). -/
def exampleState : CpuState :=
  { vgaState := { frameBuffer := fun _ _ => false }
    pc := 0x200
    ir := 0
    dt := 0
    st := 0
    sp := 0
    v := fun i => (17 * i.val + 3) % 256
    stack := [] }

/-- A machine state about to draw at the right edge of the last row: `v[0] = 62`,
    `v[1] = 31`, `ir = 0`, `pc = 0x200`, a dark display. -/
def edgeState : CpuState :=
  { vgaState := { frameBuffer := fun _ _ => false }
    pc := 0x200
    ir := 0
    dt := 0
    st := 0
    sp := 0
    v := fun i => if i = 0 then 62 else if i = 1 then 31 else 0
    stack := [] }

/-- A memory whose first five bytes are the font sprite of the digit 0 and whose
    other bytes are 0. -/
def exampleMemory : Memory :=
  { buffer := fun a => [0xF0, 0x90, 0x90, 0x90, 0xF0].getD a.val 0
    originalBuffer := fun a => [0xF0, 0x90, 0x90, 0x90, 0xF0].getD a.val 0 }

/-- The memory that holds `program` from address `0x200` on and 0 elsewhere. -/
def programMemory (program : List Nat) : Memory :=
  { buffer := fun a => if a.val < 0x200 then 0 else program.getD (a.val - 0x200) 0
    originalBuffer := fun a => if a.val < 0x200 then 0 else program.getD (a.val - 0x200) 0 }

/-- A running engine right after `reset`, with `program` in memory: no key wait is
    pending, every slot of the history is blank and slot 0 has `pc = 0x200`. -/
def freshEngine (program : List Nat) : Engine :=
  Engine.reset
    { mem := programMemory program
      waitingForKeyboard := false
      keyboardPressedValue := 0xFF
      paused := false
      doAdvanceOneClockCycle := false
      cpuStates := fun _ => blankState
      totalCpuCycles := 0
      currentCpuStateDisplayIndex := 0
      currentCpuStateIndex := 0
      headCpuStateIndex := 0 }

/-- A program of two instructions: `LD V0, 5` and `LD V1, 7`. -/
def twoLoads : List Nat := [0x60, 0x05, 0x61, 0x07]

/-- The engine after `i` cycles of `twoLoads` from a fresh engine. -/
def twoLoadsTrace (i : Nat) : Engine :=
  ((freshEngine twoLoads).runCycles noQuirks (List.replicate i noInput)).getD
    (freshEngine twoLoads)

/-- A machine state with `pc = 0x200`, delay timer 3 and sound timer 0. -/
def timerState : CpuState :=
  { vgaState := { frameBuffer := fun _ _ => false }
    pc := 0x200
    ir := 0
    dt := 3
    st := 0
    sp := 0
    v := fun _ => 0
    stack := [] }

/-- A running engine whose current state is `timerState`. -/
def timerEngine : Engine :=
  { mem := programMemory []
    waitingForKeyboard := false
    keyboardPressedValue := 0xFF
    paused := false
    doAdvanceOneClockCycle := false
    cpuStates := fun _ => timerState
    totalCpuCycles := 0
    currentCpuStateDisplayIndex := 0
    currentCpuStateIndex := 0
    headCpuStateIndex := 0 }

/-- A paused engine in the middle of its history: `head = 5`, `current = 2`. -/
def rewoundEngine : Engine :=
  { mem := programMemory []
    waitingForKeyboard := false
    keyboardPressedValue := 0xFF
    paused := true
    doAdvanceOneClockCycle := true
    cpuStates := fun i => { blankState with pc := 0x200 + 2 * i.val }
    totalCpuCycles := 5
    currentCpuStateDisplayIndex := 2
    currentCpuStateIndex := 2
    headCpuStateIndex := 5 }

/-- A program that commits a state in every cycle, for ever: `LD V0, 5` at `0x200`
    and `JP 0x200` at `0x202`. -/
def loadAndJump : List Nat := [0x60, 0x05, 0x12, 0x00]

/-- The engine after `i` cycles of `loadAndJump` from a fresh engine. -/
def loadAndJumpTrace (i : Nat) : Engine :=
  ((freshEngine loadAndJump).runCycles noQuirks (List.replicate i noInput)).getD
    (freshEngine loadAndJump)

/-- The program `JP 0x200` at `0x200`, a jump to itself. -/
def selfJump : List Nat := [0x12, 0x00]

/-- A memory that holds `ADD V0, 1` (`0x7001`) at each of the 1000 even addresses
    from `0x200` to `0x9CE`, followed by `JP 0x9D0` (`0x19D0`) at `0x9D0`, a jump to
    itself: a program that commits 1000 states and then spins. -/
def countThenSpinMemory : Memory :=
  { buffer := fun a =>
      if a.val < 0x200 then 0
      else if a.val < 0x9D0 then (if a.val % 2 = 0 then 0x70 else 0x01)
      else if a.val = 0x9D0 then 0x19
      else if a.val = 0x9D1 then 0xD0
      else 0
    originalBuffer := fun a =>
      if a.val < 0x200 then 0
      else if a.val < 0x9D0 then (if a.val % 2 = 0 then 0x70 else 0x01)
      else if a.val = 0x9D0 then 0x19
      else if a.val = 0x9D1 then 0xD0
      else 0 }

/-- A running engine right after `reset`, with `countThenSpinMemory` as memory. -/
def countThenSpin : Engine :=
  Engine.reset
    { mem := countThenSpinMemory
      waitingForKeyboard := false
      keyboardPressedValue := 0xFF
      paused := false
      doAdvanceOneClockCycle := false
      cpuStates := fun _ => blankState
      totalCpuCycles := 0
      currentCpuStateDisplayIndex := 0
      currentCpuStateIndex := 0
      headCpuStateIndex := 0 }

/-- The engine after `i` cycles from `countThenSpin`. -/
def countThenSpinTrace (i : Nat) : Engine :=
  (countThenSpin.runCycles noQuirks (List.replicate i noInput)).getD countThenSpin

/-- A running engine with the program `00E0` (`CLS`) whose slots all hold a state
    with `pc = 0x200` and every pixel on. -/
def litEngine : Engine :=
  { freshEngine [0x00, 0xE0] with
    cpuStates := fun _ =>
      { blankState with pc := 0x200, vgaState := { frameBuffer := fun _ _ => true } } }

/-! ## src/memory.cpp: the contents of the memory at start and after a load -/

/-- The table `sprites`: the five rows of each of the digits 0..F. -/
def sprites : List (List Nat) :=
  [[0xF0, 0x90, 0x90, 0x90, 0xF0],
   [0x20, 0x60, 0x20, 0x20, 0x70],
   [0xF0, 0x10, 0xF0, 0x80, 0xF0],
   [0xF0, 0x10, 0xF0, 0x10, 0xF0],
   [0x90, 0x90, 0xF0, 0x10, 0x10],
   [0xF0, 0x80, 0xF0, 0x10, 0xF0],
   [0xF0, 0x80, 0xF0, 0x90, 0xF0],
   [0xF0, 0x10, 0x20, 0x40, 0x40],
   [0xF0, 0x90, 0xF0, 0x90, 0xF0],
   [0xF0, 0x90, 0xF0, 0x10, 0xF0],
   [0xF0, 0x90, 0xF0, 0x90, 0x90],
   [0xE0, 0x90, 0xE0, 0x90, 0xE0],
   [0xF0, 0x80, 0x80, 0x80, 0xF0],
   [0xE0, 0x90, 0x90, 0x90, 0xE0],
   [0xF0, 0x80, 0xF0, 0x80, 0xF0],
   [0xF0, 0x80, 0xF0, 0x80, 0x80]]

/-- The bytes of `defaultProgram`, the program that is in memory when no file is
    loaded. -/
def defaultProgram : List Nat :=
  [0x12, 0x0c, 0xf0, 0x80, 0x80, 0x80, 0xf0, 0xf0, 0x90, 0xf0, 0x90, 0xf0,
   0x6e, 0x10, 0x60, 0x1b, 0x61, 0x0a, 0xa2, 0x02, 0xd0, 0x15, 0x80, 0xf0,
   0x60, 0x20, 0x61, 0x0a, 0xa2, 0x07, 0xd0, 0x15, 0x80, 0xf0, 0x60, 0x01,
   0x40, 0x00, 0x12, 0x2a, 0x12, 0x22, 0x6f, 0x03, 0x8e, 0xf5, 0x8f, 0x00,
   0xfe, 0x29, 0xfe, 0x65, 0x00, 0xee, 0x60, 0xff, 0x61, 0x00, 0xe1, 0xa1,
   0x60, 0x00, 0x61, 0x01, 0xe1, 0xa1, 0x60, 0x01, 0x61, 0x02, 0xe1, 0xa1,
   0x60, 0x02, 0x61, 0x03, 0xe1, 0xa1, 0x60, 0x03, 0x61, 0x04, 0xe1, 0xa1,
   0x60, 0x04, 0x61, 0x05, 0xe1, 0xa1, 0x60, 0x05, 0x61, 0x06, 0xe1, 0xa1,
   0x60, 0x06, 0x61, 0x07, 0xe1, 0xa1, 0x60, 0x07, 0x61, 0x08, 0xe1, 0xa1,
   0x60, 0x08, 0x61, 0x09, 0xe1, 0xa1, 0x60, 0x09, 0x61, 0x0a, 0xe1, 0xa1,
   0x60, 0x0a, 0x61, 0x0b, 0xe1, 0xa1, 0x60, 0x0b, 0x61, 0x0c, 0xe1, 0xa1,
   0x60, 0x0c, 0x61, 0x0d, 0xe1, 0xa1, 0x60, 0x0d, 0x61, 0x0e, 0xe1, 0xa1,
   0x60, 0x0e, 0x61, 0x0f, 0xe1, 0xa1, 0x60, 0x0f, 0x6f, 0x03, 0x8e, 0xf5,
   0x8f, 0x00, 0xfe, 0x29, 0xfe, 0x65, 0x00, 0xee, 0x85, 0x20, 0x84, 0x10,
   0x83, 0x00, 0x66, 0x00, 0xf5, 0x33, 0xf2, 0x65, 0xf0, 0x29, 0xd3, 0x45,
   0x86, 0xf1, 0xf1, 0x29, 0x73, 0x05, 0xd3, 0x45, 0x86, 0xf1, 0xf2, 0x29,
   0x73, 0x05, 0xd3, 0x45, 0x86, 0xf1, 0x6f, 0x03, 0x8e, 0xf5, 0x8f, 0x60,
   0xfe, 0x29, 0xfe, 0x65, 0x00, 0xee]

/-- Counterpart of `zeroMemory`. -/
def Memory.zeroMemory (m : Memory) : Memory :=
  { m with buffer := fun _ => 0 }

/-- Counterpart of `writeSprite`: the address is a `std::uint16_t`, the five
    addresses handed to `writeByte` are `int`s. -/
def Memory.writeSprite (m : Memory) (addr : Nat) (sprite : List Nat) : Memory :=
  let m := m.writeByte (addr : Int) (sprite.getD 0 0)
  let m := m.writeByte ((addr : Int) + 1) (sprite.getD 1 0)
  let m := m.writeByte ((addr : Int) + 2) (sprite.getD 2 0)
  let m := m.writeByte ((addr : Int) + 3) (sprite.getD 3 0)
  m.writeByte ((addr : Int) + 4) (sprite.getD 4 0)

/-- Counterpart of `writeSprites`: sprite `i` goes to the address `0 + i * 5`. -/
def Memory.writeSprites (m : Memory) : Memory :=
  (List.range 16).foldl
    (fun (m : Memory) i => m.writeSprite ((0x0 + i * 5) % 65536) (sprites.getD i []))
    m

/-- Counterpart of `loadDefaultProgram`: `defaultProgram` is copied to the buffer
    from `0x200` on. -/
def Memory.loadDefaultProgram (m : Memory) : Memory :=
  { m with
    buffer := fun a =>
      if 0x200 ≤ a.val ∧ a.val < 0x200 + defaultProgram.length then
        defaultProgram.getD (a.val - 0x200) 0
      else m.buffer a }

/-- Counterpart of `c8::mem::initialize`: the buffer is zeroed, gets the sprites
    and the default program, and is copied to `originalBuffer`. -/
def Memory.initialize (m : Memory) : Memory :=
  let m := m.zeroMemory
  let m := m.writeSprites
  let m := m.loadDefaultProgram
  { m with originalBuffer := m.buffer }

/-- Counterpart of `loadProgram`, the file being the list of its bytes: they are
    copied to the buffer from `0x200` on, and the buffer is copied to
    `originalBuffer`. A file of more than 3584 bytes is written past the end of
    the buffer, which is undefined. -/
def Memory.loadProgram (m : Memory) (file : List Nat) : Option Memory :=
  if file.length > 4096 - 0x200 then none
  else
    let buffer := fun (a : Fin 4096) =>
      if 0x200 ≤ a.val ∧ a.val < 0x200 + file.length then file.getD (a.val - 0x200) 0
      else m.buffer a
    some { buffer := buffer, originalBuffer := buffer }

/-- A sequence of `writeByte` calls, each given by its address and its byte. -/
def Memory.writeBytes (m : Memory) (writes : List (Int × Nat)) : Memory :=
  writes.foldl (fun (m : Memory) w => m.writeByte w.1 w.2) m

/-- A running engine right after `reset`, with the memory `m`: no key wait is
    pending, every slot of the history is blank and slot 0 has `pc = 0x200`. -/
def engineWith (m : Memory) : Engine :=
  Engine.reset
    { mem := m
      waitingForKeyboard := false
      keyboardPressedValue := 0xFF
      paused := false
      doAdvanceOneClockCycle := false
      cpuStates := fun _ => blankState
      totalCpuCycles := 0
      currentCpuStateDisplayIndex := 0
      currentCpuStateIndex := 0
      headCpuStateIndex := 0 }

/-- The memory after loading a program of 3584 bytes that starts with `JP 0xFFE`
    (`0x1FFE`), ends with `LD V0, 5` (`0x6005`) in the last two bytes `0xFFE`,
    `0xFFF` of the memory, and is 0 in between. -/
def lastWordMemory : Memory :=
  { buffer := fun a =>
      if a.val = 0x200 then 0x1F
      else if a.val = 0x201 then 0xFE
      else if a.val = 0xFFE then 0x60
      else if a.val = 0xFFF then 0x05
      else 0
    originalBuffer := fun a =>
      if a.val = 0x200 then 0x1F
      else if a.val = 0x201 then 0xFE
      else if a.val = 0xFFE then 0x60
      else if a.val = 0xFFF then 0x05
      else 0 }

/-- A machine state with `pc = 0x200`, a dark display, an empty stack and every
    register at `0xFF`. -/
def fullRegisters : CpuState :=
  { vgaState := { frameBuffer := fun _ _ => false }
    pc := 0x200
    ir := 0
    dt := 0
    st := 0
    sp := 0
    v := fun _ => 0xFF
    stack := [] }

/-- A machine state about to draw across the last row: `v[1] = 30`, every other
    register 0, `ir = 0`, `pc = 0x200`, a dark display. -/
def bottomEdgeState : CpuState :=
  { vgaState := { frameBuffer := fun _ _ => false }
    pc := 0x200
    ir := 0
    dt := 0
    st := 0
    sp := 0
    v := fun i => if i = 1 then 30 else 0
    stack := [] }

/-- A machine state about to draw below the grid: `v[1] = 32`, every other
    register 0, `ir = 0`, `pc = 0x200`, a dark display. -/
def belowGridState : CpuState :=
  { vgaState := { frameBuffer := fun _ _ => false }
    pc := 0x200
    ir := 0
    dt := 0
    st := 0
    sp := 0
    v := fun i => if i = 1 then 32 else 0
    stack := [] }

/-- A machine state whose index register is at the top of the 16-bit range:
    `exampleState` with `ir = 0xFFFF`. -/
def topIndexState : CpuState := { exampleState with ir := 0xFFFF }

/-! ## Sequences of calls of the control functions -/

/-- One call of a function of `c8::cpu` that moves the cursors or works on the
    stored states; `executeClockCycle` comes with what the cycle obtains from
    outside. -/
inductive EngineCall where
  | executeClockCycle (inp : Input)
  | backOneClockCylce
  | advanceOneClockCycle
  | togglePaused
  | decrementTimers

/-- The engine after one call. -/
def Engine.call (e : Engine) (q : Quirks) : EngineCall → Option Engine
  | EngineCall.executeClockCycle inp => e.executeClockCycle q inp
  | EngineCall.backOneClockCylce => some e.backOneClockCylce
  | EngineCall.advanceOneClockCycle => some e.advanceOneClockCycle
  | EngineCall.togglePaused => some e.togglePaused
  | EngineCall.decrementTimers => e.decrementTimers

/-- The engine after the calls of the list, in order. -/
def Engine.calls (e : Engine) (q : Quirks) : List EngineCall → Option Engine
  | [] => some e
  | c :: rest => (e.call q c).bind (fun e' => e'.calls q rest)

end C8

/-! # Theorems -/

namespace C8

/-! ## Instruction fields as quotients and remainders -/

theorem getOpcodeInstruction_eq (w : Nat) (hw : w < 65536) :
    getOpcodeInstruction w = w / 4096 := by
  unfold getOpcodeInstruction
  rw [Nat.shiftRight_eq_div_pow]
  omega

theorem getOpcodeX_eq (w : Nat) : getOpcodeX w = w / 256 % 16 := by
  unfold getOpcodeX
  rw [Nat.shiftRight_eq_div_pow, show (0b1111 : Nat) = 2 ^ 4 - 1 by norm_num,
    Nat.and_pow_two_sub_one_eq_mod]
  omega

theorem getOpcodeY_eq (w : Nat) : getOpcodeY w = w / 16 % 16 := by
  unfold getOpcodeY
  rw [Nat.shiftRight_eq_div_pow, show (0b1111 : Nat) = 2 ^ 4 - 1 by norm_num,
    Nat.and_pow_two_sub_one_eq_mod]
  omega

theorem getOpcodeZ_eq (w : Nat) : getOpcodeZ w = w % 16 := by
  unfold getOpcodeZ
  rw [show (0b1111 : Nat) = 2 ^ 4 - 1 by norm_num, Nat.and_pow_two_sub_one_eq_mod]
  omega

theorem getOpcodeKK_eq (w : Nat) : getOpcodeKK w = w % 256 := by
  unfold getOpcodeKK
  rw [show (0b0000000011111111 : Nat) = 2 ^ 8 - 1 by norm_num, Nat.and_pow_two_sub_one_eq_mod]
  omega

theorem getOpcodeNNN_eq (w : Nat) : getOpcodeNNN w = w % 4096 := by
  unfold getOpcodeNNN
  rw [show (0b0000111111111111 : Nat) = 2 ^ 12 - 1 by norm_num, Nat.and_pow_two_sub_one_eq_mod]
  omega

/-! ## The decoder -/

theorem decode_eq_decodeTable (w : Nat) (hw : w < 65536) : decode w = decodeTable w := by
  unfold decode decodeTable
  rw [getOpcodeInstruction_eq w hw, getOpcodeZ_eq, getOpcodeKK_eq]
  have ht : w / 4096 < 16 := by omega
  by_cases h0 : w = 0
  · subst h0; rfl
  · rw [if_neg h0]
    generalize hq : w / 4096 = t at ht
    have hz : w % 16 < 16 := by omega
    have hk : w % 256 < 256 := by omega
    interval_cases t
    · rfl
    all_goals simp only
    · generalize w % 16 = z at hz
      interval_cases z <;> rfl
    · generalize w % 256 = k at hk
      interval_cases k <;> rfl

/-- **C4** (decoder golden table). For every 16-bit word `w`, `decode w` is the
    kind the documented table assigns to the top nibble together with the low byte
    or the low nibble; `decode 0` is `Invalid`; and each of the 34 instruction
    kinds is the decoding of some 16-bit word. -/
theorem C4_decode_golden_table :
    (∀ w : Nat, w < 65536 → decode w = decodeTable w) ∧
    decode 0 = Opcode.Invalid ∧
    (∀ k : Opcode, k ≠ Opcode.Invalid → ∃ w : Nat, w < 65536 ∧ decode w = k) := by
  refine ⟨decode_eq_decodeTable, rfl, ?_⟩
  intro k _
  refine ⟨sampleWord k, ?_, ?_⟩ <;> cases k <;> decide

/-! ## Register arithmetic -/

theorem getRegister_fin (s : CpuState) (x : Fin 16) : s.getRegister x.val = some x := by
  unfold CpuState.getRegister
  have := x.isLt
  rw [dif_neg (by omega)]

theorem and_128_ge_one (n : Nat) (hn : n < 256) : (n &&& 0b10000000 ≥ 1) ↔ n / 128 = 1 := by
  interval_cases n <;> decide

/-- **C5** (`ADD Vx, Vy`). For every register file and all register indices `x`, `y`
    with `x ≠ 15`, the instruction reports an update, leaves `(Vx + Vy) mod 256` in
    `v[x]` and the carry (1 if `Vx + Vy > 255`, else 0) in `v[15]`, where `Vx`, `Vy`
    are the values before the instruction, and `pc` advances by 2 (the 16-bit `pc`
    is assumed not to be within 2 of its maximum). -/
theorem C5_ADD_Vx_Vy (s : CpuState) (x y : Fin 16) (hx : x ≠ 15) (hpc : s.pc + 2 < 65536) :
    (s.ADD_Vx_Vy x y).1 = true ∧
    (s.ADD_Vx_Vy x y).2.v x = (s.v x + s.v y) % 256 ∧
    (s.ADD_Vx_Vy x y).2.v 15 = (if s.v x + s.v y > 255 then 1 else 0) ∧
    (s.ADD_Vx_Vy x y).2.pc = s.pc + 2 := by
  simp only [CpuState.ADD_Vx_Vy, getRegister_fin]
  refine ⟨trivial, ?_, ?_, ?_⟩
  · simp
  · simp [Function.update_noteq (Ne.symm hx)]
  · simp; omega

/-- Instance of C5: registers 1 and 2 of `exampleState` (20 and 37). -/
theorem C5_ADD_Vx_Vy_witness :
    ((1 : Fin 16) ≠ 15 ∧ exampleState.pc + 2 < 65536) ∧
    ((exampleState.ADD_Vx_Vy (1 : Fin 16) (2 : Fin 16)).1 = true ∧
      (exampleState.ADD_Vx_Vy (1 : Fin 16) (2 : Fin 16)).2.v 1 =
        (exampleState.v 1 + exampleState.v 2) % 256 ∧
      (exampleState.ADD_Vx_Vy (1 : Fin 16) (2 : Fin 16)).2.v 15 =
        (if exampleState.v 1 + exampleState.v 2 > 255 then 1 else 0) ∧
      (exampleState.ADD_Vx_Vy (1 : Fin 16) (2 : Fin 16)).2.pc = exampleState.pc + 2) :=
  ⟨⟨by decide, by decide⟩, C5_ADD_Vx_Vy exampleState 1 2 (by decide) (by decide)⟩

/-- **C6** (`SUB Vx, Vy` and `SUBN Vx, Vy`). For every register file and all `x`, `y`
    with `x ≠ 15`: after `SUB`, `v[x] = (Vx - Vy) mod 256` and `v[15]` is 1 exactly
    when `Vx > Vy` and 0 otherwise (so 0 when `Vx = Vy`); after `SUBN`,
    `v[x] = (Vy - Vx) mod 256` and `v[15]` is 1 exactly when `Vy > Vx` and 0
    otherwise; `Vx`, `Vy` are the values before the instruction and `pc` advances
    by 2 (the 16-bit `pc` is assumed not to be within 2 of its maximum). -/
theorem C6_SUB_SUBN (s : CpuState) (x y : Fin 16) (hx : x ≠ 15) (hpc : s.pc + 2 < 65536) :
    ((s.SUB_Vx_Vy x y).1 = true ∧
      ((s.SUB_Vx_Vy x y).2.v x : Int) = ((s.v x : Int) - (s.v y : Int)) % 256 ∧
      ((s.SUB_Vx_Vy x y).2.v 15 = 1 ↔ s.v x > s.v y) ∧
      ((s.SUB_Vx_Vy x y).2.v 15 = 0 ↔ ¬ s.v x > s.v y) ∧
      (s.SUB_Vx_Vy x y).2.pc = s.pc + 2) ∧
    ((s.SUBN_Vx_Vy x y).1 = true ∧
      ((s.SUBN_Vx_Vy x y).2.v x : Int) = ((s.v y : Int) - (s.v x : Int)) % 256 ∧
      ((s.SUBN_Vx_Vy x y).2.v 15 = 1 ↔ s.v y > s.v x) ∧
      ((s.SUBN_Vx_Vy x y).2.v 15 = 0 ↔ ¬ s.v y > s.v x) ∧
      (s.SUBN_Vx_Vy x y).2.pc = s.pc + 2) := by
  simp only [CpuState.SUB_Vx_Vy, CpuState.SUBN_Vx_Vy, getRegister_fin]
  have h15 : (15 : Fin 16) ≠ x := Ne.symm hx
  refine ⟨⟨trivial, ?_, ?_, ?_, ?_⟩, ⟨trivial, ?_, ?_, ?_, ?_⟩⟩
  · simp; omega
  · simp [Function.update_noteq h15]
  · simp [Function.update_noteq h15]
  · simp; omega
  · simp; omega
  · simp [Function.update_noteq h15]
  · simp [Function.update_noteq h15]
  · simp; omega



/-- Instance of C6: registers 1 and 2 of `exampleState` (20 and 37). -/
theorem C6_SUB_SUBN_witness :
    ((1 : Fin 16) ≠ 15 ∧ exampleState.pc + 2 < 65536) ∧
    (((exampleState.SUB_Vx_Vy (1 : Fin 16) (2 : Fin 16)).1 = true ∧
      ((exampleState.SUB_Vx_Vy (1 : Fin 16) (2 : Fin 16)).2.v 1 : Int) =
        ((exampleState.v 1 : Int) - (exampleState.v 2 : Int)) % 256 ∧
      ((exampleState.SUB_Vx_Vy (1 : Fin 16) (2 : Fin 16)).2.v 15 = 1 ↔
        exampleState.v 1 > exampleState.v 2) ∧
      ((exampleState.SUB_Vx_Vy (1 : Fin 16) (2 : Fin 16)).2.v 15 = 0 ↔
        ¬ exampleState.v 1 > exampleState.v 2) ∧
      (exampleState.SUB_Vx_Vy (1 : Fin 16) (2 : Fin 16)).2.pc = exampleState.pc + 2) ∧
    ((exampleState.SUBN_Vx_Vy (1 : Fin 16) (2 : Fin 16)).1 = true ∧
      ((exampleState.SUBN_Vx_Vy (1 : Fin 16) (2 : Fin 16)).2.v 1 : Int) =
        ((exampleState.v 2 : Int) - (exampleState.v 1 : Int)) % 256 ∧
      ((exampleState.SUBN_Vx_Vy (1 : Fin 16) (2 : Fin 16)).2.v 15 = 1 ↔
        exampleState.v 2 > exampleState.v 1) ∧
      ((exampleState.SUBN_Vx_Vy (1 : Fin 16) (2 : Fin 16)).2.v 15 = 0 ↔
        ¬ exampleState.v 2 > exampleState.v 1) ∧
      (exampleState.SUBN_Vx_Vy (1 : Fin 16) (2 : Fin 16)).2.pc = exampleState.pc + 2)) :=
  ⟨⟨by decide, by decide⟩, C6_SUB_SUBN exampleState 1 2 (by decide) (by decide)⟩



/-- **C7** (`SHR` and `SHL` with the shift quirk). For every register file of bytes
    and all `x`, `y` with `x ≠ 15`, let `src` be `Vy` when the quirk `shiftWithVy` is
    on and `Vx` otherwise (values before the instruction). After `SHR`,
    `v[x] = src / 2` and `v[15] = src % 2`; after `SHL`, `v[x] = (2 * src) % 256` and
    `v[15] = src / 128`; `v[y]` is unchanged when `y ≠ x` and `y ≠ 15`; `pc` advances
    by 2 (the 16-bit `pc` is assumed not to be within 2 of its maximum). -/
theorem C7_shifts (s : CpuState) (q : Quirks) (x y : Fin 16) (hx : x ≠ 15)
    (hv : ∀ i, s.v i < 256) (hpc : s.pc + 2 < 65536) :
    ((s.SHR_Vx_Vy q x y).1 = true ∧
      (s.SHR_Vx_Vy q x y).2.v x = (if q.shiftWithVy then s.v y else s.v x) / 2 ∧
      (s.SHR_Vx_Vy q x y).2.v 15 = (if q.shiftWithVy then s.v y else s.v x) % 2 ∧
      (y ≠ x → y ≠ 15 → (s.SHR_Vx_Vy q x y).2.v y = s.v y) ∧
      (s.SHR_Vx_Vy q x y).2.pc = s.pc + 2) ∧
    ((s.SHL_Vx_Vy q x y).1 = true ∧
      (s.SHL_Vx_Vy q x y).2.v x = (2 * (if q.shiftWithVy then s.v y else s.v x)) % 256 ∧
      (s.SHL_Vx_Vy q x y).2.v 15 = (if q.shiftWithVy then s.v y else s.v x) / 128 ∧
      (y ≠ x → y ≠ 15 → (s.SHL_Vx_Vy q x y).2.v y = s.v y) ∧
      (s.SHL_Vx_Vy q x y).2.pc = s.pc + 2) := by
  simp only [CpuState.SHR_Vx_Vy, CpuState.SHL_Vx_Vy, getRegister_fin]
  have h15 : (15 : Fin 16) ≠ x := Ne.symm hx
  have key : ∀ src : Nat, src < 256 →
      (src / 2 % 256 = src / 2) ∧ ((if 1 ≤ src % 2 then 1 else 0) = src % 2) ∧
      (src * 2 % 256 = 2 * src % 256) ∧ ((if 1 ≤ src &&& 128 then 1 else 0) = src / 128) := by
    intro src hs
    have e := and_128_ge_one src hs
    refine ⟨by omega, by split_ifs <;> omega, by omega, ?_⟩
    split_ifs with h
    · exact (e.mp h).symm
    · have : ¬ src / 128 = 1 := fun h' => h (e.mpr h')
      omega
  have hpc' : (s.pc + 2) % 65536 = s.pc + 2 := Nat.mod_eq_of_lt hpc
  cases hq : q.shiftWithVy
  · obtain ⟨k1, k2, k3, k4⟩ := key (s.v x) (hv x)
    simp only [Bool.false_eq_true, if_false, Function.update_same, Function.update_noteq hx,
      Function.update_noteq h15, Nat.shiftRight_eq_div_pow, Nat.shiftLeft_eq, Nat.and_one_is_mod,
      true_and, pow_one, k1, k2, k3, k4, hpc', and_true]
    constructor
    · intro h1 h2
      rw [Function.update_noteq h1, Function.update_noteq h2]
    · intro h1 h2
      rw [Function.update_noteq h1, Function.update_noteq h2]
  · obtain ⟨k1, k2, k3, k4⟩ := key (s.v y) (hv y)
    simp only [if_true, Function.update_same, Function.update_noteq hx,
      Function.update_noteq h15, Nat.shiftRight_eq_div_pow, Nat.shiftLeft_eq, Nat.and_one_is_mod,
      true_and, pow_one, k1, k2, k3, k4, hpc', and_true]
    constructor
    · intro h1 h2
      rw [Function.update_noteq h1, Function.update_noteq h2, Function.update_noteq h1]
    · intro h1 h2
      rw [Function.update_noteq h1, Function.update_noteq h2, Function.update_noteq h1]



/-- Instance of C7: registers 1 and 2 of `exampleState`, with the quirk on. -/
theorem C7_shifts_witness :
    ((1 : Fin 16) ≠ 15 ∧ (∀ i, exampleState.v i < 256) ∧ exampleState.pc + 2 < 65536) ∧
    ((exampleState.SHR_Vx_Vy ⟨true, false⟩ (1 : Fin 16) (2 : Fin 16)).2.v 1 = 37 / 2 ∧
      (exampleState.SHR_Vx_Vy ⟨true, false⟩ (1 : Fin 16) (2 : Fin 16)).2.v 15 = 37 % 2 ∧
      (exampleState.SHL_Vx_Vy ⟨true, false⟩ (1 : Fin 16) (2 : Fin 16)).2.v 1 = (2 * 37) % 256 ∧
      (exampleState.SHL_Vx_Vy ⟨true, false⟩ (1 : Fin 16) (2 : Fin 16)).2.v 15 = 37 / 128) :=
  have h := C7_shifts exampleState ⟨true, false⟩ 1 2 (by decide) (by decide) (by decide)
  ⟨⟨by decide, by decide, by decide⟩, h.1.2.1, h.1.2.2.1, h.2.2.1, h.2.2.2.1⟩

/-! ## The display -/

theorem and_two_pow_pos (byte k : Nat) : decide ((byte &&& 2 ^ k) > 0) = byte.testBit k := by
  cases h : byte.testBit k
  · have : byte &&& 2 ^ k = 0 := by
      apply Nat.eq_of_testBit_eq
      intro i
      simp only [Nat.testBit_and, Nat.zero_testBit, Nat.testBit_two_pow]
      by_cases hi : k = i
      · subst hi; simp [h]
      · simp [hi]
    simp [this]
  · have : (byte &&& 2 ^ k).testBit k = true := by
      simp [Nat.testBit_and, h, Nat.testBit_two_pow_self]
    have hne : byte &&& 2 ^ k ≠ 0 := by
      intro h0
      rw [h0] at this
      simp at this
    simp; omega

theorem getPixel_inside (vga : VgaState) (y x : Nat) (hy : y < 32) (hx : x < 64) :
    vga.getPixel y x = some (vga.pixel y x) := by
  simp [VgaState.pixel, VgaState.getPixel, hy, hx]

theorem pixel_inside (vga : VgaState) (r : Fin 32) (c : Fin 64) :
    vga.pixel r.val c.val = vga.frameBuffer r c := by
  simp [VgaState.pixel, VgaState.getPixel, r.isLt, c.isLt]

theorem xorPixel_inside (vga : VgaState) (y x : Nat) (bit : Bool) (hy : y < 32) (hx : x < 64) :
    vga.xorPixel y x bit = some (vga.flipPixel y x bit) := by
  simp [VgaState.xorPixel, VgaState.flipPixel, hy, hx]

theorem mapM_option_eq_some {α β : Type} (f : α → Option β) (g : α → β) (l : List α)
    (h : ∀ a ∈ l, f a = some (g a)) : l.mapM f = some (l.map g) := by
  induction l with
  | nil => rfl
  | cons a l ih =>
    have ha := h a (List.mem_cons_self a l)
    have hl := ih (fun b hb => h b (List.mem_cons_of_mem a hb))
    rw [List.mapM_cons, ha, hl]
    rfl

theorem foldl_didErase (l : List (Bool × Bool)) (acc : Bool) :
    l.foldl (fun didErase bits => if bits.1 && !bits.2 then true else didErase) acc =
      (acc || l.any (fun bits => bits.1 && !bits.2)) := by
  induction l generalizing acc with
  | nil => simp
  | cons b l ih =>
    rw [List.foldl_cons, ih, List.any_cons]
    cases h : (b.1 && !b.2) <;> cases acc <;> simp

theorem flip8_eq_xorRow (vga : VgaState) (x y byte : Nat) :
    (((((((vga.flipPixel y (x + 0) (byte.testBit 7)).flipPixel y (x + 1)
      (byte.testBit 6)).flipPixel y (x + 2) (byte.testBit 5)).flipPixel y (x + 3)
      (byte.testBit 4)).flipPixel y (x + 4) (byte.testBit 3)).flipPixel y (x + 5)
      (byte.testBit 2)).flipPixel y (x + 6) (byte.testBit 1)).flipPixel y (x + 7)
      (byte.testBit 0) = vga.xorRow x y byte := by
  unfold VgaState.xorRow
  simp only [VgaState.flipPixel]
  congr 1
  funext r c
  by_cases hr : r.val = y
  · by_cases hc : x ≤ c.val ∧ c.val < x + 8
    · obtain ⟨k, hk, hck⟩ : ∃ k, k < 8 ∧ c.val = x + k := ⟨c.val - x, by omega, by omega⟩
      interval_cases k <;> simp [hr, hck]
    · have h0 : ¬ c.val = x + 0 := by omega
      have h1 : ¬ c.val = x + 1 := by omega
      have h2 : ¬ c.val = x + 2 := by omega
      have h3 : ¬ c.val = x + 3 := by omega
      have h4 : ¬ c.val = x + 4 := by omega
      have h5 : ¬ c.val = x + 5 := by omega
      have h6 : ¬ c.val = x + 6 := by omega
      have h7 : ¬ c.val = x + 7 := by omega
      simp only [h0, h1, h2, h3, h4, h5, h6, h7, hc, and_false, if_false]
  · simp [hr]

theorem pixel_xorRow (vga : VgaState) (x y byte r c : Nat) (hr : r < 32) (hc : c < 64) :
    (vga.xorRow x y byte).pixel r c =
      if r = y ∧ x ≤ c ∧ c < x + 8 then xor (vga.pixel r c) (byte.testBit (7 - (c - x)))
      else vga.pixel r c := by
  simp [VgaState.pixel, VgaState.getPixel, VgaState.xorRow, hr, hc]

theorem any_congr_mem {α : Type} (l : List α) (p q : α → Bool)
    (h : ∀ a ∈ l, p a = q a) : l.any p = l.any q := by
  induction l with
  | nil => rfl
  | cons a l ih =>
    rw [List.any_cons, List.any_cons, h a (List.mem_cons_self a l),
      ih (fun b hb => h b (List.mem_cons_of_mem a hb))]

theorem any_zip_map {α : Type} (l : List α) (f g : α → Bool) :
    ((l.map f).zip (l.map g)).any (fun bits => bits.1 && !bits.2) =
      l.any (fun i => f i && !g i) := by
  induction l with
  | nil => rfl
  | cons a l ih =>
    rw [List.map_cons, List.map_cons, List.zip_cons_cons, List.any_cons, List.any_cons, ih]

theorem erase_bit (a b : Bool) : (a && !(xor a b)) = (a && b) := by
  cases a <;> cases b <;> rfl

theorem drawByte_inside (vga : VgaState) (x y byte : Nat) (hx : x + 7 < 64) (hy : y < 32) :
    vga.drawByte x y byte = some (vga.rowErases x y byte, vga.xorRow x y byte) := by
  have b7 : ∀ b : Nat, decide ((b &&& 0b10000000) > 0) = b.testBit 7 := fun b => and_two_pow_pos b 7
  have b6 : ∀ b : Nat, decide ((b &&& 0b01000000) > 0) = b.testBit 6 := fun b => and_two_pow_pos b 6
  have b5 : ∀ b : Nat, decide ((b &&& 0b00100000) > 0) = b.testBit 5 := fun b => and_two_pow_pos b 5
  have b4 : ∀ b : Nat, decide ((b &&& 0b00010000) > 0) = b.testBit 4 := fun b => and_two_pow_pos b 4
  have b3 : ∀ b : Nat, decide ((b &&& 0b00001000) > 0) = b.testBit 3 := fun b => and_two_pow_pos b 3
  have b2 : ∀ b : Nat, decide ((b &&& 0b00000100) > 0) = b.testBit 2 := fun b => and_two_pow_pos b 2
  have b1 : ∀ b : Nat, decide ((b &&& 0b00000010) > 0) = b.testBit 1 := fun b => and_two_pow_pos b 1
  have b0 : ∀ b : Nat, decide ((b &&& 0b00000001) > 0) = b.testBit 0 := fun b => and_two_pow_pos b 0
  have hx' : ¬ x ≥ frameBufferWidth := by unfold frameBufferWidth; omega
  have hy' : ¬ y ≥ frameBufferHeight := by unfold frameBufferHeight; omega
  have hget : ∀ w : VgaState, (List.range 8).mapM (fun i => w.getPixel y (x + i)) =
      some ((List.range 8).map (fun i => w.pixel y (x + i))) := by
    intro w
    apply mapM_option_eq_some
    intro i hi
    rw [List.mem_range] at hi
    exact getPixel_inside w y (x + i) hy (by omega)
  unfold VgaState.drawByte
  simp only [if_neg hx', if_neg hy']
  simp only [b7, b6, b5, b4, b3, b2, b1, b0, hget, Option.bind_eq_bind, Option.some_bind, Option.bind,
    xorPixel_inside _ y (x + 0) _ hy (by omega), xorPixel_inside _ y (x + 1) _ hy (by omega),
    xorPixel_inside _ y (x + 2) _ hy (by omega), xorPixel_inside _ y (x + 3) _ hy (by omega),
    xorPixel_inside _ y (x + 4) _ hy (by omega), xorPixel_inside _ y (x + 5) _ hy (by omega),
    xorPixel_inside _ y (x + 6) _ hy (by omega), xorPixel_inside _ y (x + 7) _ hy (by omega),
    flip8_eq_xorRow, foldl_didErase, Bool.false_or, pure]
  congr 2
  unfold VgaState.rowErases
  rw [any_zip_map]
  apply any_congr_mem
  intro i hi
  rw [List.mem_range] at hi
  rw [pixel_xorRow vga x y byte y (x + i) hy (by omega),
    if_pos ⟨rfl, by omega, by omega⟩, erase_bit, Nat.add_sub_cancel_left]

theorem xorRows_zero (vga : VgaState) (x y : Nat) (rows : Nat → Nat) :
    vga.xorRows x y rows 0 = vga := by
  unfold VgaState.xorRows
  cases vga with
  | mk fb =>
    congr 1
    funext r c
    rw [if_neg (by omega)]

theorem xorRow_xorRows (vga : VgaState) (x y : Nat) (rows : Nat → Nat) (k : Nat) :
    (vga.xorRows x y rows k).xorRow x (y + k) (rows k) = vga.xorRows x y rows (k + 1) := by
  unfold VgaState.xorRows VgaState.xorRow
  congr 1
  funext r c
  simp only
  by_cases hc : x ≤ c.val ∧ c.val < x + 8
  · by_cases hk : r.val = y + k
    · rw [if_pos ⟨hk, hc⟩, if_neg (by omega), if_pos ⟨by omega, by omega, hc⟩,
        show r.val - y = k by omega]
    · rw [if_neg (fun h => hk h.1)]
      by_cases hr : y ≤ r.val ∧ r.val < y + k
      · rw [if_pos ⟨hr.1, hr.2, hc⟩, if_pos ⟨hr.1, by omega, hc⟩]
      · rw [if_neg (fun h => hr ⟨h.1, h.2.1⟩), if_neg (fun h => hr ⟨h.1, by omega⟩)]
  · rw [if_neg (fun h => hc h.2), if_neg (fun h => hc h.2.2), if_neg (fun h => hc h.2.2)]

theorem pixel_xorRows (vga : VgaState) (x y : Nat) (rows : Nat → Nat) (n r c : Nat)
    (hr : r < 32) (hc : c < 64) :
    (vga.xorRows x y rows n).pixel r c =
      if y ≤ r ∧ r < y + n ∧ x ≤ c ∧ c < x + 8 then
        xor (vga.pixel r c) ((rows (r - y)).testBit (7 - (c - x)))
      else vga.pixel r c := by
  simp [VgaState.pixel, VgaState.getPixel, VgaState.xorRows, hr, hc]

theorem pixel_outside (vga : VgaState) (r c : Nat) (h : ¬ (r < 32 ∧ c < 64)) :
    vga.pixel r c = false := by
  simp [VgaState.pixel, VgaState.getPixel, h]

theorem rowErases_xorRows (vga : VgaState) (x y : Nat) (rows : Nat → Nat) (k byte : Nat)
    (hx : x + 7 < 64) (hy : y + k < 32) :
    (vga.xorRows x y rows k).rowErases x (y + k) byte = vga.rowErases x (y + k) byte := by
  unfold VgaState.rowErases
  apply any_congr_mem
  intro i hi
  rw [List.mem_range] at hi
  rw [pixel_xorRows vga x y rows k (y + k) (x + i) hy (by omega), if_neg (by omega)]

theorem DRW_rows_inside (s : CpuState) (mem : Memory) (vx vy : Fin 16) (n : Nat)
    (hx : s.v vx + 7 < 64) (hy : s.v vy + n ≤ 32) (hir : s.ir + n ≤ 4096) :
    ∀ k, k ≤ n →
      (List.range k).foldlM (s.DRW_row mem vx vy) (false, s.vgaState) =
        some (s.vgaState.rowsErase (s.v vx) (s.v vy) (fun i => mem.readByte (s.ir + i)) k,
          s.vgaState.xorRows (s.v vx) (s.v vy) (fun i => mem.readByte (s.ir + i)) k) := by
  intro k
  induction k with
  | zero =>
    intro _
    rw [xorRows_zero]
    rfl
  | succ k ih =>
    intro hk
    rw [List.range_succ, List.foldlM_append, ih (by omega)]
    simp only [Option.bind_eq_bind, Option.some_bind, List.foldlM_cons, List.foldlM_nil]
    unfold CpuState.DRW_row
    simp only
    rw [Nat.mod_eq_of_lt (show s.v vy + k < 256 by omega),
      Nat.mod_eq_of_lt (show s.ir + k < 65536 by omega),
      drawByte_inside _ _ _ _ hx (by omega), xorRow_xorRows, rowErases_xorRows _ _ _ _ _ _ hx (by omega)]
    simp only [Option.bind_eq_bind, Option.some_bind, Option.bind_some, pure]
    unfold VgaState.rowsErase
    rw [List.range_succ, List.any_append]
    simp [Bool.or_comm]

/-- **C8** (`DRW` inside the grid). For every state and every `n` in `1..15` with
    `Vx ≤ 56`, `Vy + n ≤ 32` and `ir + n ≤ 4096`, the instruction reports an update
    and afterwards: each pixel `(Vx + b, Vy + i)`, `b < 8`, `i < n`, is its old value
    XOR bit `7 - b` of `memory[ir + i]`; every pixel outside that rectangle is
    unchanged; `v[15]` is 1 if some covered pixel was lit and has its sprite bit set
    and 0 otherwise; `pc` advances by 2 (the 16-bit `pc` is assumed not to be
    within 2 of its maximum). -/
theorem C8_DRW_inside_grid (s : CpuState) (mem : Memory) (x y : Fin 16) (n : Nat)
    (hn : 1 ≤ n ∧ n ≤ 15) (hx : s.v x ≤ 56) (hy : s.v y + n ≤ 32) (hir : s.ir + n ≤ 4096)
    (hpc : s.pc + 2 < 65536) :
    ∃ s', s.DRW_Vx_Vy_Nibble mem x y n = some (true, s') ∧
      (∀ i b, i < n → b < 8 →
        s'.vgaState.pixel (s.v y + i) (s.v x + b) =
          xor (s.vgaState.pixel (s.v y + i) (s.v x + b))
            ((mem.readByte (s.ir + i)).testBit (7 - b))) ∧
      (∀ r c, ¬ (s.v y ≤ r ∧ r < s.v y + n ∧ s.v x ≤ c ∧ c < s.v x + 8) →
        s'.vgaState.pixel r c = s.vgaState.pixel r c) ∧
      ((∃ i b, i < n ∧ b < 8 ∧ s.vgaState.pixel (s.v y + i) (s.v x + b) = true ∧
          (mem.readByte (s.ir + i)).testBit (7 - b) = true) → s'.v 15 = 1) ∧
      ((¬ ∃ i b, i < n ∧ b < 8 ∧ s.vgaState.pixel (s.v y + i) (s.v x + b) = true ∧
          (mem.readByte (s.ir + i)).testBit (7 - b) = true) → s'.v 15 = 0) ∧
      s'.pc = s.pc + 2 := by
  have hfold := DRW_rows_inside s mem x y n (by omega) hy hir n (le_refl n)
  have hflag : s.vgaState.rowsErase (s.v x) (s.v y) (fun i => mem.readByte (s.ir + i)) n = true ↔
      ∃ i b, i < n ∧ b < 8 ∧ s.vgaState.pixel (s.v y + i) (s.v x + b) = true ∧
        (mem.readByte (s.ir + i)).testBit (7 - b) = true := by
    simp only [VgaState.rowsErase, VgaState.rowErases, List.any_eq_true, List.mem_range,
      Bool.and_eq_true]
    constructor
    · rintro ⟨i, hi, b, hb, h1, h2⟩
      exact ⟨i, b, hi, hb, h1, h2⟩
    · rintro ⟨i, b, hi, hb, h1, h2⟩
      exact ⟨i, hi, b, hb, h1, h2⟩
  unfold CpuState.DRW_Vx_Vy_Nibble
  simp only [getRegister_fin, if_neg (show ¬ n = 0 by omega), hfold, Option.bind_eq_bind,
    Option.some_bind, pure]
  refine ⟨_, rfl, ?_, ?_, ?_, ?_, ?_⟩
  · intro i b hi hb
    simp only
    rw [pixel_xorRows _ _ _ _ _ _ _ (by omega) (by omega), if_pos (by omega)]
    simp
  · intro r c hrc
    simp only
    by_cases hin : r < 32 ∧ c < 64
    · rw [pixel_xorRows _ _ _ _ _ _ _ hin.1 hin.2, if_neg hrc]
    · rw [pixel_outside _ _ _ hin, pixel_outside _ _ _ hin]
  · intro h
    simp [hflag.mpr h]
  · intro h
    have : s.vgaState.rowsErase (s.v x) (s.v y) (fun i => mem.readByte (s.ir + i)) n = false := by
      cases hb : s.vgaState.rowsErase (s.v x) (s.v y) (fun i => mem.readByte (s.ir + i)) n
      · rfl
      · exact absurd (hflag.mp hb) h
    simp [this]
  · simp only
    omega

/-- Instance of C8: the sprite of the digit 0 drawn by `exampleState` (`Vx = v[0] = 3`,
    `Vy = v[1] = 20`, `ir = 0`, five rows). -/
theorem C8_DRW_inside_grid_witness :
    ((1 ≤ 5 ∧ 5 ≤ 15) ∧ exampleState.v 0 ≤ 56 ∧ exampleState.v 1 + 5 ≤ 32 ∧
      exampleState.ir + 5 ≤ 4096 ∧ exampleState.pc + 2 < 65536) ∧
    ∃ s', exampleState.DRW_Vx_Vy_Nibble exampleMemory (0 : Fin 16) (1 : Fin 16) 5 = some (true, s') ∧
      s'.vgaState.pixel 20 3 = true ∧ s'.vgaState.pixel 21 4 = false ∧ s'.v 15 = 0 ∧
      s'.pc = 0x202 := by
  obtain ⟨s', h1, h2, _, _, h5, h6⟩ :=
    C8_DRW_inside_grid exampleState exampleMemory 0 1 5 (by decide) (by decide) (by decide)
      (by decide) (by decide)
  refine ⟨by decide, s', h1, ?_, ?_, ?_, h6⟩
  · exact (h2 0 0 (by decide) (by decide)).trans (by decide)
  · exact (h2 1 1 (by decide) (by decide)).trans (by decide)
  · apply h5
    rintro ⟨i, b, _, _, h, _⟩
    unfold VgaState.pixel VgaState.getPixel at h
    split at h <;> simp [exampleState] at h

/-! ## One clock cycle -/

theorem cpuStateAt_lt (e : Engine) (i : Nat) (h : i < 1000) :
    e.cpuStateAt i = some (e.cpuStates ⟨i, h⟩) := by
  simp [Engine.cpuStateAt, h]

theorem setCpuState_lt (e : Engine) (i : Nat) (s : CpuState) (h : i < 1000) :
    e.setCpuState i s = some { e with cpuStates := Function.update e.cpuStates ⟨i, h⟩ s } := by
  simp [Engine.setCpuState, h]

theorem next_lt (h : Nat) (hh : h < 1000) :
    (if h = maxCpuStates - 1 then 0 else h + 1) < 1000 := by
  unfold maxCpuStates
  split_ifs <;> omega

theorem next_eq_mod (h : Nat) (hh : h < 1000) :
    (if h = maxCpuStates - 1 then 0 else h + 1) = (h + 1) % 1000 := by
  unfold maxCpuStates
  split_ifs <;> omega

theorem executeClockCycle_frozen (e : Engine) (q : Quirks) (inp : Input)
    (hf : (e.paused && !e.doAdvanceOneClockCycle) = true) :
    e.executeClockCycle q inp = some e := by
  unfold Engine.executeClockCycle
  rw [if_pos hf]

theorem executeClockCycle_live (e : Engine) (q : Quirks) (inp : Input)
    (hf : (e.paused && !e.doAdvanceOneClockCycle) = false)
    (hlive : e.currentCpuStateIndex = e.headCpuStateIndex) (hh : e.headCpuStateIndex < 1000)
    (hw : e.mem.readWord (e.cpuStates ⟨e.headCpuStateIndex, hh⟩).pc ≠ 0)
    (upd : Bool) (s' : CpuState) (g' : Shared)
    (hp : (e.cpuStates ⟨e.headCpuStateIndex, hh⟩).processOpcode q inp e.toShared
      (e.mem.readWord (e.cpuStates ⟨e.headCpuStateIndex, hh⟩).pc) = some (upd, s', g')) :
    ∃ e', e.executeClockCycle q inp = some e' ∧
      e'.toShared = g' ∧ e'.paused = e.paused ∧ e'.doAdvanceOneClockCycle = false ∧
      e'.totalCpuCycles = (e.totalCpuCycles + 1) % 2 ^ 64 ∧
      e'.cpuStates = Function.update e.cpuStates
        ⟨(e.headCpuStateIndex + 1) % 1000, Nat.mod_lt _ (by norm_num)⟩ s' ∧
      e'.headCpuStateIndex =
        (if upd then (e.headCpuStateIndex + 1) % 1000 else e.headCpuStateIndex) ∧
      e'.currentCpuStateIndex = e'.headCpuStateIndex := by
  have hmod : (e.headCpuStateIndex + 1) % 1000 < 1000 := Nat.mod_lt _ (by norm_num)
  unfold Engine.executeClockCycle
  rw [if_neg (by simp [hf])]
  simp only [hlive, ne_eq, not_true_eq_false, if_false, Engine.getCurrentCpuState,
    cpuStateAt_lt _ _ hh, Option.bind_eq_bind, Option.some_bind, if_neg hw, Option.pure_def,
    next_eq_mod _ hh]
  simp only [setCpuState_lt _ _ _ hmod, Option.some_bind, Engine.processOpcode,
    Engine.getCurrentCpuState, cpuStateAt_lt _ _ hmod, Function.update_same,
    Option.bind_eq_bind, hp, Function.update_idem, Option.pure_def]
  cases upd
  · refine ⟨_, rfl, rfl, rfl, rfl, rfl, rfl, ?_, rfl⟩
    simp only [Bool.false_eq_true, if_false]
    unfold maxCpuStates
    split_ifs <;> omega
  · exact ⟨_, rfl, rfl, rfl, rfl, rfl, rfl, rfl, rfl⟩

theorem executeClockCycle_zero_word (e : Engine) (q : Quirks) (inp : Input)
    (hf : (e.paused && !e.doAdvanceOneClockCycle) = false)
    (hlive : e.currentCpuStateIndex = e.headCpuStateIndex) (hh : e.headCpuStateIndex < 1000)
    (hw : e.mem.readWord (e.cpuStates ⟨e.headCpuStateIndex, hh⟩).pc = 0) :
    ∃ e', e.executeClockCycle q inp = some e' ∧
      e'.toShared = e.toShared ∧ e'.paused = e.paused ∧ e'.doAdvanceOneClockCycle = false ∧
      e'.totalCpuCycles = e.totalCpuCycles ∧ e'.cpuStates = e.cpuStates ∧
      e'.headCpuStateIndex = e.headCpuStateIndex ∧
      e'.currentCpuStateIndex = e.currentCpuStateIndex := by
  unfold Engine.executeClockCycle
  rw [if_neg (by simp [hf])]
  simp only [hlive, ne_eq, not_true_eq_false, if_false, Engine.getCurrentCpuState,
    cpuStateAt_lt _ _ hh, Option.bind_eq_bind, Option.some_bind, hw, if_true, Option.pure_def]
  exact ⟨_, rfl, rfl, rfl, rfl, rfl, rfl, rfl, rfl⟩

theorem executeClockCycle_replay (e : Engine) (q : Quirks) (inp : Input)
    (hf : (e.paused && !e.doAdvanceOneClockCycle) = false)
    (hne : e.currentCpuStateIndex ≠ e.headCpuStateIndex) :
    ∃ e', e.executeClockCycle q inp = some e' ∧
      e'.toShared = e.toShared ∧ e'.paused = e.paused ∧ e'.doAdvanceOneClockCycle = false ∧
      e'.totalCpuCycles = e.totalCpuCycles ∧ e'.cpuStates = e.cpuStates ∧
      e'.headCpuStateIndex = e.headCpuStateIndex ∧
      e'.currentCpuStateIndex =
        (if e.currentCpuStateIndex = maxCpuStates - 1 then 0 else e.currentCpuStateIndex + 1) := by
  unfold Engine.executeClockCycle
  rw [if_neg (by simp [hf])]
  simp only [ne_eq, hne, not_false_eq_true, if_true]
  exact ⟨_, rfl, rfl, rfl, rfl, rfl, rfl, rfl, rfl⟩

theorem executeClockCycle_out_of_range (e : Engine) (q : Quirks) (inp : Input)
    (hf : (e.paused && !e.doAdvanceOneClockCycle) = false)
    (hlive : e.currentCpuStateIndex = e.headCpuStateIndex) (hh : ¬ e.headCpuStateIndex < 1000) :
    e.executeClockCycle q inp = none := by
  unfold Engine.executeClockCycle
  rw [if_neg (by simp [hf])]
  simp [hlive, Engine.getCurrentCpuState, Engine.cpuStateAt, hh]

theorem executeClockCycle_undefined (e : Engine) (q : Quirks) (inp : Input)
    (hf : (e.paused && !e.doAdvanceOneClockCycle) = false)
    (hlive : e.currentCpuStateIndex = e.headCpuStateIndex) (hh : e.headCpuStateIndex < 1000)
    (hw : e.mem.readWord (e.cpuStates ⟨e.headCpuStateIndex, hh⟩).pc ≠ 0)
    (hp : (e.cpuStates ⟨e.headCpuStateIndex, hh⟩).processOpcode q inp e.toShared
      (e.mem.readWord (e.cpuStates ⟨e.headCpuStateIndex, hh⟩).pc) = none) :
    e.executeClockCycle q inp = none := by
  have hmod : (e.headCpuStateIndex + 1) % 1000 < 1000 := Nat.mod_lt _ (by norm_num)
  unfold Engine.executeClockCycle
  rw [if_neg (by simp [hf])]
  simp only [hlive, ne_eq, not_true_eq_false, if_false, Engine.getCurrentCpuState,
    cpuStateAt_lt _ _ hh, Option.bind_eq_bind, Option.some_bind, if_neg hw, Option.pure_def,
    next_eq_mod _ hh]
  simp only [setCpuState_lt _ _ _ hmod, Option.some_bind, Engine.processOpcode,
    Engine.getCurrentCpuState, cpuStateAt_lt _ _ hmod, Function.update_same,
    Option.bind_eq_bind, hp, Option.none_bind]

/-- A cycle that moves the head cursor ran the Live path to the end: the engine
    was not frozen, `current` was `head`, the fetched word was not 0 and the
    instruction reported an update. -/
theorem executeClockCycle_head_moved (e e' : Engine) (q : Quirks) (inp : Input)
    (h : e.executeClockCycle q inp = some e')
    (hne : e'.headCpuStateIndex ≠ e.headCpuStateIndex) :
    (e.paused && !e.doAdvanceOneClockCycle) = false ∧
    e.currentCpuStateIndex = e.headCpuStateIndex ∧
    ∃ hh : e.headCpuStateIndex < 1000,
      e.mem.readWord (e.cpuStates ⟨e.headCpuStateIndex, hh⟩).pc ≠ 0 ∧
      ∃ s' g', (e.cpuStates ⟨e.headCpuStateIndex, hh⟩).processOpcode q inp e.toShared
          (e.mem.readWord (e.cpuStates ⟨e.headCpuStateIndex, hh⟩).pc) = some (true, s', g') ∧
        e'.toShared = g' ∧ e'.paused = e.paused ∧ e'.doAdvanceOneClockCycle = false ∧
        e'.totalCpuCycles = (e.totalCpuCycles + 1) % 2 ^ 64 ∧
        e'.cpuStates = Function.update e.cpuStates
          ⟨(e.headCpuStateIndex + 1) % 1000, Nat.mod_lt _ (by norm_num)⟩ s' ∧
        e'.headCpuStateIndex = (e.headCpuStateIndex + 1) % 1000 ∧
        e'.currentCpuStateIndex = e'.headCpuStateIndex := by
  cases hf : (e.paused && !e.doAdvanceOneClockCycle)
  swap
  · rw [executeClockCycle_frozen e q inp hf] at h
    cases h
    exact absurd rfl hne
  by_cases hlive : e.currentCpuStateIndex = e.headCpuStateIndex
  swap
  · obtain ⟨e2, h2, _, _, _, _, _, h7, _⟩ := executeClockCycle_replay e q inp hf hlive
    rw [h2] at h
    cases h
    exact absurd h7 hne
  by_cases hh : e.headCpuStateIndex < 1000
  swap
  · rw [executeClockCycle_out_of_range e q inp hf hlive hh] at h
    cases h
  by_cases hw : e.mem.readWord (e.cpuStates ⟨e.headCpuStateIndex, hh⟩).pc = 0
  · obtain ⟨e2, h2, _, _, _, _, _, h7, _⟩ := executeClockCycle_zero_word e q inp hf hlive hh hw
    rw [h2] at h
    cases h
    exact absurd h7 hne
  cases hp : (e.cpuStates ⟨e.headCpuStateIndex, hh⟩).processOpcode q inp e.toShared
      (e.mem.readWord (e.cpuStates ⟨e.headCpuStateIndex, hh⟩).pc) with
  | none =>
    rw [executeClockCycle_undefined e q inp hf hlive hh hw hp] at h
    cases h
  | some r =>
    obtain ⟨upd, s', g'⟩ := r
    obtain ⟨e2, h2, k1, k2, k3, k4, k5, k6, k7⟩ :=
      executeClockCycle_live e q inp hf hlive hh hw upd s' g' hp
    rw [h2] at h
    cases h
    cases upd
    · exact absurd k6 hne
    · exact ⟨rfl, hlive, hh, hw, s', g', hp, k1, k2, k3, k4, k5, k6, k7⟩

theorem getCurrentCpuState_some (e : Engine) (s : CpuState)
    (h : e.getCurrentCpuState = some s) :
    ∃ hh : e.currentCpuStateIndex < 1000, e.cpuStates ⟨e.currentCpuStateIndex, hh⟩ = s := by
  unfold Engine.getCurrentCpuState Engine.cpuStateAt at h
  split at h
  · rename_i hh
    exact ⟨hh, Option.some.inj h⟩
  · cases h

/-- **C2** (live commit). When `current = head`, the engine is not frozen by pause,
    the word fetched at the current state's `pc` is not 0 and its instruction,
    applied to the current state `s`, reports an update with result `s'`, then
    `executeClockCycle` sets `head' = (head + 1) mod 1000`, `current' = head'`,
    `totalCycles' = totalCycles + 1` (the 64-bit counter is assumed not to be at its
    maximum), stores `s'` in slot `head'`, and leaves the old head slot (still `s`)
    and every other slot unchanged. -/
theorem C2_live_commit (e : Engine) (q : Quirks) (inp : Input) (s s' : CpuState) (g' : Shared)
    (hlive : e.currentCpuStateIndex = e.headCpuStateIndex)
    (hnf : (e.paused && !e.doAdvanceOneClockCycle) = false)
    (hs : e.getCurrentCpuState = some s)
    (hw : e.mem.readWord s.pc ≠ 0)
    (hupd : s.processOpcode q inp e.toShared (e.mem.readWord s.pc) = some (true, s', g'))
    (htot : e.totalCpuCycles + 1 < 2 ^ 64) :
    ∃ e', e.executeClockCycle q inp = some e' ∧
      e'.headCpuStateIndex = (e.headCpuStateIndex + 1) % 1000 ∧
      e'.currentCpuStateIndex = e'.headCpuStateIndex ∧
      e'.totalCpuCycles = e.totalCpuCycles + 1 ∧
      e'.cpuStateAt e'.headCpuStateIndex = some s' ∧
      e'.cpuStateAt e.headCpuStateIndex = some s ∧
      (∀ i, i ≠ e'.headCpuStateIndex → e'.cpuStateAt i = e.cpuStateAt i) := by
  obtain ⟨hh, hslot⟩ := getCurrentCpuState_some e s hs
  have hh' : e.headCpuStateIndex < 1000 := hlive ▸ hh
  have hslot' : e.cpuStates ⟨e.headCpuStateIndex, hh'⟩ = s := by
    rw [← hslot]; congr 2; exact hlive.symm
  obtain ⟨e', h1, _, _, _, h5, h6, h7, h8⟩ :=
    executeClockCycle_live e q inp hnf hlive hh' (by rw [hslot']; exact hw) true s' g'
      (by rw [hslot']; exact hupd)
  have hmod : (e.headCpuStateIndex + 1) % 1000 < 1000 := Nat.mod_lt _ (by norm_num)
  have hhead : e'.headCpuStateIndex = (e.headCpuStateIndex + 1) % 1000 := by simpa using h7
  have hother : ∀ i, i ≠ e'.headCpuStateIndex → e'.cpuStateAt i = e.cpuStateAt i := by
    intro i hi
    unfold Engine.cpuStateAt
    by_cases hlt : i < 1000
    · rw [dif_pos hlt, dif_pos hlt, h6, Function.update_noteq]
      intro heq
      apply hi
      rw [hhead]
      exact congrArg Fin.val heq
    · rw [dif_neg hlt, dif_neg hlt]
  refine ⟨e', h1, hhead, h8, ?_, ?_, ?_, hother⟩
  · rw [h5, Nat.mod_eq_of_lt htot]
  · rw [hhead, cpuStateAt_lt _ _ hmod, h6, Function.update_same]
  · rw [hother _ (by rw [hhead]; omega), cpuStateAt_lt _ _ hh', hslot']

/-- Instance of C2: the word `0x6005` (`LD V0, 5`) at `0x200` of a fresh engine. -/
theorem C2_live_commit_witness :
    ((freshEngine [0x60, 0x05]).currentCpuStateIndex = (freshEngine [0x60, 0x05]).headCpuStateIndex ∧
      (freshEngine [0x60, 0x05]).mem.readWord 0x200 = 0x6005 ∧
      (freshEngine [0x60, 0x05]).totalCpuCycles + 1 < 2 ^ 64) ∧
    ∃ e', (freshEngine [0x60, 0x05]).executeClockCycle ⟨false, false⟩ ⟨[], 0⟩ = some e' ∧
      e'.headCpuStateIndex = 1 ∧ e'.currentCpuStateIndex = 1 ∧ e'.totalCpuCycles = 1 ∧
      e'.cpuStateAt 1 =
        some (((freshEngine [0x60, 0x05]).cpuStates 0).LD_Vx_Byte 0 5).2 ∧
      e'.cpuStateAt 0 = some ((freshEngine [0x60, 0x05]).cpuStates 0) := by
  obtain ⟨e', h1, h2, h3, h4, h5, h6, _⟩ :=
    C2_live_commit (freshEngine [0x60, 0x05]) ⟨false, false⟩ ⟨[], 0⟩
      ((freshEngine [0x60, 0x05]).cpuStates 0)
      (((freshEngine [0x60, 0x05]).cpuStates 0).LD_Vx_Byte 0 5).2
      (freshEngine [0x60, 0x05]).toShared rfl rfl rfl (by decide) rfl (by decide)
  have h2' : e'.headCpuStateIndex = 1 := h2
  rw [h2'] at h3 h5
  exact ⟨⟨rfl, by decide, by decide⟩, e', h1, h2', h3, h4, h5, h6⟩

/-- **C3** (idle cycles). For every engine state in Live mode (`current = head`, not
    frozen) with current state `s`: if the word fetched at `s.pc` is `0x0000`, or
    decodes to `Invalid`, or is a `JP` whose target `nnn` equals `s.pc`, then
    `executeClockCycle` leaves `head`, `current` and the current machine state
    unchanged: nothing is committed and `pc` does not advance. -/
theorem C3_idle_cycles (e : Engine) (q : Quirks) (inp : Input) (s : CpuState)
    (hlive : e.currentCpuStateIndex = e.headCpuStateIndex)
    (hnf : (e.paused && !e.doAdvanceOneClockCycle) = false)
    (hs : e.getCurrentCpuState = some s)
    (hw : e.mem.readWord s.pc = 0 ∨ decode (e.mem.readWord s.pc) = Opcode.Invalid ∨
      (decode (e.mem.readWord s.pc) = Opcode.JP_Addr ∧ getOpcodeNNN (e.mem.readWord s.pc) = s.pc)) :
    ∃ e', e.executeClockCycle q inp = some e' ∧
      e'.headCpuStateIndex = e.headCpuStateIndex ∧
      e'.currentCpuStateIndex = e.currentCpuStateIndex ∧
      e'.getCurrentCpuState = some s := by
  obtain ⟨hh, hslot⟩ := getCurrentCpuState_some e s hs
  have hh' : e.headCpuStateIndex < 1000 := hlive ▸ hh
  have hslot' : e.cpuStates ⟨e.headCpuStateIndex, hh'⟩ = s := by
    rw [← hslot]; congr 2; exact hlive.symm
  by_cases hz : e.mem.readWord s.pc = 0
  · obtain ⟨e', h1, _, _, _, _, h6, h7, h8⟩ :=
      executeClockCycle_zero_word e q inp hnf hlive hh' (by rw [hslot']; exact hz)
    refine ⟨e', h1, h7, h8, ?_⟩
    unfold Engine.getCurrentCpuState
    rw [h8, cpuStateAt_lt _ _ hh, h6, hslot]
  · have hp : s.processOpcode q inp e.toShared (e.mem.readWord s.pc) =
        some (false, s, e.toShared) := by
      rcases hw with h0 | hinv | ⟨hjp, hself⟩
      · exact absurd h0 hz
      · unfold CpuState.processOpcode
        simp only [hinv]
      · unfold CpuState.processOpcode
        simp only [hjp, CpuState.JP_Addr, hself, if_true]
    obtain ⟨e', h1, _, _, _, _, h6, h7, h8⟩ :=
      executeClockCycle_live e q inp hnf hlive hh' (by rw [hslot']; exact hz) false s e.toShared
        (by rw [hslot']; exact hp)
    have hhead : e'.headCpuStateIndex = e.headCpuStateIndex := by simpa using h7
    refine ⟨e', h1, hhead, by rw [h8, hhead, hlive], ?_⟩
    unfold Engine.getCurrentCpuState
    rw [h8, hhead, cpuStateAt_lt _ _ hh', h6, Function.update_noteq, hslot']
    intro heq
    have := congrArg Fin.val heq
    simp only at this
    omega

/-- Instance of C3: the word `0x1200` (`JP 0x200`) at `pc = 0x200` of a fresh engine. -/
theorem C3_idle_cycles_witness :
    ((freshEngine [0x12, 0x00]).mem.readWord 0x200 = 0x1200 ∧
      decode 0x1200 = Opcode.JP_Addr ∧ getOpcodeNNN 0x1200 = 0x200) ∧
    ∃ e', (freshEngine [0x12, 0x00]).executeClockCycle ⟨false, false⟩ ⟨[], 0⟩ = some e' ∧
      e'.headCpuStateIndex = 0 ∧ e'.currentCpuStateIndex = 0 ∧
      e'.getProgramCounter = some 0x200 := by
  obtain ⟨e', h1, h2, h3, h4⟩ :=
    C3_idle_cycles (freshEngine [0x12, 0x00]) ⟨false, false⟩ ⟨[], 0⟩
      ((freshEngine [0x12, 0x00]).cpuStates 0) rfl rfl rfl
      (Or.inr (Or.inr ⟨by decide, by decide⟩))
  refine ⟨⟨by decide, by decide, by decide⟩, e', h1, h2, h3, ?_⟩
  unfold Engine.getProgramCounter
  rw [h4]
  rfl

/-! ## The wait for a key -/

theorem decode_Fx0A (x : Nat) (hx : x < 16) :
    0xF00A + 0x100 * x ≠ 0 ∧ decode (0xF00A + 0x100 * x) = Opcode.LD_Vx_K ∧
      getOpcodeX (0xF00A + 0x100 * x) = x := by
  interval_cases x <;> decide

theorem getRegister_lt (s : CpuState) (x : Nat) (hx : x < 16) :
    s.getRegister x = some ⟨x, hx⟩ :=
  getRegister_fin s ⟨x, hx⟩

theorem processOpcode_wait (s : CpuState) (q : Quirks) (inp : Input) (g : Shared) (x : Nat)
    (hx : x < 16) (hk : g.keyboardPressedValue = 0xFF) :
    s.processOpcode q inp g (0xF00A + 0x100 * x) =
      some (false, s, { g with waitingForKeyboard := true }) := by
  obtain ⟨_, hd, hxx⟩ := decode_Fx0A x hx
  unfold CpuState.processOpcode
  simp only [hd, hxx, CpuState.LD_Vx_K, getRegister_lt s x hx, hk, if_true]

theorem processOpcode_key (s : CpuState) (q : Quirks) (inp : Input) (g : Shared) (x : Nat)
    (hx : x < 16) (hk : g.keyboardPressedValue ≠ 0xFF) :
    s.processOpcode q inp g (0xF00A + 0x100 * x) =
      some (true,
        { s with v := Function.update s.v ⟨x, hx⟩ g.keyboardPressedValue,
                 pc := (s.pc + 2) % 65536 },
        { g with waitingForKeyboard := false, keyboardPressedValue := 0xFF }) := by
  obtain ⟨_, hd, hxx⟩ := decode_Fx0A x hx
  unfold CpuState.processOpcode
  simp only [hd, hxx, CpuState.LD_Vx_K, getRegister_lt s x hx, if_neg hk]

theorem readWord_lt (m : Memory) (a : Nat) (h : m.readWord a ≠ 0) : a < 4096 := by
  unfold Memory.readWord maxBufferSize at h
  by_contra hc
  rw [if_pos (by omega)] at h
  exact h rfl

/-- What the wait preserves from one cycle to the next. -/
theorem wait_cycle (e : Engine) (q : Quirks) (inp : Input) (s : CpuState) (x : Nat) (hx : x < 16)
    (hlive : e.currentCpuStateIndex = e.headCpuStateIndex)
    (hs : e.getCurrentCpuState = some s)
    (hword : e.mem.readWord s.pc = 0xF00A + 0x100 * x)
    (hkpv : e.keyboardPressedValue = 0xFF) :
    ∃ e', e.executeClockCycle q inp = some e' ∧
      e'.currentCpuStateIndex = e.currentCpuStateIndex ∧
      e'.headCpuStateIndex = e.headCpuStateIndex ∧
      e'.getCurrentCpuState = some s ∧ e'.mem = e.mem ∧ e'.keyboardPressedValue = 0xFF ∧
      e'.paused = e.paused ∧
      (e'.waitingForKeyboard = true ∨
        ((e.paused && !e.doAdvanceOneClockCycle) = true ∧
          e'.waitingForKeyboard = e.waitingForKeyboard)) := by
  cases hf : (e.paused && !e.doAdvanceOneClockCycle)
  swap
  · exact ⟨e, executeClockCycle_frozen e q inp hf, rfl, rfl, hs, rfl, hkpv, rfl, Or.inr ⟨rfl, rfl⟩⟩
  obtain ⟨hh, hslot⟩ := getCurrentCpuState_some e s hs
  have hh' : e.headCpuStateIndex < 1000 := hlive ▸ hh
  have hslot' : e.cpuStates ⟨e.headCpuStateIndex, hh'⟩ = s := by
    rw [← hslot]; congr 2; exact hlive.symm
  obtain ⟨hne, _, _⟩ := decode_Fx0A x hx
  obtain ⟨e', h1, h2, hp, _, _, h6, h7, h8⟩ :=
    executeClockCycle_live e q inp hf hlive hh' (by rw [hslot', hword]; exact hne) false s
      { e.toShared with waitingForKeyboard := true }
      (by rw [hslot', hword]; exact processOpcode_wait s q inp e.toShared x hx hkpv)
  have hhead : e'.headCpuStateIndex = e.headCpuStateIndex := by simpa using h7
  refine ⟨e', h1, by rw [h8, hhead, hlive], hhead, ?_, ?_, ?_, hp, Or.inl ?_⟩
  · unfold Engine.getCurrentCpuState
    rw [h8, hhead, cpuStateAt_lt _ _ hh', h6, Function.update_noteq, hslot']
    intro heq
    have := congrArg Fin.val heq
    simp only at this
    omega
  · rw [h2]
  · rw [h2]; exact hkpv
  · rw [h2]

theorem wait_run (q : Quirks) (s : CpuState) (x : Nat) (hx : x < 16) (inputs : List Input) :
    ∀ e : Engine, e.currentCpuStateIndex = e.headCpuStateIndex →
      e.getCurrentCpuState = some s → e.mem.readWord s.pc = 0xF00A + 0x100 * x →
      e.keyboardPressedValue = 0xFF →
      ∃ e1, e.runCycles q inputs = some e1 ∧
        e1.currentCpuStateIndex = e.currentCpuStateIndex ∧
        e1.headCpuStateIndex = e.headCpuStateIndex ∧
        e1.getCurrentCpuState = some s ∧ e1.mem = e.mem ∧ e1.keyboardPressedValue = 0xFF ∧
        e1.paused = e.paused ∧
        (e.waitingForKeyboard = true → e1.waitingForKeyboard = true) ∧
        (inputs ≠ [] → (e.paused && !e.doAdvanceOneClockCycle) = false →
          e1.waitingForKeyboard = true) := by
  induction inputs with
  | nil =>
    intro e _ hs _ hk
    exact ⟨e, rfl, rfl, rfl, hs, rfl, hk, rfl, id, fun h => absurd rfl h⟩
  | cons inp rest ih =>
    intro e hlive hs hword hk
    obtain ⟨e', h1, h2, h3, h4, h5, h6, hp, h7⟩ := wait_cycle e q inp s x hx hlive hs hword hk
    obtain ⟨e1, k1, k2, k3, k4, k5, k6, kp, k7, _⟩ :=
      ih e' (by rw [h2, h3, hlive]) h4 (by rw [h5]; exact hword) h6
    refine ⟨e1, ?_, by rw [k2, h2], by rw [k3, h3], k4, by rw [k5, h5], k6, by rw [kp, hp],
      ?_, ?_⟩
    · simp only [Engine.runCycles, h1, Option.some_bind, k1]
    · intro hw
      apply k7
      rcases h7 with h | ⟨_, h⟩
      · exact h
      · rw [h]; exact hw
    · intro _ hf
      apply k7
      rcases h7 with h | ⟨h, _⟩
      · exact h
      · rw [hf] at h; cases h

/-- **C10** (keyboard wait). Let the engine be Live and not frozen, with the `pc` of
    its current state `s` at a word `Fx0A` and no key value pending
    (`keyboardPressedValue = 0xFF`). Then after any positive number of
    `executeClockCycle` calls the waiting flag is set, no key value is pending, and
    the pause switch, `head`, `current` and the current state (so `pc` and all
    registers) are as before. From any such state, after `keyboardKeyPressed k` with `k` in `0..15`
    the next cycle that is not frozen writes `k` to `v[x]`, leaves the other
    registers alone, advances `pc` by 2, clears the waiting flag and the pending
    value (so no later cycle finds that key) and commits one history entry, the
    state before it staying in the old head slot. Finally `keyboardKeyPressed`
    changes nothing when the waiting flag is off. -/
theorem C10_keyboard_wait (e : Engine) (q : Quirks) (s : CpuState) (x : Nat) (hx : x < 16)
    (hlive : e.currentCpuStateIndex = e.headCpuStateIndex)
    (hnf : (e.paused && !e.doAdvanceOneClockCycle) = false)
    (hs : e.getCurrentCpuState = some s)
    (hword : e.mem.readWord s.pc = 0xF00A + 0x100 * x)
    (hkpv : e.keyboardPressedValue = 0xFF) :
    (∀ inputs : List Input, inputs ≠ [] →
      ∃ e1, e.runCycles q inputs = some e1 ∧
        e1.waitingForKeyboard = true ∧ e1.keyboardPressedValue = 0xFF ∧
        e1.paused = e.paused ∧
        e1.headCpuStateIndex = e.headCpuStateIndex ∧
        e1.currentCpuStateIndex = e.currentCpuStateIndex ∧
        e1.getCurrentCpuState = some s ∧
        (∀ (k : Nat) (inp : Input), k < 16 →
          (e1.paused && !e1.doAdvanceOneClockCycle) = false →
          ∃ e2 s2, (e1.keyboardKeyPressed k).executeClockCycle q inp = some e2 ∧
            e2.getCurrentCpuState = some s2 ∧
            s2.v ⟨x, hx⟩ = k ∧ (∀ i, i ≠ ⟨x, hx⟩ → s2.v i = s.v i) ∧ s2.pc = s.pc + 2 ∧
            e2.waitingForKeyboard = false ∧ e2.keyboardPressedValue = 0xFF ∧
            e2.headCpuStateIndex = (e.headCpuStateIndex + 1) % 1000 ∧
            e2.currentCpuStateIndex = e2.headCpuStateIndex ∧
            e2.cpuStateAt e.headCpuStateIndex = some s)) ∧
    (∀ (e0 : Engine) (k : Nat), e0.waitingForKeyboard = false → e0.keyboardKeyPressed k = e0) := by
  constructor
  swap
  · intro e0 k h0
    unfold Engine.keyboardKeyPressed
    rw [if_pos (by simp [h0])]
  intro inputs hne
  obtain ⟨e1, k1, k2, k3, k4, k5, k6, kp, _, k8⟩ :=
    wait_run q s x hx inputs e hlive hs hword hkpv
  have hw1 : e1.waitingForKeyboard = true := k8 hne hnf
  refine ⟨e1, k1, hw1, k6, kp, k3, k2, k4, ?_⟩
  intro k inp hk hnf1
  obtain ⟨hne0, _, _⟩ := decode_Fx0A x hx
  have hpress : e1.keyboardKeyPressed k = { e1 with keyboardPressedValue := k } := by
    unfold Engine.keyboardKeyPressed
    rw [if_neg (by simp [hw1])]
  have hlive1 : e1.currentCpuStateIndex = e1.headCpuStateIndex := by rw [k2, k3, hlive]
  obtain ⟨hh, hslot⟩ := getCurrentCpuState_some e1 s k4
  have hh' : e1.headCpuStateIndex < 1000 := hlive1 ▸ hh
  have hslot' : e1.cpuStates ⟨e1.headCpuStateIndex, hh'⟩ = s := by
    rw [← hslot]; congr 2; exact hlive1.symm
  have hword1 : e1.mem.readWord s.pc = 0xF00A + 0x100 * x := by rw [k5]; exact hword
  have hpc : s.pc < 4096 := readWord_lt e.mem s.pc (by rw [hword]; exact hne0)
  rw [hpress]
  obtain ⟨e2, h1, h2, _, _, _, h6, h7, h8⟩ :=
    executeClockCycle_live { e1 with keyboardPressedValue := k } q inp hnf1 hlive1 hh'
      (by show e1.mem.readWord (e1.cpuStates ⟨e1.headCpuStateIndex, hh'⟩).pc ≠ 0
          rw [hslot', hword1]; exact hne0)
      true { s with v := Function.update s.v ⟨x, hx⟩ k, pc := (s.pc + 2) % 65536 } _
      (by show (e1.cpuStates ⟨e1.headCpuStateIndex, hh'⟩).processOpcode q inp _
            (e1.mem.readWord (e1.cpuStates ⟨e1.headCpuStateIndex, hh'⟩).pc) = _
          rw [hslot', hword1]
          exact processOpcode_key s q inp _ x hx (by show k ≠ 0xFF; omega))
  have hhead : e2.headCpuStateIndex = (e1.headCpuStateIndex + 1) % 1000 := by simpa using h7
  have hmod : (e1.headCpuStateIndex + 1) % 1000 < 1000 := Nat.mod_lt _ (by norm_num)
  refine ⟨e2, { s with v := Function.update s.v ⟨x, hx⟩ k, pc := (s.pc + 2) % 65536 }, h1,
    ?_, ?_, ?_, ?_, ?_, ?_, ?_, h8, ?_⟩
  · unfold Engine.getCurrentCpuState
    rw [h8, hhead, cpuStateAt_lt _ _ hmod, h6]
    exact congrArg some (Function.update_same _ _ _)
  · exact Function.update_same _ _ _
  · intro i hi
    exact Function.update_noteq hi _ _
  · exact Nat.mod_eq_of_lt (by omega)
  · rw [h2]
  · rw [h2]
  · rw [hhead, k3]
  · rw [← k3, cpuStateAt_lt _ _ hh', h6]
    show some (Function.update e1.cpuStates _ _ _) = _
    rw [Function.update_noteq, hslot']
    intro heq
    have := congrArg Fin.val heq
    simp only at this
    omega

/-- Instance of C10: the word `0xF30A` (`LD V3, K`) at `0x200` of a fresh engine, two
    waiting cycles, then the key 7. -/
theorem C10_keyboard_wait_witness :
    ((3 : Nat) < 16 ∧ (freshEngine [0xF3, 0x0A]).mem.readWord 0x200 = 0xF00A + 0x100 * 3 ∧
      (freshEngine [0xF3, 0x0A]).keyboardPressedValue = 0xFF) ∧
    ∃ e1, (freshEngine [0xF3, 0x0A]).runCycles ⟨false, false⟩ [⟨[], 0⟩, ⟨[], 0⟩] = some e1 ∧
      e1.waitingForKeyboard = true ∧ e1.headCpuStateIndex = 0 ∧
      e1.getProgramCounter = some 0x200 ∧
      ∃ e2 s2, (e1.keyboardKeyPressed 7).executeClockCycle ⟨false, false⟩ ⟨[], 0⟩ = some e2 ∧
        e2.getCurrentCpuState = some s2 ∧ s2.v 3 = 7 ∧ s2.pc = 0x202 ∧
        e2.waitingForKeyboard = false ∧ e2.keyboardPressedValue = 0xFF ∧
        e2.headCpuStateIndex = 1 := by
  obtain ⟨e1, k1, k2, _, kp, k3, _, k5, k6⟩ :=
    (C10_keyboard_wait (freshEngine [0xF3, 0x0A]) ⟨false, false⟩
      ((freshEngine [0xF3, 0x0A]).cpuStates 0) 3 (by decide) rfl rfl rfl (by decide) rfl).1
      [⟨[], 0⟩, ⟨[], 0⟩] (by simp)
  have hnf1 : (e1.paused && !e1.doAdvanceOneClockCycle) = false := by
    rw [kp]; rfl
  obtain ⟨e2, s2, m1, m2, m3, _, m5, m6, m7, m8, _⟩ := k6 7 ⟨[], 0⟩ (by decide) hnf1
  refine ⟨⟨by decide, by decide, rfl⟩, e1, k1, k2, k3, ?_, e2, s2, m1, m2, m3, m5, m6, m7, m8⟩
  unfold Engine.getProgramCounter
  rw [k5]
  rfl

/-! ## Stepping backward and forward through the history -/

theorem backOneClockCylce_inside (e : Engine) (hp : e.paused = true)
    (hc : 1 ≤ e.currentCpuStateIndex) (hch : e.currentCpuStateIndex ≤ e.headCpuStateIndex) :
    e.backOneClockCylce.currentCpuStateIndex = e.currentCpuStateIndex - 1 ∧
    e.backOneClockCylce.headCpuStateIndex = e.headCpuStateIndex ∧
    e.backOneClockCylce.totalCpuCycles = e.totalCpuCycles ∧
    e.backOneClockCylce.cpuStates = e.cpuStates ∧
    e.backOneClockCylce.paused = true ∧
    e.backOneClockCylce.toShared = e.toShared := by
  have h1 : e.currentCpuStateIndex ≠ e.headCpuStateIndex + 1 := by omega
  have h2 : ¬ e.currentCpuStateIndex = 0 := by omega
  have h3 : ¬ e.currentCpuStateIndex - 1 > e.headCpuStateIndex := by omega
  have hb : e.backOneClockCylce =
      { e with currentCpuStateIndex := e.currentCpuStateIndex - 1,
               currentCpuStateDisplayIndex := e.currentCpuStateDisplayIndex - 1 } := by
    unfold Engine.backOneClockCylce
    simp only [hp, Bool.not_true, Bool.false_eq_true, if_false, ne_eq, h1, not_false_eq_true,
      if_true, h2, h3, and_false]
  rw [hb]
  exact ⟨rfl, rfl, rfl, rfl, hp, rfl⟩

theorem back_iterate (e : Engine) (hp : e.paused = true)
    (hlive : e.currentCpuStateIndex = e.headCpuStateIndex) (j : Nat)
    (hj : j ≤ e.headCpuStateIndex) :
    (Engine.backOneClockCylce^[j] e).currentCpuStateIndex = e.headCpuStateIndex - j ∧
    (Engine.backOneClockCylce^[j] e).headCpuStateIndex = e.headCpuStateIndex ∧
    (Engine.backOneClockCylce^[j] e).totalCpuCycles = e.totalCpuCycles ∧
    (Engine.backOneClockCylce^[j] e).cpuStates = e.cpuStates ∧
    (Engine.backOneClockCylce^[j] e).paused = true ∧
    (Engine.backOneClockCylce^[j] e).toShared = e.toShared := by
  induction j with
  | zero => exact ⟨by simpa using hlive, rfl, rfl, rfl, hp, rfl⟩
  | succ j ih =>
    obtain ⟨h1, h2, h3, h4, h5, h6⟩ := ih (by omega)
    rw [Function.iterate_succ_apply']
    obtain ⟨k1, k2, k3, k4, k5, k6⟩ :=
      backOneClockCylce_inside (Engine.backOneClockCylce^[j] e) h5 (by omega) (by omega)
    exact ⟨by rw [k1, h1]; omega, by rw [k2, h2], by rw [k3, h3], by rw [k4, h4], k5,
      by rw [k6, h6]⟩

theorem singleStep_replay (e : Engine) (q : Quirks) (inp : Input) (hp : e.paused = true)
    (hc : e.currentCpuStateIndex < e.headCpuStateIndex) (hh : e.headCpuStateIndex ≤ 999) :
    ∃ e', e.advanceOneClockCycle.executeClockCycle q inp = some e' ∧
      e'.currentCpuStateIndex = e.currentCpuStateIndex + 1 ∧
      e'.headCpuStateIndex = e.headCpuStateIndex ∧
      e'.totalCpuCycles = e.totalCpuCycles ∧ e'.cpuStates = e.cpuStates ∧
      e'.paused = true ∧ e'.toShared = e.toShared := by
  have hadv : e.advanceOneClockCycle = { e with doAdvanceOneClockCycle := true } := by
    unfold Engine.advanceOneClockCycle
    rw [if_neg (by simp [hp])]
  rw [hadv]
  obtain ⟨e', h1, h2, h3, _, h5, h6, h7, h8⟩ :=
    executeClockCycle_replay { e with doAdvanceOneClockCycle := true } q inp (by simp)
      (by show e.currentCpuStateIndex ≠ e.headCpuStateIndex; omega)
  refine ⟨e', h1, ?_, h7, h5, h6, by rw [h3]; exact hp, h2⟩
  rw [h8]
  show (if e.currentCpuStateIndex = maxCpuStates - 1 then 0 else e.currentCpuStateIndex + 1) = _
  unfold maxCpuStates
  rw [if_neg (by omega)]

theorem singleSteps_replay (q : Quirks) (steps : List Input) :
    ∀ e : Engine, e.paused = true → e.headCpuStateIndex ≤ 999 →
      e.currentCpuStateIndex + steps.length = e.headCpuStateIndex →
      ∃ ef, e.singleSteps q steps = some ef ∧
        ef.currentCpuStateIndex = e.headCpuStateIndex ∧
        ef.headCpuStateIndex = e.headCpuStateIndex ∧
        ef.totalCpuCycles = e.totalCpuCycles ∧ ef.cpuStates = e.cpuStates ∧
        ef.paused = true ∧ ef.toShared = e.toShared := by
  induction steps with
  | nil =>
    intro e hp _ hlen
    exact ⟨e, rfl, by simpa using hlen, rfl, rfl, rfl, hp, rfl⟩
  | cons inp rest ih =>
    intro e hp hh hlen
    rw [List.length_cons] at hlen
    obtain ⟨e', h1, h2, h3, h4, h5, h6, h7⟩ := singleStep_replay e q inp hp (by omega) hh
    obtain ⟨ef, k1, k2, k3, k4, k5, k6, k7⟩ :=
      ih e' h6 (by rw [h3]; exact hh) (by rw [h2, h3]; omega)
    refine ⟨ef, ?_, by rw [k2, h3], by rw [k3, h3], by rw [k4, h4], by rw [k5, h5], k6,
      by rw [k7, h7]⟩
    simp only [Engine.singleSteps, h1, Option.some_bind, k1]

theorem forward_invariant (q : Quirks) (K : Nat) (hK : K ≤ 999) (es : Nat → Engine)
    (ins : Nat → Input)
    (hfresh : (es 0).headCpuStateIndex = 0 ∧ (es 0).currentCpuStateIndex = 0 ∧
      (es 0).totalCpuCycles = 0)
    (hcommit : ∀ i, i < K → Engine.Commits q (ins i) (es i) (es (i + 1))) :
    ∀ i, i ≤ K →
      (es i).headCpuStateIndex = i ∧ (es i).currentCpuStateIndex = i ∧
      (es i).totalCpuCycles = i ∧ (es i).paused = (es 0).paused ∧
      ∀ m, m ≤ i → (es i).cpuStateAt m = (es m).cpuStateAt m := by
  intro i
  induction i with
  | zero =>
    intro _
    refine ⟨hfresh.1, hfresh.2.1, hfresh.2.2, rfl, ?_⟩
    intro m hm
    have : m = 0 := by omega
    rw [this]
  | succ i ih =>
    intro hi
    obtain ⟨h1, h2, h3, h4, h5⟩ := ih (by omega)
    obtain ⟨hex, hne⟩ := hcommit i (by omega)
    obtain ⟨_, _, hh, _, s', g', _, _, k2, _, k4, k5, k6, k7⟩ :=
      executeClockCycle_head_moved (es i) (es (i + 1)) q (ins i) hex hne
    have hmod : ((es i).headCpuStateIndex + 1) % 1000 = i + 1 := by
      rw [h1]; exact Nat.mod_eq_of_lt (by omega)
    refine ⟨by rw [k6, hmod], by rw [k7, k6, hmod], ?_, by rw [k2, h4], ?_⟩
    · rw [k4, h3]
      exact Nat.mod_eq_of_lt (by
        have : (1000 : Nat) < 2 ^ 64 := by norm_num
        omega)
    · intro m hm
      by_cases hmi : m = i + 1
      · rw [hmi]
      · have hlt : m < 1000 := by omega
        rw [← h5 m (by omega), cpuStateAt_lt _ _ hlt, cpuStateAt_lt _ _ hlt, k5,
          Function.update_noteq]
        intro heq
        have := congrArg Fin.val heq
        simp only at this
        omega

/-- **C1** (history symmetry). Take a freshly reset, running engine
    (`head = current = 0`, `totalCycles = 0`) and `K ≤ 999` calls of
    `executeClockCycle` that each commit a state, `es i` being the engine after `i`
    of them. Pause after the `K` cycles. For every `j ≤ K`, after `j` calls of
    `backOneClockCylce` the current machine state is the state that was current
    after forward cycle `K - j`, while `head`, `totalCycles` and the stored states
    are those reached after the `K` cycles; and `j` single-step advances
    (`advanceOneClockCycle` followed by `executeClockCycle`) lead back to the state
    reached by the `K` cycles, with `current`, `head`, `totalCycles`, every stored
    state, the memory and the keyboard variables as they were after the `K`
    cycles. -/
theorem C1_history_symmetry (q : Quirks) (K : Nat) (hK : K ≤ 999) (es : Nat → Engine)
    (ins : Nat → Input)
    (hfresh : (es 0).headCpuStateIndex = 0 ∧ (es 0).currentCpuStateIndex = 0 ∧
      (es 0).totalCpuCycles = 0)
    (hrun : (es 0).paused = false)
    (hcommit : ∀ i, i < K → Engine.Commits q (ins i) (es i) (es (i + 1)))
    (j : Nat) (hj : j ≤ K) :
    ∃ s, (es (K - j)).getCurrentCpuState = some s ∧
      (Engine.backOneClockCylce^[j] (es K).togglePaused).getCurrentCpuState = some s ∧
      (Engine.backOneClockCylce^[j] (es K).togglePaused).headCpuStateIndex =
        (es K).headCpuStateIndex ∧
      (Engine.backOneClockCylce^[j] (es K).togglePaused).totalCpuCycles =
        (es K).totalCpuCycles ∧
      (Engine.backOneClockCylce^[j] (es K).togglePaused).cpuStates = (es K).cpuStates ∧
      ∀ steps : List Input, steps.length = j →
        ∃ ef, (Engine.backOneClockCylce^[j] (es K).togglePaused).singleSteps q steps = some ef ∧
          ef.getCurrentCpuState = (es K).getCurrentCpuState ∧
          ef.currentCpuStateIndex = (es K).currentCpuStateIndex ∧
          ef.headCpuStateIndex = (es K).headCpuStateIndex ∧
          ef.totalCpuCycles = (es K).totalCpuCycles ∧
          ef.cpuStates = (es K).cpuStates ∧ ef.toShared = (es K).toShared := by
  have hinv := forward_invariant q K hK es ins hfresh hcommit
  obtain ⟨a1, a2, a3, a4, a5⟩ := hinv K (le_refl K)
  obtain ⟨b1, b2, _, _, _⟩ := hinv (K - j) (by omega)
  have hp : (es K).togglePaused.paused = true := by
    show (!(es K).paused) = true
    rw [a4, hrun]; rfl
  obtain ⟨c1, c2, c3, c4, c5, c6⟩ :=
    back_iterate (es K).togglePaused hp (by show (es K).currentCpuStateIndex = (es K).headCpuStateIndex; rw [a2, a1]) j
      (by show j ≤ (es K).headCpuStateIndex; rw [a1]; exact hj)
  have hhead : (es K).togglePaused.headCpuStateIndex = K := a1
  rw [hhead] at c1
  have hlt : K - j < 1000 := by omega
  have hcur : (Engine.backOneClockCylce^[j] (es K).togglePaused).getCurrentCpuState =
      (es (K - j)).getCurrentCpuState := by
    unfold Engine.getCurrentCpuState
    rw [c1, b2, ← a5 (K - j) (by omega), cpuStateAt_lt _ _ hlt, cpuStateAt_lt _ _ hlt, c4]
    rfl
  refine ⟨(es (K - j)).cpuStates ⟨K - j, hlt⟩, ?_, ?_, c2, c3, c4, ?_⟩
  · unfold Engine.getCurrentCpuState
    rw [b2, cpuStateAt_lt _ _ hlt]
  · rw [hcur]
    unfold Engine.getCurrentCpuState
    rw [b2, cpuStateAt_lt _ _ hlt]
  · intro steps hlen
    obtain ⟨ef, d1, d2, d3, d4, d5, _, d7⟩ :=
      singleSteps_replay q steps (Engine.backOneClockCylce^[j] (es K).togglePaused) c5
        (by rw [c2, hhead]; exact hK) (by rw [c1, c2, hhead, hlen]; omega)
    rw [c2] at d2 d3
    rw [c3] at d4
    rw [c4] at d5
    rw [c6] at d7
    have hcurK : ef.currentCpuStateIndex = (es K).currentCpuStateIndex := by
      rw [d2, hhead, a2]
    refine ⟨ef, d1, ?_, hcurK, d3, d4, d5, d7⟩
    unfold Engine.getCurrentCpuState Engine.cpuStateAt
    rw [hcurK]
    show (if h : _ then some (ef.cpuStates _) else none) = _
    rw [show ef.cpuStates = (es K).cpuStates from d5]

/-- Instance of C1: the two cycles of `twoLoads`, one step back and one forward. -/
theorem C1_history_symmetry_witness :
    ((2 : Nat) ≤ 999 ∧ (twoLoadsTrace 0).paused = false ∧
      (∀ i, i < 2 → Engine.Commits noQuirks noInput (twoLoadsTrace i) (twoLoadsTrace (i + 1))) ∧
      (1 : Nat) ≤ 2) ∧
    ∃ s, (twoLoadsTrace (2 - 1)).getCurrentCpuState = some s ∧
      (Engine.backOneClockCylce^[1] (twoLoadsTrace 2).togglePaused).getCurrentCpuState = some s ∧
      ∃ ef, (Engine.backOneClockCylce^[1] (twoLoadsTrace 2).togglePaused).singleSteps noQuirks
          [noInput] = some ef ∧
        ef.getCurrentCpuState = (twoLoadsTrace 2).getCurrentCpuState ∧
        ef.headCpuStateIndex = (twoLoadsTrace 2).headCpuStateIndex ∧
        ef.totalCpuCycles = (twoLoadsTrace 2).totalCpuCycles ∧
        ef.cpuStates = (twoLoadsTrace 2).cpuStates := by
  have hc : ∀ i, i < 2 →
      Engine.Commits noQuirks noInput (twoLoadsTrace i) (twoLoadsTrace (i + 1)) := by
    intro i hi
    interval_cases i
    · exact ⟨rfl, by decide⟩
    · exact ⟨rfl, by decide⟩
  obtain ⟨s, h1, h2, _, _, _, h6⟩ :=
    C1_history_symmetry noQuirks 2 (by decide) twoLoadsTrace (fun _ => noInput)
      ⟨rfl, rfl, rfl⟩ rfl hc 1 (by decide)
  obtain ⟨ef, k1, k2, _, k4, k5, k6, _⟩ := h6 [noInput] rfl
  exact ⟨⟨by decide, rfl, hc, by decide⟩, s, h1, h2, ef, k1, k2, k4, k5, k6⟩


/-! ## Drawing at the right edge -/

/-- **C9** (draw idempotence) fails at the right edge. With `Vx = 62`, `Vy = 31` and
    the one-row sprite `0xF0` at `ir = 0`, `drawByte` keeps `x = 62` (only
    `x ≥ 64` is reset to 0) and goes on to `frameBuffer[31][64 .. 69]`, outside the
    array: the first `DRW` already has no defined result, so there is no pair of
    draws after which the frame buffer is restored. -/
theorem C9_draw_past_the_row :
    edgeState.v 0 = 62 ∧ edgeState.v 1 = 31 ∧ exampleMemory.readByte edgeState.ir = 0xF0 ∧
    edgeState.vgaState.getPixel 31 (62 + 2) = none ∧
    edgeState.vgaState.drawByte 62 31 0xF0 = none ∧
    edgeState.DRW_Vx_Vy_Nibble exampleMemory 0 1 1 = none := by
  refine ⟨rfl, rfl, by decide, rfl, rfl, rfl⟩

/-! ## Drawing the same sprite twice -/

theorem clampRow_lt (y : Nat) : clampRow y < 32 := by
  unfold clampRow frameBufferHeight
  split_ifs <;> omega

theorem drawByte_clamp (vga : VgaState) (x y byte : Nat) :
    vga.drawByte x y byte = vga.drawByte (clampColumn x) (clampRow y) byte := by
  have h0 : ¬ (0 ≥ frameBufferWidth) := by unfold frameBufferWidth; omega
  have h1 : ¬ (0 ≥ frameBufferHeight) := by unfold frameBufferHeight; omega
  by_cases hx : x ≥ frameBufferWidth <;> by_cases hy : y ≥ frameBufferHeight <;>
    simp only [VgaState.drawByte, clampColumn, clampRow, hx, hy, h0, h1, if_true, if_false]

theorem drawByte_clamped (vga : VgaState) (x y byte : Nat) (hx : clampColumn x + 7 < 64) :
    vga.drawByte x y byte =
      some (vga.rowErases (clampColumn x) (clampRow y) byte,
        vga.xorRow (clampColumn x) (clampRow y) byte) := by
  rw [drawByte_clamp, drawByte_inside _ _ _ _ hx (clampRow_lt y)]

theorem DRW_row_clamped (s : CpuState) (mem : Memory) (vx vy : Fin 16)
    (hx : clampColumn (s.v vx) + 7 < 64) (acc : Bool × VgaState) (i : Nat) :
    s.DRW_row mem vx vy acc i =
      some (acc.2.rowErases (clampColumn (s.v vx)) (s.spriteRow vy i) (s.spriteByte mem i) ||
          acc.1,
        acc.2.xorRow (clampColumn (s.v vx)) (s.spriteRow vy i) (s.spriteByte mem i)) := by
  unfold CpuState.DRW_row
  simp only [drawByte_clamped _ _ _ _ hx, Option.bind_eq_bind, Option.some_bind, pure,
    CpuState.spriteRow, CpuState.spriteByte]

theorem DRW_fold (s : CpuState) (mem : Memory) (vx vy : Fin 16)
    (hx : clampColumn (s.v vx) + 7 < 64) (rows : List Nat) :
    ∀ (acc : Bool) (vga : VgaState),
      rows.foldlM (s.DRW_row mem vx vy) (acc, vga) =
        some (acc || s.erasedByRows mem vx vy rows vga, s.drawnRows mem vx vy rows vga) := by
  induction rows with
  | nil =>
    intro acc vga
    simp [CpuState.erasedByRows, CpuState.drawnRows]
  | cons i rows ih =>
    intro acc vga
    rw [List.foldlM_cons, DRW_row_clamped s mem vx vy hx]
    simp only [Option.bind_eq_bind, Option.some_bind]
    rw [ih]
    simp only [CpuState.erasedByRows, CpuState.drawnRows]
    congr 2
    cases acc <;> simp

theorem xorRow_xorRow_cancel (vga : VgaState) (x y byte : Nat) :
    (vga.xorRow x y byte).xorRow x y byte = vga := by
  cases vga with
  | mk fb =>
    unfold VgaState.xorRow
    congr 1
    funext r c
    simp only
    split_ifs <;> simp

theorem xor_swap (a b c : Bool) : xor (xor a b) c = xor (xor a c) b := by
  cases a <;> cases b <;> cases c <;> rfl

theorem xorRow_comm (vga : VgaState) (x y byte x' y' byte' : Nat) :
    (vga.xorRow x y byte).xorRow x' y' byte' = (vga.xorRow x' y' byte').xorRow x y byte := by
  unfold VgaState.xorRow
  congr 1
  funext r c
  simp only
  split_ifs <;> first | rfl | exact xor_swap _ _ _

theorem drawnRows_xorRow (s : CpuState) (mem : Memory) (vx vy : Fin 16) (rows : List Nat) :
    ∀ (vga : VgaState) (x y byte : Nat),
      s.drawnRows mem vx vy rows (vga.xorRow x y byte) =
        (s.drawnRows mem vx vy rows vga).xorRow x y byte := by
  induction rows with
  | nil => intro vga x y byte; rfl
  | cons i rows ih =>
    intro vga x y byte
    simp only [CpuState.drawnRows]
    rw [xorRow_comm, ih]

theorem drawnRows_twice (s : CpuState) (mem : Memory) (vx vy : Fin 16) (rows : List Nat) :
    ∀ vga : VgaState, s.drawnRows mem vx vy rows (s.drawnRows mem vx vy rows vga) = vga := by
  induction rows with
  | nil => intro vga; rfl
  | cons i rows ih =>
    intro vga
    simp only [CpuState.drawnRows]
    simp only [drawnRows_xorRow, xorRow_xorRow_cancel, ih]

theorem rowErases_of_pixel (vga : VgaState) (x y byte r c : Nat) (hr : r < 32) (hc : c < 64)
    (hon : vga.pixel r c = true) (hoff : (vga.xorRow x y byte).pixel r c = false) :
    vga.rowErases x y byte = true := by
  rw [pixel_xorRow vga x y byte r c hr hc] at hoff
  by_cases hin : r = y ∧ x ≤ c ∧ c < x + 8
  · rw [if_pos hin, hon] at hoff
    have hbit : byte.testBit (7 - (c - x)) = true := by
      cases hb : byte.testBit (7 - (c - x))
      · rw [hb] at hoff; cases hoff
      · rfl
    unfold VgaState.rowErases
    rw [List.any_eq_true]
    refine ⟨c - x, List.mem_range.mpr (by omega), ?_⟩
    rw [show x + (c - x) = c by omega, ← hin.1, hon, hbit]
    rfl
  · rw [if_neg hin, hon] at hoff
    cases hoff

theorem erasedByRows_of_pixel (s : CpuState) (mem : Memory) (vx vy : Fin 16) (rows : List Nat)
    (r c : Nat) (hr : r < 32) (hc : c < 64) :
    ∀ vga : VgaState, vga.pixel r c = true →
      (s.drawnRows mem vx vy rows vga).pixel r c = false →
      s.erasedByRows mem vx vy rows vga = true := by
  induction rows with
  | nil =>
    intro vga hon hoff
    simp only [CpuState.drawnRows] at hoff
    rw [hon] at hoff
    cases hoff
  | cons i rows ih =>
    intro vga hon hoff
    simp only [CpuState.drawnRows] at hoff
    simp only [CpuState.erasedByRows, Bool.or_eq_true]
    cases hmid : (vga.xorRow (clampColumn (s.v vx)) (s.spriteRow vy i)
        (s.spriteByte mem i)).pixel r c
    · exact Or.inl (rowErases_of_pixel vga _ _ _ r c hr hc hon hmid)
    · exact Or.inr (ih _ hmid hoff)

theorem DRW_row_congr (s t : CpuState) (mem : Memory) (vx vy : Fin 16)
    (hvx : t.v vx = s.v vx) (hvy : t.v vy = s.v vy) (hir : t.ir = s.ir) :
    t.DRW_row mem vx vy = s.DRW_row mem vx vy := by
  funext acc i
  unfold CpuState.DRW_row
  rw [hvx, hvy, hir]

/-- Away from the right edge the double draw behaves as documented: for `Vx ≤ 56` or
    `Vx ≥ 64` (the latter drawn from column 0), any `Vy`, any `n ≥ 1` and registers
    `x`, `y` other than 15, two successive `DRW Vx, Vy, n` restore the display, and
    the second sets `v[15] = 1` whenever the first turned some pixel on. -/
theorem draw_twice_inside_rows (s : CpuState) (mem : Memory) (x y : Fin 16) (n : Nat)
    (hx15 : x ≠ 15) (hy15 : y ≠ 15) (hn : 1 ≤ n) (hcol : s.v x ≤ 56 ∨ 64 ≤ s.v x) :
    ∃ s1 s2, s.DRW_Vx_Vy_Nibble mem x y n = some (true, s1) ∧
      s1.DRW_Vx_Vy_Nibble mem x y n = some (true, s2) ∧
      s2.vgaState = s.vgaState ∧
      ((∃ r c, s.vgaState.pixel r c = false ∧ s1.vgaState.pixel r c = true) → s2.v 15 = 1) := by
  have hx : clampColumn (s.v x) + 7 < 64 := by
    unfold clampColumn frameBufferWidth
    split_ifs <;> omega
  have hn0 : ¬ n = 0 := by omega
  have h1 : s.DRW_Vx_Vy_Nibble mem x y n = some (true,
      { s with
        vgaState := s.drawnRows mem x y (List.range n) s.vgaState
        v := Function.update s.v 15
          (if s.erasedByRows mem x y (List.range n) s.vgaState then 1 else 0)
        pc := (s.pc + 2) % 65536 }) := by
    unfold CpuState.DRW_Vx_Vy_Nibble
    simp only [getRegister_fin, if_neg hn0, DRW_fold s mem x y hx, Option.bind_eq_bind,
      Option.some_bind, pure, Bool.false_or]
  have hv15 : (Function.update s.v 15
      (if s.erasedByRows mem x y (List.range n) s.vgaState then 1 else 0)) x = s.v x :=
    Function.update_noteq hx15 _ _
  have hv15' : (Function.update s.v 15
      (if s.erasedByRows mem x y (List.range n) s.vgaState then 1 else 0)) y = s.v y :=
    Function.update_noteq hy15 _ _
  have h2 : ({ s with
        vgaState := s.drawnRows mem x y (List.range n) s.vgaState
        v := Function.update s.v 15
          (if s.erasedByRows mem x y (List.range n) s.vgaState then 1 else 0)
        pc := (s.pc + 2) % 65536 } : CpuState).DRW_Vx_Vy_Nibble mem x y n = some (true,
      { s with
        vgaState := s.drawnRows mem x y (List.range n)
          (s.drawnRows mem x y (List.range n) s.vgaState)
        v := Function.update (Function.update s.v 15
            (if s.erasedByRows mem x y (List.range n) s.vgaState then 1 else 0)) 15
          (if s.erasedByRows mem x y (List.range n)
            (s.drawnRows mem x y (List.range n) s.vgaState) then 1 else 0)
        pc := ((s.pc + 2) % 65536 + 2) % 65536 }) := by
    have key := DRW_row_congr s ({ s with
        vgaState := s.drawnRows mem x y (List.range n) s.vgaState
        v := Function.update s.v 15
          (if s.erasedByRows mem x y (List.range n) s.vgaState then 1 else 0)
        pc := (s.pc + 2) % 65536 } : CpuState) mem x y hv15 hv15' rfl
    unfold CpuState.DRW_Vx_Vy_Nibble
    simp only [getRegister_fin, if_neg hn0]
    rw [key]
    simp only [DRW_fold s mem x y hx, Option.bind_eq_bind, Option.some_bind, pure,
      Bool.false_or]
  refine ⟨_, _, h1, h2, ?_, ?_⟩
  · exact drawnRows_twice s mem x y (List.range n) s.vgaState
  · rintro ⟨r, c, hoff, hon⟩
    have hin : r < 32 ∧ c < 64 := by
      by_contra hout
      rw [pixel_outside _ r c hout] at hon
      cases hon
    have herase := erasedByRows_of_pixel s mem x y (List.range n) r c hin.1 hin.2
      (s.drawnRows mem x y (List.range n) s.vgaState) hon
      (by rw [drawnRows_twice]; exact hoff)
    simp [herase]

/-! ## Replaying forward -/

theorem advance_unfrozen (e : Engine)
    (hf : (e.paused && !e.doAdvanceOneClockCycle) = false) : e.advanceOneClockCycle = e := by
  unfold Engine.advanceOneClockCycle
  cases hp : e.paused
  · simp
  · rw [hp] at hf
    have hd : e.doAdvanceOneClockCycle = true := by simpa using hf
    rw [if_neg (by simp)]
    rcases e with ⟨g, p, d, c, t, di, ci, h⟩
    simp only at hd hp
    subst hd hp
    rfl

theorem advance_unfrozen_after (e : Engine) :
    (e.advanceOneClockCycle.paused && !e.advanceOneClockCycle.doAdvanceOneClockCycle) = false ∧
    e.advanceOneClockCycle.toShared = e.toShared ∧
    e.advanceOneClockCycle.paused = e.paused ∧
    e.advanceOneClockCycle.totalCpuCycles = e.totalCpuCycles ∧
    e.advanceOneClockCycle.cpuStates = e.cpuStates ∧
    e.advanceOneClockCycle.headCpuStateIndex = e.headCpuStateIndex ∧
    e.advanceOneClockCycle.currentCpuStateIndex = e.currentCpuStateIndex := by
  unfold Engine.advanceOneClockCycle
  cases hp : e.paused
  · simp [hp]
  · simp [hp]

/-- The steps of a replay: as long as `current` has not reached `head`, each
    single-step advance moves `current` one slot forward and nothing else. -/
theorem replay_steps (q : Quirks) (steps : List Input) :
    ∀ e : Engine, e.currentCpuStateIndex < 1000 → e.headCpuStateIndex < 1000 →
      steps.length ≤ (e.headCpuStateIndex + 1000 - e.currentCpuStateIndex) % 1000 →
      ∃ ef, e.singleSteps q steps = some ef ∧
        (e.paused = false → e.runCycles q steps = some ef) ∧
        ef.currentCpuStateIndex = (e.currentCpuStateIndex + steps.length) % 1000 ∧
        ef.headCpuStateIndex = e.headCpuStateIndex ∧
        ef.totalCpuCycles = e.totalCpuCycles ∧ ef.cpuStates = e.cpuStates ∧
        ef.paused = e.paused ∧ ef.toShared = e.toShared := by
  induction steps with
  | nil =>
    intro e hc _ _
    exact ⟨e, rfl, fun _ => rfl, by simp [Nat.mod_eq_of_lt hc], rfl, rfl, rfl, rfl, rfl⟩
  | cons inp rest ih =>
    intro e hc hh hlen
    rw [List.length_cons] at hlen
    obtain ⟨a1, a2, a3, a4, a5, a6, a7⟩ := advance_unfrozen_after e
    have hne : e.advanceOneClockCycle.currentCpuStateIndex ≠
        e.advanceOneClockCycle.headCpuStateIndex := by
      rw [a7, a6]
      intro h
      rw [h] at hlen
      have : (e.headCpuStateIndex + 1000 - e.headCpuStateIndex) % 1000 = 0 := by omega
      omega
    obtain ⟨e1, h1, h2, h3, _, h5, h6, h7, h8⟩ :=
      executeClockCycle_replay e.advanceOneClockCycle q inp a1 hne
    rw [next_eq_mod _ (by rw [a7]; exact hc), a7] at h8
    rw [a6] at h7
    obtain ⟨ef, k1, k2, k3, k4, k5, k6, k7, k8⟩ :=
      ih e1 (by rw [h8]; exact Nat.mod_lt _ (by norm_num)) (by rw [h7]; exact hh)
        (by rw [h7, h8]; omega)
    refine ⟨ef, ?_, ?_, ?_, by rw [k4, h7], by rw [k5, h5, a4], by rw [k6, h6, a5],
      by rw [k7, h3, a3], by rw [k8, h2, a2]⟩
    · simp only [Engine.singleSteps, h1, Option.bind_eq_bind, Option.some_bind, k1]
    · intro hp
      have hadv : e.advanceOneClockCycle = e := advance_unfrozen e (by simp [hp])
      rw [hadv] at h1
      simp only [Engine.runCycles, h1, Option.bind_eq_bind, Option.some_bind]
      exact k2 (by rw [h3, a3, hp])
    · rw [k3, h8, List.length_cons]
      omega

/-- **C15** (replaying forward recomputes nothing). Whenever `current ≠ head` and
    the engine is not frozen, `executeClockCycle` sets
    `current' = (current + 1) mod 1000` and clears the single-step request; `head`,
    `totalCycles`, the memory, the keyboard variables, the pause flag and every
    stored state are unchanged, and the outcome is the same for every memory
    content, quirk setting and input, so that no instruction is fetched or
    executed. With `n = (head - current) mod 1000`, after `k ≤ n` such steps (each
    requested by `advanceOneClockCycle`, which is needed only while paused)
    `current` is `(current + k) mod 1000`, which is `head` exactly when `k = n`,
    and everything else is still unchanged. -/
theorem C15_replay_forward (e : Engine) (q : Quirks) (inp : Input)
    (hf : (e.paused && !e.doAdvanceOneClockCycle) = false)
    (hne : e.currentCpuStateIndex ≠ e.headCpuStateIndex)
    (hc : e.currentCpuStateIndex < 1000) (hh : e.headCpuStateIndex < 1000) :
    (∃ e', e.executeClockCycle q inp = some e' ∧
      e'.currentCpuStateIndex = (e.currentCpuStateIndex + 1) % 1000 ∧
      e'.doAdvanceOneClockCycle = false ∧
      e'.headCpuStateIndex = e.headCpuStateIndex ∧
      e'.totalCpuCycles = e.totalCpuCycles ∧ e'.cpuStates = e.cpuStates ∧
      e'.toShared = e.toShared ∧ e'.paused = e.paused ∧
      ∀ (q' : Quirks) (inp' : Input) (g : Shared),
        { e with toShared := g }.executeClockCycle q' inp' = some { e' with toShared := g }) ∧
    ∀ steps : List Input,
      steps.length ≤ (e.headCpuStateIndex + 1000 - e.currentCpuStateIndex) % 1000 →
      ∃ ef, e.singleSteps q steps = some ef ∧
        (e.paused = false → e.runCycles q steps = some ef) ∧
        ef.currentCpuStateIndex = (e.currentCpuStateIndex + steps.length) % 1000 ∧
        (ef.currentCpuStateIndex = ef.headCpuStateIndex ↔
          steps.length = (e.headCpuStateIndex + 1000 - e.currentCpuStateIndex) % 1000) ∧
        ef.headCpuStateIndex = e.headCpuStateIndex ∧
        ef.totalCpuCycles = e.totalCpuCycles ∧ ef.cpuStates = e.cpuStates ∧
        ef.toShared = e.toShared ∧ ef.paused = e.paused := by
  constructor
  · have hex : ∀ (q' : Quirks) (inp' : Input) (g : Shared),
        { e with toShared := g }.executeClockCycle q' inp' =
          some { e with toShared := g, doAdvanceOneClockCycle := false, currentCpuStateDisplayIndex := (if e.currentCpuStateDisplayIndex = (maxCpuStates : Int) then (maxCpuStates : Int) else e.currentCpuStateDisplayIndex + 1), currentCpuStateIndex := (e.currentCpuStateIndex + 1) % 1000 } := by
      intro q' inp' g
      unfold Engine.executeClockCycle
      rw [if_neg (by simp [hf])]
      simp only [ne_eq, hne, not_false_eq_true, if_true, next_eq_mod _ hc]
    exact ⟨_, hex q inp e.toShared, rfl, rfl, rfl, rfl, rfl, rfl, rfl, hex⟩
  · intro steps hlen
    obtain ⟨ef, k1, k2, k3, k4, k5, k6, k7, k8⟩ := replay_steps q steps e hc hh hlen
    refine ⟨ef, k1, k2, k3, ?_, k4, k5, k6, k8, k7⟩
    rw [k3, k4]
    constructor
    · intro h
      omega
    · intro h
      rw [h]
      omega

/-- Instance of C15: from `current = 2` towards `head = 5`, one step and then the
    three steps that reach the head. -/
theorem C15_replay_forward_witness :
    ((rewoundEngine.paused && !rewoundEngine.doAdvanceOneClockCycle) = false ∧
      rewoundEngine.currentCpuStateIndex ≠ rewoundEngine.headCpuStateIndex) ∧
    (∃ e', rewoundEngine.executeClockCycle noQuirks noInput = some e' ∧
      e'.currentCpuStateIndex = 3 ∧ e'.headCpuStateIndex = 5 ∧
      e'.cpuStates = rewoundEngine.cpuStates) ∧
    ∃ ef, rewoundEngine.singleSteps noQuirks [noInput, noInput, noInput] = some ef ∧
      ef.currentCpuStateIndex = 5 ∧ ef.headCpuStateIndex = 5 := by
  obtain ⟨⟨e', h1, h2, _, h4, _, h6, _⟩, hsteps⟩ :=
    C15_replay_forward rewoundEngine noQuirks noInput rfl (by decide) (by decide) (by decide)
  obtain ⟨ef, k1, _, k3, _, k5, _⟩ := hsteps [noInput, noInput, noInput] (by decide)
  exact ⟨⟨rfl, by decide⟩, ⟨e', h1, h2, h4, h6⟩, ef, k1, k3, k5⟩

/-! ## Timers -/

/-- **C20** (timer decrement). Let `s` be the current state. When the engine is not
    paused, `decrementTimers` replaces `dt` by `dt - 1` if `dt > 0` and by 0 if
    `dt = 0`, likewise `st`, changes no other field of the current state, no other
    stored state, and no other variable of the engine. When the engine is paused
    and no single-step request is pending, `decrementTimers` changes nothing. -/
theorem C20_decrementTimers (e : Engine) (s : CpuState) (hs : e.getCurrentCpuState = some s) :
    (e.paused = false →
      ∃ e', e.decrementTimers = some e' ∧
        e'.getCurrentCpuState =
          some { s with dt := if s.dt > 0 then s.dt - 1 else 0,
                        st := if s.st > 0 then s.st - 1 else 0 } ∧
        (∀ i, i ≠ e.currentCpuStateIndex → e'.cpuStateAt i = e.cpuStateAt i) ∧
        e'.currentCpuStateIndex = e.currentCpuStateIndex ∧
        e'.headCpuStateIndex = e.headCpuStateIndex ∧
        e'.totalCpuCycles = e.totalCpuCycles ∧ e'.toShared = e.toShared ∧
        e'.paused = e.paused ∧ e'.doAdvanceOneClockCycle = e.doAdvanceOneClockCycle) ∧
    (e.paused = true → e.doAdvanceOneClockCycle = false → e.decrementTimers = some e) := by
  obtain ⟨hh, hslot⟩ := getCurrentCpuState_some e s hs
  constructor
  · intro hp
    have hdec : e.decrementTimers = some { e with cpuStates := Function.update e.cpuStates ⟨e.currentCpuStateIndex, hh⟩ { s with dt := if s.dt > 0 then s.dt - 1 else 0, st := if s.st > 0 then s.st - 1 else 0 } } := by
      unfold Engine.decrementTimers
      simp only [hp, Bool.false_and, Bool.false_eq_true, if_false, hs, Option.bind_eq_bind,
        Option.some_bind, setCpuState_lt _ _ _ hh]
      congr 3
      by_cases hd : s.dt > 0 <;> by_cases ht : s.st > 0 <;>
        simp only [hd, ht, if_true, if_false]
      · rw [show (0 : Nat) = s.st by omega]
      · rw [show (0 : Nat) = s.dt by omega]
      · have h1 : s.dt = 0 := by omega
        have h2 : s.st = 0 := by omega
        rcases s with ⟨_, _, _, d, t, _, _, _⟩
        simp only at h1 h2
        rw [h1, h2]
    refine ⟨_, hdec, ?_, ?_, rfl, rfl, rfl, rfl, rfl, rfl⟩
    · unfold Engine.getCurrentCpuState
      rw [cpuStateAt_lt _ _ hh]
      exact congrArg some (Function.update_same _ _ _)
    · intro i hi
      unfold Engine.cpuStateAt
      by_cases hlt : i < 1000
      · rw [dif_pos hlt, dif_pos hlt]
        exact congrArg some (Function.update_noteq (fun h => hi (congrArg Fin.val h)) _ _)
      · rw [dif_neg hlt, dif_neg hlt]
  · intro hp hd
    unfold Engine.decrementTimers
    rw [if_pos (by simp [hp, hd])]


/-- Instance of C20: the delay timer goes from 3 to 2 and the sound timer stays
    at 0. -/
theorem C20_decrementTimers_witness :
    timerEngine.getCurrentCpuState = some timerState ∧
    ∃ e', timerEngine.decrementTimers = some e' ∧
      e'.getCurrentCpuState = some { timerState with dt := 2, st := 0 } := by
  obtain ⟨e', h1, h2, _⟩ := (C20_decrementTimers timerEngine timerState rfl).1 rfl
  exact ⟨rfl, e', h1, h2⟩

/-! ## Memory transfers -/

theorem readByte_writeByte (m : Memory) (addr : Nat) (d : Nat) (a : Nat) :
    (m.writeByte (addr : Int) d).readByte a =
      if a = addr ∧ addr < 4096 then d else m.readByte a := by
  unfold Memory.writeByte Memory.readByte maxBufferSize
  by_cases h : addr < 4096
  · have h1 : ¬ ((addr : Int) < 0 ∨ (addr : Int) ≥ ((4096 : Nat) : Int)) := by omega
    rw [dif_neg h1]
    by_cases ha : a ≥ 4096
    · rw [dif_pos ha, dif_pos ha, if_neg (by omega)]
    · rw [dif_neg ha, dif_neg ha]
      by_cases haa : a = addr
      · rw [if_pos ⟨haa, h⟩]
        subst haa
        simp
      · rw [if_neg (by tauto)]
        simp only
        rw [Function.update_noteq]
        intro heq
        have := congrArg Fin.val heq
        simp only [Int.toNat_ofNat] at this
        exact haa this
  · have h1 : ((addr : Int) < 0 ∨ (addr : Int) ≥ ((4096 : Nat) : Int)) := by omega
    rw [dif_pos h1, if_neg (by tauto)]

theorem originalBuffer_writeByte (m : Memory) (addr : Int) (d : Nat) :
    (m.writeByte addr d).originalBuffer = m.originalBuffer := by
  unfold Memory.writeByte
  split_ifs <;> rfl

/-- **C18** (`LD B, Vx`). For every value `Vx` in 0..255 and every `ir` with
    `ir + 2 < 4096`, the instruction reports an update and leaves in memory at
    `ir`, `ir + 1`, `ir + 2` digits `h ≤ 2`, `t ≤ 9`, `o ≤ 9` with
    `100 * h + 10 * t + o = Vx`; every other memory byte, all registers, `ir` and
    every other field of the state are unchanged, and `pc` advances by 2 (the
    16-bit `pc` is assumed not to be within 2 of its maximum). -/
theorem C18_LD_B_Vx (s : CpuState) (mem : Memory) (x : Fin 16) (hv : s.v x < 256)
    (hir : s.ir + 2 < 4096) (hpc : s.pc + 2 < 65536) :
    (s.LD_B_Vx mem x).1 = true ∧
    (s.LD_B_Vx mem x).2.1 = { s with pc := s.pc + 2 } ∧
    (s.LD_B_Vx mem x).2.2.readByte s.ir ≤ 2 ∧
    (s.LD_B_Vx mem x).2.2.readByte (s.ir + 1) ≤ 9 ∧
    (s.LD_B_Vx mem x).2.2.readByte (s.ir + 2) ≤ 9 ∧
    100 * (s.LD_B_Vx mem x).2.2.readByte s.ir + 10 * (s.LD_B_Vx mem x).2.2.readByte (s.ir + 1) +
      (s.LD_B_Vx mem x).2.2.readByte (s.ir + 2) = s.v x ∧
    (∀ a : Nat, a ≠ s.ir → a ≠ s.ir + 1 → a ≠ s.ir + 2 →
      (s.LD_B_Vx mem x).2.2.readByte a = mem.readByte a) ∧
    (s.LD_B_Vx mem x).2.2.originalBuffer = mem.originalBuffer := by
  have hm : s.LD_B_Vx mem x =
      (true, { s with pc := s.pc + 2 },
        ((mem.writeByte ((s.ir : Nat) : Int) (s.v x / 100)).writeByte ((s.ir + 1 : Nat) : Int)
          (s.v x / 10 % 10)).writeByte ((s.ir + 2 : Nat) : Int) (s.v x % 10)) := by
    simp only [CpuState.LD_B_Vx, getRegister_fin]
    have e1 : s.v x / 100 % 10 % 256 = s.v x / 100 := by omega
    have e2 : s.v x / 10 % 10 % 256 = s.v x / 10 % 10 := by omega
    have e3 : s.v x % 10 % 256 = s.v x % 10 := by omega
    have e4 : (s.pc + 2) % 65536 = s.pc + 2 := Nat.mod_eq_of_lt hpc
    rw [e1, e2, e3, e4]
    push_cast
    rfl
  rw [hm]
  simp only [readByte_writeByte, originalBuffer_writeByte]
  have h0 : s.ir < 4096 := by omega
  have h1 : s.ir + 1 < 4096 := by omega
  have n01 : ¬ s.ir = s.ir + 1 := by omega
  have n02 : ¬ s.ir = s.ir + 2 := by omega
  have n12 : ¬ s.ir + 1 = s.ir + 2 := by omega
  simp only [true_and, h0, h1, hir, n01, n02, n12, false_and, if_true, if_false, and_true]
  refine ⟨?_, ?_, ?_, ?_, ?_⟩
  · omega
  · omega
  · omega
  · omega
  · intro a h0 h1 h2
    rw [if_neg h2, if_neg h1, if_neg h0]

/-- Instance of C18: `v[2] = 37` is written as the digits 0, 3, 7 at `ir = 0`. -/
theorem C18_LD_B_Vx_witness :
    (exampleState.v 2 < 256 ∧ exampleState.ir + 2 < 4096) ∧
    (exampleState.LD_B_Vx exampleMemory 2).2.2.readByte 0 = 0 ∧
    (exampleState.LD_B_Vx exampleMemory 2).2.2.readByte 1 = 3 ∧
    (exampleState.LD_B_Vx exampleMemory 2).2.2.readByte 2 = 7 ∧
    100 * (exampleState.LD_B_Vx exampleMemory 2).2.2.readByte exampleState.ir +
      10 * (exampleState.LD_B_Vx exampleMemory 2).2.2.readByte (exampleState.ir + 1) +
      (exampleState.LD_B_Vx exampleMemory 2).2.2.readByte (exampleState.ir + 2) = 37 :=
  ⟨⟨by decide, by decide⟩, by decide, by decide, by decide,
    (C18_LD_B_Vx exampleState exampleMemory 2 (by decide) (by decide) (by decide)).2.2.2.2.2.1⟩


/-- The loop of `LD [I], Vx` over the registers `0..n-1`: it ends, the bytes at
    `ir + i` hold `v[i]` and the other bytes are unchanged. -/
theorem LD_IAddr_Vx_loop (s : CpuState) (mem : Memory) (n : Nat) (hn : n ≤ 16) :
    ∃ mem', (List.range n).foldlM
        (fun (mem : Memory) i => do
          let vx ← s.getRegister i
          pure (mem.writeByte ((s.ir : Int) + (i : Int)) (s.v vx)))
        mem = some mem' ∧
      (∀ i : Fin 16, i.val < n → s.ir + i.val < 4096 → mem'.readByte (s.ir + i.val) = s.v i) ∧
      (∀ a : Nat, (a < s.ir ∨ s.ir + n ≤ a) → mem'.readByte a = mem.readByte a) ∧
      mem'.originalBuffer = mem.originalBuffer := by
  induction n with
  | zero =>
    refine ⟨mem, rfl, ?_, fun _ _ => rfl, rfl⟩
    intro i hi
    omega
  | succ n ih =>
    obtain ⟨m1, h1, h2, h3, h4⟩ := ih (by omega)
    have hreg : s.getRegister n = some ⟨n, by omega⟩ := getRegister_lt s n (by omega)
    have hcast : (s.ir : Int) + (n : Int) = ((s.ir + n : Nat) : Int) := by push_cast; rfl
    refine ⟨m1.writeByte ((s.ir + n : Nat) : Int) (s.v ⟨n, by omega⟩), ?_, ?_, ?_, ?_⟩
    · rw [List.range_succ, List.foldlM_append, h1]
      simp only [Option.bind_eq_bind, Option.some_bind, List.foldlM_cons, hreg, Option.pure_def,
        List.foldlM_nil, hcast]
    · intro i hi hlt
      rw [readByte_writeByte]
      by_cases hin : i.val = n
      · rw [if_pos ⟨by omega, by omega⟩]
        congr 1
        exact (Fin.ext hin).symm
      · rw [if_neg (by omega)]
        exact h2 i (by omega) hlt
    · intro a ha
      rw [readByte_writeByte, if_neg (by omega)]
      exact h3 a (by omega)
    · rw [originalBuffer_writeByte]
      exact h4

/-- **C16** (`LD [I], Vx`). For every state, memory and `x` in 0..15 the
    instruction ends and reports an update; afterwards `memory[ir + i] = v[i]` for
    every `i` in `0..x` with `ir + i < 4096`, every other memory byte is unchanged,
    all registers are unchanged, `ir' = (ir + x + 1) mod 65536` if the quirk
    `memoryIncrementI` is on and `ir' = ir` otherwise, no other field of the state
    changes, and `pc` advances by 2 (the 16-bit `pc` is assumed not to be within 2
    of its maximum). -/
theorem C16_LD_IAddr_Vx (s : CpuState) (q : Quirks) (mem : Memory) (x : Fin 16)
    (hpc : s.pc + 2 < 65536) :
    ∃ mem', s.LD_IAddr_Vx q mem x =
        some (true,
          { s with ir := if q.memoryIncrementI then (s.ir + x.val + 1) % 65536 else s.ir,
                   pc := s.pc + 2 },
          mem') ∧
      (∀ i : Fin 16, i ≤ x → s.ir + i.val < 4096 → mem'.readByte (s.ir + i.val) = s.v i) ∧
      (∀ a : Nat, (a < s.ir ∨ s.ir + x.val < a) → mem'.readByte a = mem.readByte a) ∧
      mem'.originalBuffer = mem.originalBuffer := by
  obtain ⟨mem', h1, h2, h3, h4⟩ := LD_IAddr_Vx_loop s mem (x.val + 1) (by omega)
  refine ⟨mem', ?_, ?_, ?_, h4⟩
  · unfold CpuState.LD_IAddr_Vx
    rw [h1]
    simp only [Option.bind_eq_bind, Option.some_bind, Option.pure_def]
    cases q.memoryIncrementI
    · simp [Nat.mod_eq_of_lt hpc]
    · simp [Nat.mod_eq_of_lt hpc, Nat.add_assoc]
  · intro i hi hlt
    exact h2 i (by have : i.val ≤ x.val := hi; omega) hlt
  · intro a ha
    exact h3 a (by omega)

/-- Instance of C16: `LD [I], V2` with `ir = 0` stores 3, 20, 37 at the addresses
    0, 1, 2 and keeps the byte at address 3. -/
theorem C16_LD_IAddr_Vx_witness :
    exampleState.pc + 2 < 65536 ∧
    ∃ mem', exampleState.LD_IAddr_Vx noQuirks exampleMemory 2 =
        some (true, { exampleState with pc := 0x202 }, mem') ∧
      mem'.readByte 0 = 3 ∧ mem'.readByte 1 = 20 ∧ mem'.readByte 2 = 37 ∧
      mem'.readByte 3 = 0x90 := by
  obtain ⟨mem', h1, h2, h3, _⟩ :=
    C16_LD_IAddr_Vx exampleState noQuirks exampleMemory 2 (by decide)
  exact ⟨by decide, mem', h1, h2 0 (by decide) (by decide), h2 1 (by decide) (by decide),
    h2 2 (by decide) (by decide), h3 3 (Or.inr (by decide))⟩

/-- The loop of `LD Vx, [I]` over the registers `0..n-1`: it ends, the registers
    below `n` hold the bytes read at `(ir + i) mod 65536` and nothing else
    changes. -/
theorem LD_Vx_IAddr_loop (s : CpuState) (mem : Memory) (n : Nat) (hn : n ≤ 16) :
    (List.range n).foldlM
        (fun (s : CpuState) i => do
          let vx ← s.getRegister i
          pure { s with v := Function.update s.v vx (mem.readByte ((s.ir + i) % 65536)) })
        s =
      some { s with v := fun i => if i.val < n then mem.readByte ((s.ir + i.val) % 65536)
                                  else s.v i } := by
  induction n with
  | zero =>
    simp only [List.range_zero, List.foldlM_nil, Option.pure_def, Nat.not_lt_zero, if_false]
  | succ n ih =>
    rw [List.range_succ, List.foldlM_append, ih (by omega)]
    simp only [Option.bind_eq_bind, Option.some_bind, List.foldlM_cons,
      getRegister_lt _ n (show n < 16 by omega), Option.pure_def, List.foldlM_nil]
    congr 2
    funext i
    by_cases hin : i.val = n
    · have hi : i = ⟨n, by omega⟩ := Fin.ext hin
      rw [hi, Function.update_same, if_pos (by simp)]
    · rw [Function.update_noteq (fun h => hin (congrArg Fin.val h))]
      by_cases hlt : i.val < n
      · rw [if_pos hlt, if_pos (by omega)]
      · rw [if_neg hlt, if_neg (by omega)]

theorem LD_Vx_IAddr_eq (s : CpuState) (q : Quirks) (mem : Memory) (x : Fin 16)
    (hir : s.ir + x.val < 4096) (hpc : s.pc + 2 < 65536) :
    s.LD_Vx_IAddr q mem x =
      some (true,
        { s with v := fun i => if i ≤ x then mem.readByte (s.ir + i.val) else s.v i,
                 ir := if q.memoryIncrementI then (s.ir + x.val + 1) % 65536 else s.ir,
                 pc := s.pc + 2 }) := by
  unfold CpuState.LD_Vx_IAddr
  rw [LD_Vx_IAddr_loop s mem (x.val + 1) (by omega)]
  have hv : (fun i : Fin 16 => if i.val < x.val + 1 then mem.readByte ((s.ir + i.val) % 65536)
      else s.v i) = fun i => if i ≤ x then mem.readByte (s.ir + i.val) else s.v i := by
    funext i
    by_cases hi : i ≤ x
    · have hi2 : i.val ≤ x.val := hi
      rw [if_pos hi, if_pos (by omega), Nat.mod_eq_of_lt (by omega)]
    · have hi2 : ¬ i.val ≤ x.val := hi
      rw [if_neg hi, if_neg (by omega)]
  rw [hv]
  simp only [Option.bind_eq_bind, Option.some_bind, Option.pure_def]
  cases q.memoryIncrementI
  · simp [Nat.mod_eq_of_lt hpc]
  · simp [Nat.mod_eq_of_lt hpc, Nat.add_assoc]

theorem decode_Fx65 (x : Nat) (hx : x < 16) :
    decode (0xF065 + 0x100 * x) = Opcode.LD_Vx_IAddr ∧ getOpcodeX (0xF065 + 0x100 * x) = x := by
  interval_cases x <;> decide

/-- **C17** (`LD Vx, [I]`). For every state, memory and `x` in 0..15 with
    `ir + x < 4096` the instruction ends and reports an update; afterwards
    `v[i] = memory[ir + i]` for every `i` in `0..x`, the registers `v[x+1..15]` are
    unchanged, `ir' = (ir + x + 1) mod 65536` if the quirk `memoryIncrementI` is on
    and `ir' = ir` otherwise, no other field of the state changes, and `pc`
    advances by 2 (the 16-bit `pc` is assumed not to be within 2 of its maximum).
    The memory is only read: the method has no access to it but `readByte`, and
    the second part states that the word `Fx65`, dispatched by `processOpcode`,
    returns the memory and the keyboard variables as they were. -/
theorem C17_LD_Vx_IAddr (s : CpuState) (q : Quirks) (mem : Memory) (x : Fin 16)
    (hir : s.ir + x.val < 4096) (hpc : s.pc + 2 < 65536) :
    s.LD_Vx_IAddr q mem x =
      some (true,
        { s with v := fun i => if i ≤ x then mem.readByte (s.ir + i.val) else s.v i,
                 ir := if q.memoryIncrementI then (s.ir + x.val + 1) % 65536 else s.ir,
                 pc := s.pc + 2 }) ∧
    ∀ (inp : Input) (g : Shared), g.mem = mem →
      s.processOpcode q inp g (0xF065 + 0x100 * x.val) =
        some (true,
          { s with v := fun i => if i ≤ x then mem.readByte (s.ir + i.val) else s.v i,
                   ir := if q.memoryIncrementI then (s.ir + x.val + 1) % 65536 else s.ir,
                   pc := s.pc + 2 },
          g) := by
  have h1 := LD_Vx_IAddr_eq s q mem x hir hpc
  refine ⟨h1, ?_⟩
  intro inp g hg
  obtain ⟨d1, d2⟩ := decode_Fx65 x.val x.isLt
  unfold CpuState.processOpcode
  simp only [d1, d2, hg, h1, Option.some_bind]

/-- Instance of C17: `LD V1, [I]` with `ir = 0` and the quirk off loads the bytes
    `0xF0`, `0x90` into `v[0]`, `v[1]` and keeps `v[2] = 37`. -/
theorem C17_LD_Vx_IAddr_witness :
    (exampleState.ir + (1 : Fin 16).val < 4096 ∧ exampleState.pc + 2 < 65536) ∧
    ∃ s', exampleState.LD_Vx_IAddr noQuirks exampleMemory 1 = some (true, s') ∧
      s'.v 0 = 0xF0 ∧ s'.v 1 = 0x90 ∧ s'.v 2 = 37 ∧ s'.ir = 0 ∧ s'.pc = 0x202 :=
  ⟨⟨by decide, by decide⟩, _,
    (C17_LD_Vx_IAddr exampleState noQuirks exampleMemory 1 (by decide) (by decide)).1,
    by decide, by decide, by decide, rfl, rfl⟩

/-! ## The history as a ring -/

/-- One step back never touches the stored states, the head cursor, the cycle
    counter, the pause switches or the shared variables, and `current` stays an
    index of the ring. -/
theorem backOneClockCylce_frame (e : Engine) :
    e.backOneClockCylce.cpuStates = e.cpuStates ∧
    e.backOneClockCylce.headCpuStateIndex = e.headCpuStateIndex ∧
    e.backOneClockCylce.totalCpuCycles = e.totalCpuCycles ∧
    e.backOneClockCylce.paused = e.paused ∧
    e.backOneClockCylce.doAdvanceOneClockCycle = e.doAdvanceOneClockCycle ∧
    e.backOneClockCylce.toShared = e.toShared ∧
    (e.currentCpuStateIndex < 1000 → e.backOneClockCylce.currentCpuStateIndex < 1000) := by
  unfold Engine.backOneClockCylce maxCpuStates
  dsimp only
  split_ifs <;> refine ⟨rfl, rfl, rfl, rfl, rfl, rfl, ?_⟩ <;> intro h <;> (try dsimp only) <;> omega

theorem back_iterate_frame (n : Nat) (e : Engine) :
    (Engine.backOneClockCylce^[n] e).cpuStates = e.cpuStates ∧
    (Engine.backOneClockCylce^[n] e).headCpuStateIndex = e.headCpuStateIndex ∧
    (Engine.backOneClockCylce^[n] e).totalCpuCycles = e.totalCpuCycles ∧
    (Engine.backOneClockCylce^[n] e).paused = e.paused ∧
    (Engine.backOneClockCylce^[n] e).doAdvanceOneClockCycle = e.doAdvanceOneClockCycle ∧
    (Engine.backOneClockCylce^[n] e).toShared = e.toShared ∧
    (e.currentCpuStateIndex < 1000 →
      (Engine.backOneClockCylce^[n] e).currentCpuStateIndex < 1000) := by
  induction n with
  | zero => exact ⟨rfl, rfl, rfl, rfl, rfl, rfl, id⟩
  | succ n ih =>
    obtain ⟨h1, h2, h3, h4, h5, h6, h7⟩ := ih
    rw [Function.iterate_succ_apply']
    obtain ⟨k1, k2, k3, k4, k5, k6, k7⟩ :=
      backOneClockCylce_frame (Engine.backOneClockCylce^[n] e)
    exact ⟨by rw [k1, h1], by rw [k2, h2], by rw [k3, h3], by rw [k4, h4], by rw [k5, h5],
      by rw [k6, h6], fun h => k7 (h7 h)⟩

/-- One step back in a ring that has wrapped (`totalCycles ≥ 1000`): unless
    `current` is `head + 1`, it moves one slot down, from slot 0 to slot 999. -/
theorem backOneClockCylce_wrapped (e : Engine) (hp : e.paused = true)
    (ht : 1000 ≤ e.totalCpuCycles) (hc : e.currentCpuStateIndex < 1000)
    (hne : e.currentCpuStateIndex ≠ e.headCpuStateIndex + 1) :
    e.backOneClockCylce.currentCpuStateIndex = (e.currentCpuStateIndex + 999) % 1000 := by
  have h3 : ¬ e.totalCpuCycles < 1000 := by omega
  unfold Engine.backOneClockCylce maxCpuStates
  simp only [hp, Bool.not_true, Bool.false_eq_true, if_false, ne_eq, hne, not_false_eq_true,
    if_true, h3, false_and]
  split_ifs <;> omega

/-- Steps back in a ring that has wrapped, from the head: `j ≤ 999` steps lead to
    the slot `j` places before the head, as long as the head is not slot 999. -/
theorem back_iterate_wrapped (e : Engine) (hp : e.paused = true)
    (ht : 1000 ≤ e.totalCpuCycles) (hlive : e.currentCpuStateIndex = e.headCpuStateIndex)
    (hh : e.headCpuStateIndex < 999) (j : Nat) (hj : j ≤ 999) :
    (Engine.backOneClockCylce^[j] e).currentCpuStateIndex =
      (e.headCpuStateIndex + 1000 - j) % 1000 := by
  induction j with
  | zero =>
    show e.currentCpuStateIndex = _
    rw [hlive]
    omega
  | succ j ih =>
    have h1 := ih (by omega)
    obtain ⟨_, k2, k3, k4, _, _, _⟩ := back_iterate_frame j e
    rw [Function.iterate_succ_apply',
      backOneClockCylce_wrapped _ (by rw [k4, hp]) (by rw [k3]; exact ht) (by rw [h1]; omega)
        (by rw [h1, k2]; omega), h1]
    omega

/-- The ring after `i` committing cycles from a fresh engine: both cursors are at
    `i mod 1000`, the pause switch is as at the start, and the slot of each of the
    last 1000 cycles still holds the state that cycle produced. -/
theorem forward_ring_invariant (q : Quirks) (M : Nat) (es : Nat → Engine) (ins : Nat → Input)
    (hfresh : (es 0).headCpuStateIndex = 0 ∧ (es 0).currentCpuStateIndex = 0)
    (hcommit : ∀ i, i < M → Engine.Commits q (ins i) (es i) (es (i + 1))) :
    ∀ i, i ≤ M →
      (es i).headCpuStateIndex = i % 1000 ∧ (es i).currentCpuStateIndex = i % 1000 ∧
      (es i).paused = (es 0).paused ∧
      ((es 0).totalCpuCycles = 0 → (es i).totalCpuCycles = i % 2 ^ 64) ∧
      ∀ m, m ≤ i → i < m + 1000 →
        (es i).cpuStateAt (m % 1000) = (es m).cpuStateAt (m % 1000) := by
  intro i
  induction i with
  | zero =>
    intro _
    refine ⟨hfresh.1, hfresh.2, rfl, ?_, ?_⟩
    · intro h0
      rw [h0]
      rfl
    · intro m hm _
      have : m = 0 := by omega
      rw [this]
  | succ i ih =>
    intro hi
    obtain ⟨h1, h2, h3, ht, h5⟩ := ih (by omega)
    obtain ⟨hex, hne⟩ := hcommit i (by omega)
    obtain ⟨_, _, hh, _, s', g', _, _, k2, _, k4, k5, k6, k7⟩ :=
      executeClockCycle_head_moved (es i) (es (i + 1)) q (ins i) hex hne
    have hmod : ((es i).headCpuStateIndex + 1) % 1000 = (i + 1) % 1000 := by
      rw [h1]; omega
    refine ⟨by rw [k6, hmod], by rw [k7, k6, hmod], by rw [k2, h3], ?_, ?_⟩
    · intro h0
      rw [k4, ht h0]
      omega
    · intro m hm hlt
      by_cases hmi : m = i + 1
      · rw [hmi]
      · have hlt2 : m % 1000 < 1000 := Nat.mod_lt _ (by norm_num)
        rw [← h5 m (by omega) (by omega), cpuStateAt_lt _ _ hlt2, cpuStateAt_lt _ _ hlt2, k5,
          Function.update_noteq]
        intro heq
        have := congrArg Fin.val heq
        simp only at this
        rw [h1] at this
        omega

/-- **C12** (eviction bound). Take a running engine with `head = current = 0` (as
    after `reset`) and `M > 1000` calls of `executeClockCycle` that each commit a
    state, `es i` being the engine after `i` of them. Pause after the `M` cycles.
    Then after any number `n` of calls of `backOneClockCylce` the engine is still
    paused and the current machine state is the one that was current after
    forward cycle `M - j`, for some `j` with `0 ≤ j ≤ 999`, `current` being the
    slot `(M - j) mod 1000` of that cycle. -/
theorem C12_eviction_bound (q : Quirks) (M : Nat) (hM : 1000 < M) (es : Nat → Engine)
    (ins : Nat → Input)
    (hfresh : (es 0).headCpuStateIndex = 0 ∧ (es 0).currentCpuStateIndex = 0)
    (hrun : (es 0).paused = false)
    (hcommit : ∀ i, i < M → Engine.Commits q (ins i) (es i) (es (i + 1)))
    (n : Nat) :
    (Engine.backOneClockCylce^[n] (es M).togglePaused).paused = true ∧
    ∃ j, j ≤ 999 ∧
      (Engine.backOneClockCylce^[n] (es M).togglePaused).currentCpuStateIndex =
        (M - j) % 1000 ∧
      ∃ s, (es (M - j)).getCurrentCpuState = some s ∧
        (Engine.backOneClockCylce^[n] (es M).togglePaused).getCurrentCpuState = some s := by
  have hinv := forward_ring_invariant q M es ins hfresh hcommit
  obtain ⟨_, a2, a3, _, a5⟩ := hinv M (le_refl M)
  obtain ⟨c1, _, _, c4, _, _, c7⟩ := back_iterate_frame n (es M).togglePaused
  have hp : (es M).togglePaused.paused = true := by
    show (!(es M).paused) = true
    rw [a3, hrun]
    rfl
  rw [hp] at c4
  refine ⟨c4, ?_⟩
  have hc : (Engine.backOneClockCylce^[n] (es M).togglePaused).currentCpuStateIndex < 1000 :=
    c7 (by
      show (es M).currentCpuStateIndex < 1000
      rw [a2]
      exact Nat.mod_lt _ (by norm_num))
  generalize (Engine.backOneClockCylce^[n] (es M).togglePaused) = eb at c1 hc
  obtain ⟨j, hj9, hj⟩ : ∃ j, j ≤ 999 ∧ (M - j) % 1000 = eb.currentCpuStateIndex :=
    ⟨(M % 1000 + 1000 - eb.currentCpuStateIndex) % 1000, by omega, by omega⟩
  refine ⟨j, hj9, hj.symm, ?_⟩
  obtain ⟨_, b2, _, _, _⟩ := hinv (M - j) (by omega)
  have hlt : (M - j) % 1000 < 1000 := Nat.mod_lt _ (by norm_num)
  refine ⟨(es (M - j)).cpuStates ⟨(M - j) % 1000, hlt⟩, ?_, ?_⟩
  · unfold Engine.getCurrentCpuState
    rw [b2, cpuStateAt_lt _ _ hlt]
  · unfold Engine.getCurrentCpuState
    rw [← hj, cpuStateAt_lt _ _ hlt, c1]
    have := a5 (M - j) (by omega) (by omega)
    rw [cpuStateAt_lt _ _ hlt, cpuStateAt_lt _ _ hlt] at this
    exact this

/-! ## A program that commits in every cycle -/

theorem runCycles_snoc (q : Quirks) (inputs : List Input) (inp : Input) :
    ∀ e : Engine, e.runCycles q (inputs ++ [inp]) =
      (e.runCycles q inputs).bind (fun e' => e'.executeClockCycle q inp) := by
  induction inputs with
  | nil =>
    intro e
    simp only [List.nil_append, Engine.runCycles, Option.some_bind]
    cases e.executeClockCycle q inp <;> rfl
  | cons a rest ih =>
    intro e
    simp only [List.cons_append, Engine.runCycles]
    cases e.executeClockCycle q a with
    | none => rfl
    | some e1 => exact ih e1

theorem processOpcode_6005 (s : CpuState) (q : Quirks) (inp : Input) (g : Shared) :
    s.processOpcode q inp g 0x6005 =
      some (true, { s with v := Function.update s.v 0 5, pc := (s.pc + 2) % 65536 }, g) := rfl

theorem processOpcode_1200 (s : CpuState) (q : Quirks) (inp : Input) (g : Shared) :
    s.processOpcode q inp g 0x1200 =
      some (if s.pc = 0x200 then (false, s, g) else (true, { s with pc := 0x200 }, g)) := by
  show (fun r : Bool × CpuState => some (r.1, r.2, g)) (s.JP_Addr 0x200) = _
  unfold CpuState.JP_Addr
  split_ifs <;> rfl

/-- One cycle of `loadAndJump`: from `pc = 0x200` the cycle commits a state with
    `v[0] = 5` and `pc = 0x202`, from `pc = 0x202` one with `pc = 0x200` and the
    same registers. -/
theorem loadAndJump_cycle (e : Engine) (hp : e.paused = false)
    (hg : e.toShared = (freshEngine loadAndJump).toShared)
    (hlive : e.currentCpuStateIndex = e.headCpuStateIndex) (hh : e.headCpuStateIndex < 1000)
    (hpc : (e.cpuStates ⟨e.headCpuStateIndex, hh⟩).pc = 0x200 ∨
      (e.cpuStates ⟨e.headCpuStateIndex, hh⟩).pc = 0x202) :
    ∃ e', e.executeClockCycle noQuirks noInput = some e' ∧
      e'.paused = false ∧ e'.toShared = (freshEngine loadAndJump).toShared ∧
      e'.currentCpuStateIndex = e'.headCpuStateIndex ∧
      e'.headCpuStateIndex = (e.headCpuStateIndex + 1) % 1000 ∧
      e'.headCpuStateIndex ≠ e.headCpuStateIndex ∧
      ∃ hh' : e'.headCpuStateIndex < 1000,
        ((e.cpuStates ⟨e.headCpuStateIndex, hh⟩).pc = 0x200 →
          (e'.cpuStates ⟨e'.headCpuStateIndex, hh'⟩).pc = 0x202 ∧
          (e'.cpuStates ⟨e'.headCpuStateIndex, hh'⟩).v 0 = 5) ∧
        ((e.cpuStates ⟨e.headCpuStateIndex, hh⟩).pc = 0x202 →
          (e'.cpuStates ⟨e'.headCpuStateIndex, hh'⟩).pc = 0x200 ∧
          (e'.cpuStates ⟨e'.headCpuStateIndex, hh'⟩).v = (e.cpuStates ⟨e.headCpuStateIndex, hh⟩).v) := by
  have hf : (e.paused && !e.doAdvanceOneClockCycle) = false := by simp [hp]
  have hmem : e.mem = (freshEngine loadAndJump).mem := by
    show e.toShared.mem = _
    rw [hg]
  have hmod : (e.headCpuStateIndex + 1) % 1000 < 1000 := Nat.mod_lt _ (by norm_num)
  have hne : (e.headCpuStateIndex + 1) % 1000 ≠ e.headCpuStateIndex := by omega
  rcases hpc with h | h
  · have hw : e.mem.readWord (e.cpuStates ⟨e.headCpuStateIndex, hh⟩).pc = 0x6005 := by
      rw [h, hmem]; rfl
    obtain ⟨e', h1, h2, h3, _, _, h6, h7, h8⟩ :=
      executeClockCycle_live e noQuirks noInput hf hlive hh (by rw [hw]; decide) true _ _
        (by rw [hw]; exact processOpcode_6005 _ _ _ _)
    rw [if_pos rfl] at h7
    refine ⟨e', h1, by rw [h3, hp], by rw [h2, hg], h8, h7, by rw [h7]; exact hne,
      by rw [h7]; exact hmod, ?_, ?_⟩
    · intro _
      simp only [h6, h7, Function.update_same, h]
      exact ⟨trivial, trivial⟩
    · intro h'
      rw [h] at h'
      cases h'
  · have hw : e.mem.readWord (e.cpuStates ⟨e.headCpuStateIndex, hh⟩).pc = 0x1200 := by
      rw [h, hmem]; rfl
    obtain ⟨e', h1, h2, h3, _, _, h6, h7, h8⟩ :=
      executeClockCycle_live e noQuirks noInput hf hlive hh (by rw [hw]; decide) true _ _
        (by rw [hw, processOpcode_1200, if_neg (by rw [h]; decide)])
    rw [if_pos rfl] at h7
    refine ⟨e', h1, by rw [h3, hp], by rw [h2, hg], h8, h7, by rw [h7]; exact hne,
      by rw [h7]; exact hmod, ?_, ?_⟩
    · intro h'
      rw [h] at h'
      cases h'
    · intro _
      simp only [h6, h7, Function.update_same]
      exact ⟨trivial, trivial⟩

/-- The run of `loadAndJump`: each cycle commits, the engine keeps running, and
    the state under the head has `pc = 0x200 + 2 * (i mod 2)` and, from the first
    cycle on, `v[0] = 5`. -/
theorem loadAndJump_run (i : Nat) :
    (freshEngine loadAndJump).runCycles noQuirks (List.replicate i noInput) =
      some (loadAndJumpTrace i) ∧
    (loadAndJumpTrace i).paused = false ∧
    (loadAndJumpTrace i).toShared = (freshEngine loadAndJump).toShared ∧
    (loadAndJumpTrace i).currentCpuStateIndex = (loadAndJumpTrace i).headCpuStateIndex ∧
    ∃ hh : (loadAndJumpTrace i).headCpuStateIndex < 1000,
      ((loadAndJumpTrace i).cpuStates ⟨(loadAndJumpTrace i).headCpuStateIndex, hh⟩).pc =
        0x200 + 2 * (i % 2) ∧
      (1 ≤ i →
        ((loadAndJumpTrace i).cpuStates ⟨(loadAndJumpTrace i).headCpuStateIndex, hh⟩).v 0 = 5) := by
  induction i with
  | zero =>
    have hh0 : (loadAndJumpTrace 0).headCpuStateIndex < 1000 := by decide
    refine ⟨rfl, rfl, rfl, rfl, hh0, rfl, ?_⟩
    intro h
    omega
  | succ i ih =>
    obtain ⟨h1, h2, h3, h4, hh, h5, h6⟩ := ih
    obtain ⟨e', k1, k2, k3, k4, _, _, hh', k7, k8⟩ :=
      loadAndJump_cycle (loadAndJumpTrace i) h2 h3 h4 hh (by omega)
    have hrun : (freshEngine loadAndJump).runCycles noQuirks (List.replicate (i + 1) noInput) =
        some e' := by
      rw [List.replicate_succ', runCycles_snoc, h1]
      exact k1
    have htr : loadAndJumpTrace (i + 1) = e' := by
      unfold loadAndJumpTrace
      rw [hrun]
      rfl
    rw [htr]
    refine ⟨hrun, k2, k3, k4, hh', ?_, ?_⟩
    · rcases Nat.mod_two_eq_zero_or_one i with h | h
      · rw [(k7 (by rw [h5, h])).1]
        omega
      · rw [(k8 (by rw [h5, h])).1]
        omega
    · intro _
      rcases Nat.mod_two_eq_zero_or_one i with h | h
      · exact (k7 (by rw [h5, h])).2
      · rw [(k8 (by rw [h5, h])).2]
        exact h6 (by omega)

theorem loadAndJump_commits (i : Nat) :
    Engine.Commits noQuirks noInput (loadAndJumpTrace i) (loadAndJumpTrace (i + 1)) := by
  obtain ⟨h1, h2, h3, h4, hh, h5, _⟩ := loadAndJump_run i
  obtain ⟨e', k1, _, _, _, _, k6, _⟩ :=
    loadAndJump_cycle (loadAndJumpTrace i) h2 h3 h4 hh (by omega)
  have htr : loadAndJumpTrace (i + 1) = e' := by
    have hrun := (loadAndJump_run (i + 1)).1
    rw [List.replicate_succ', runCycles_snoc, h1] at hrun
    exact Option.some.inj (hrun.symm.trans k1)
  rw [htr]
  exact ⟨k1, k6⟩

/-- Instance of C12: 1001 cycles of `loadAndJump` and three steps back. -/
theorem C12_eviction_bound_witness :
    ((1000 : Nat) < 1001 ∧ (loadAndJumpTrace 0).paused = false ∧
      ∀ i, i < 1001 →
        Engine.Commits noQuirks noInput (loadAndJumpTrace i) (loadAndJumpTrace (i + 1))) ∧
    ∃ j, j ≤ 999 ∧
      (Engine.backOneClockCylce^[3] (loadAndJumpTrace 1001).togglePaused).currentCpuStateIndex =
        (1001 - j) % 1000 ∧
      ∃ s, (loadAndJumpTrace (1001 - j)).getCurrentCpuState = some s ∧
        (Engine.backOneClockCylce^[3] (loadAndJumpTrace 1001).togglePaused).getCurrentCpuState =
          some s :=
  ⟨⟨by decide, rfl, fun i _ => loadAndJump_commits i⟩,
    (C12_eviction_bound noQuirks 1001 (by decide) loadAndJumpTrace (fun _ => noInput) ⟨rfl, rfl⟩
      rfl (fun i _ => loadAndJump_commits i) 3).2⟩

/-- Stepping back from slot 0 when the head is slot 999: the test
    `current != head + 1` compares 0 with 1000, so `current` becomes 999, whatever
    the cycle counter says. -/
theorem backOneClockCylce_zero_at_999 (e : Engine) (hp : e.paused = true)
    (hh : e.headCpuStateIndex = 999) (hc : e.currentCpuStateIndex = 0) :
    e.backOneClockCylce.currentCpuStateIndex = 999 := by
  unfold Engine.backOneClockCylce maxCpuStates
  simp [hp, hh, hc]

/-- Stepping back at `current = head + 1` in a ring that has wrapped changes
    nothing. (Slot `head + 1` is the oldest retained one when `head < 999`.) -/
theorem backOneClockCylce_refused (e : Engine) (ht : 1000 ≤ e.totalCpuCycles)
    (hc : e.currentCpuStateIndex = e.headCpuStateIndex + 1) : e.backOneClockCylce = e := by
  have h3 : ¬ e.totalCpuCycles < 1000 := by omega
  unfold Engine.backOneClockCylce maxCpuStates
  simp [hc, h3]

/-- The cursors and the counter along the run of `loadAndJump`. -/
theorem loadAndJump_cursors (i : Nat) :
    (loadAndJumpTrace i).headCpuStateIndex = i % 1000 ∧
    (loadAndJumpTrace i).currentCpuStateIndex = i % 1000 ∧
    (loadAndJumpTrace i).totalCpuCycles = i % 2 ^ 64 ∧
    ∀ m, m ≤ i → i < m + 1000 →
      (loadAndJumpTrace i).cpuStateAt (m % 1000) = (loadAndJumpTrace m).cpuStateAt (m % 1000) := by
  obtain ⟨h1, h2, _, h4, h5⟩ :=
    forward_ring_invariant noQuirks i loadAndJumpTrace (fun _ => noInput) ⟨rfl, rfl⟩
      (fun k _ => loadAndJump_commits k) i (le_refl i)
  exact ⟨h1, h2, h4 rfl, h5⟩

theorem togglePaused_fields (e : Engine) :
    e.togglePaused.paused = (!e.paused) ∧
    e.togglePaused.headCpuStateIndex = e.headCpuStateIndex ∧
    e.togglePaused.currentCpuStateIndex = e.currentCpuStateIndex ∧
    e.togglePaused.totalCpuCycles = e.totalCpuCycles ∧
    e.togglePaused.cpuStates = e.cpuStates ∧
    e.togglePaused.toShared = e.toShared :=
  ⟨rfl, rfl, rfl, rfl, rfl, rfl⟩

/-- Rewinding a paused engine whose head is slot 999: 999 steps back lead from
    the head to slot 0, and the next step leads to slot 999 again. -/
theorem rewind_at_head_999 (e : Engine) (hp : e.paused = true)
    (hlive : e.currentCpuStateIndex = e.headCpuStateIndex) (hh : e.headCpuStateIndex = 999) :
    (Engine.backOneClockCylce^[999] e).paused = true ∧
    (Engine.backOneClockCylce^[999] e).currentCpuStateIndex = 0 ∧
    (Engine.backOneClockCylce^[999] e).cpuStates = e.cpuStates ∧
    (Engine.backOneClockCylce^[1000] e).currentCpuStateIndex = 999 ∧
    (Engine.backOneClockCylce^[1000] e).cpuStates = e.cpuStates := by
  obtain ⟨c1, c2, _, c4, c5, _⟩ := back_iterate e hp hlive 999 (by omega)
  rw [hh] at c1 c2
  obtain ⟨d1, _⟩ := back_iterate_frame 1000 e
  refine ⟨c5, c1, c4, ?_, d1⟩
  rw [show (1000 : Nat) = 999 + 1 from rfl, Function.iterate_succ_apply']
  exact backOneClockCylce_zero_at_999 _ c5 c2 c1

/-- **C13** (rewind saturates at the oldest retained state) fails when the head is
    slot 999. Run `loadAndJump` for 1999 cycles, each of which commits a state:
    the ring has wrapped, `head = 999`, `totalCycles = 1999`, and the oldest
    retained state (that of cycle 1000) is in slot 0. After pausing, 999 steps back
    lead to slot 0; one more step is not refused but moves `current` to slot 999,
    the newest state. The test `current != head + 1` of `backOneClockCylce`
    compares with 1000 there. For every head below 999 the step from slot
    `head + 1` is refused, as the last part states. -/
theorem C13_rewind_wraps_at_head_999 :
    (∀ i, i < 1999 →
      Engine.Commits noQuirks noInput (loadAndJumpTrace i) (loadAndJumpTrace (i + 1))) ∧
    (loadAndJumpTrace 1999).headCpuStateIndex = 999 ∧
    (loadAndJumpTrace 1999).totalCpuCycles = 1999 ∧
    (Engine.backOneClockCylce^[999] (loadAndJumpTrace 1999).togglePaused).paused = true ∧
    (Engine.backOneClockCylce^[999] (loadAndJumpTrace 1999).togglePaused).currentCpuStateIndex
      = 0 ∧
    (Engine.backOneClockCylce^[999] (loadAndJumpTrace 1999).togglePaused).getCurrentCpuState
      = (loadAndJumpTrace 1000).getCurrentCpuState ∧
    (Engine.backOneClockCylce^[1000] (loadAndJumpTrace 1999).togglePaused).currentCpuStateIndex
      = 999 ∧
    (Engine.backOneClockCylce^[1000] (loadAndJumpTrace 1999).togglePaused).getCurrentCpuState
      = (loadAndJumpTrace 1999).getCurrentCpuState ∧
    (∀ e : Engine, 1000 ≤ e.totalCpuCycles → e.headCpuStateIndex < 999 →
      e.currentCpuStateIndex = (e.headCpuStateIndex + 1) % 1000 → e.backOneClockCylce = e) := by
  refine ⟨fun i _ => loadAndJump_commits i, ?_⟩
  obtain ⟨a1, a2, a3, a4⟩ := loadAndJump_cursors 1999
  obtain ⟨_, b2, _, _⟩ := loadAndJump_cursors 1000
  have a5 := a4 1000 (by norm_num) (by norm_num)
  have a6 := (loadAndJump_run 1999).2.1
  clear a4
  norm_num at a1 a2 a3 a5 b2
  generalize loadAndJumpTrace 1999 = X at *
  generalize loadAndJumpTrace 1000 = Y at *
  obtain ⟨t1, t2, t3, _, t5, _⟩ := togglePaused_fields X
  obtain ⟨r1, r2, r3, r4, r5⟩ :=
    rewind_at_head_999 X.togglePaused (by rw [t1, a6]; rfl) (by rw [t2, t3, a1, a2])
      (by rw [t2, a1])
  refine ⟨a1, a3, r1, r2, ?_, r4, ?_, ?_⟩
  · unfold Engine.getCurrentCpuState
    rw [r2, b2, cpuStateAt_lt _ _ (by norm_num), cpuStateAt_lt _ _ (by norm_num), r3, t5]
    rw [cpuStateAt_lt _ _ (by norm_num), cpuStateAt_lt _ _ (by norm_num)] at a5
    exact a5
  · unfold Engine.getCurrentCpuState
    rw [r4, a2, cpuStateAt_lt _ _ (by norm_num), cpuStateAt_lt _ _ (by norm_num), r5, t5]
  · intro e ht hh hc
    exact backOneClockCylce_refused e ht (by omega)

/-- What `reset` does, for every engine: the cursors and the counter are set to
    0, and the state in slot 0 gets `pc = 0x200` and a dark display and is
    otherwise kept. -/
theorem reset_current (e : Engine) :
    e.reset.headCpuStateIndex = 0 ∧ e.reset.currentCpuStateIndex = 0 ∧
    e.reset.totalCpuCycles = 0 ∧
    e.reset.getCurrentCpuState =
      some { e.cpuStates 0 with pc := 0x200, vgaState := (e.cpuStates 0).vgaState.clear } := by
  refine ⟨rfl, rfl, rfl, ?_⟩
  unfold Engine.getCurrentCpuState Engine.reset
  simp only
  rw [cpuStateAt_lt _ _ (by norm_num)]
  simp only
  exact congrArg some (Function.update_same _ _ _)

/-- After `reset` the registers are those of the old slot 0: here for an engine
    whose head is slot 0 and whose state under the head has `v[0] = 5`. -/
theorem reset_keeps_registers (e : Engine) (hh : e.headCpuStateIndex < 1000)
    (h0 : e.headCpuStateIndex = 0) (hv : (e.cpuStates ⟨e.headCpuStateIndex, hh⟩).v 0 = 5) :
    ∃ s, e.reset.getCurrentCpuState = some s ∧ s.v 0 = 5 := by
  refine ⟨_, (reset_current e).2.2.2, ?_⟩
  have hfin : (⟨e.headCpuStateIndex, hh⟩ : Fin 1000) = 0 := Fin.ext h0
  rw [hfin] at hv
  exact hv

/-- **C19** (reset yields a fresh machine) fails once the ring has wrapped. `reset`
    sets the cursors and the counter to 0 and gives the state in slot 0
    `pc = 0x200` and a dark display, but it keeps the `ir`, `dt`, `st`, `sp`,
    registers and stack of that slot. After 1000 cycles of `loadAndJump`, each of
    which commits a state, slot 0 holds the state of cycle 1000, and after `reset`
    the current state still has `v[0] = 5`. -/
theorem C19_reset_keeps_slot_0 :
    (∀ e : Engine, ∃ s, e.reset.getCurrentCpuState = some s ∧
      s.pc = 0x200 ∧ s.vgaState = (e.cpuStates 0).vgaState.clear ∧
      s.ir = (e.cpuStates 0).ir ∧ s.dt = (e.cpuStates 0).dt ∧ s.st = (e.cpuStates 0).st ∧
      s.sp = (e.cpuStates 0).sp ∧ s.v = (e.cpuStates 0).v ∧
      s.stack = (e.cpuStates 0).stack) ∧
    (∀ i, i < 1000 →
      Engine.Commits noQuirks noInput (loadAndJumpTrace i) (loadAndJumpTrace (i + 1))) ∧
    (loadAndJumpTrace 1000).reset.headCpuStateIndex = 0 ∧
    (loadAndJumpTrace 1000).reset.currentCpuStateIndex = 0 ∧
    (loadAndJumpTrace 1000).reset.totalCpuCycles = 0 ∧
    ∃ s, (loadAndJumpTrace 1000).reset.getCurrentCpuState = some s ∧ s.v 0 = 5 := by
  obtain ⟨_, _, _, _, hh, _, h6⟩ := loadAndJump_run 1000
  have h0 : (loadAndJumpTrace 1000).headCpuStateIndex = 0 :=
    (loadAndJump_cursors 1000).1.trans (by norm_num)
  exact ⟨fun e => ⟨_, (reset_current e).2.2.2, rfl, rfl, rfl, rfl, rfl, rfl, rfl, rfl⟩,
    fun i _ => loadAndJump_commits i, (reset_current _).1, (reset_current _).2.1,
    (reset_current _).2.2.1, reset_keeps_registers _ hh h0 (h6 (by norm_num))⟩

/-! ## Cycles that signal no update -/

/-- A run of Live cycles whose instruction reports no update and changes neither
    the state nor the shared variables: the cursors stay, but each cycle adds one
    to the cycle counter and stores a copy of the current state in slot
    `(head + 1) mod 1000`; the other slots are unchanged. -/
theorem idle_run (q : Quirks) (inputs : List Input) :
    ∀ (e : Engine) (hh : e.headCpuStateIndex < 1000), e.paused = false →
      e.currentCpuStateIndex = e.headCpuStateIndex →
      e.mem.readWord (e.cpuStates ⟨e.headCpuStateIndex, hh⟩).pc ≠ 0 →
      (∀ inp, (e.cpuStates ⟨e.headCpuStateIndex, hh⟩).processOpcode q inp e.toShared
          (e.mem.readWord (e.cpuStates ⟨e.headCpuStateIndex, hh⟩).pc) =
        some (false, e.cpuStates ⟨e.headCpuStateIndex, hh⟩, e.toShared)) →
      ∃ e', e.runCycles q inputs = some e' ∧
        e'.paused = false ∧ e'.toShared = e.toShared ∧
        e'.headCpuStateIndex = e.headCpuStateIndex ∧
        e'.currentCpuStateIndex = e.currentCpuStateIndex ∧
        (e.totalCpuCycles + inputs.length < 2 ^ 64 →
          e'.totalCpuCycles = e.totalCpuCycles + inputs.length) ∧
        (∀ k : Fin 1000, k.val ≠ (e.headCpuStateIndex + 1) % 1000 →
          e'.cpuStates k = e.cpuStates k) ∧
        (inputs ≠ [] →
          e'.cpuStates ⟨(e.headCpuStateIndex + 1) % 1000, Nat.mod_lt _ (by norm_num)⟩ =
            e.cpuStates ⟨e.headCpuStateIndex, hh⟩) := by
  induction inputs with
  | nil =>
    intro e hh _ _ _ _
    exact ⟨e, rfl, by assumption, rfl, rfl, rfl, fun _ => rfl, fun _ _ => rfl,
      fun h => absurd rfl h⟩
  | cons inp rest ih =>
    intro e hh hp hlive hw hop
    have hf : (e.paused && !e.doAdvanceOneClockCycle) = false := by simp [hp]
    obtain ⟨e1, h1, h2, h3, _, h5, h6, h7, h8⟩ :=
      executeClockCycle_live e q inp hf hlive hh hw false _ _ (hop inp)
    have h7' : e1.headCpuStateIndex = e.headCpuStateIndex := by simpa using h7
    have hne : (e.headCpuStateIndex + 1) % 1000 ≠ e.headCpuStateIndex := by omega
    have hslot : ∀ hh1 : e1.headCpuStateIndex < 1000,
        e1.cpuStates ⟨e1.headCpuStateIndex, hh1⟩ = e.cpuStates ⟨e.headCpuStateIndex, hh⟩ := by
      intro hh1
      rw [h6, Function.update_noteq]
      · congr 2
      · intro heq
        have := congrArg Fin.val heq
        simp only at this
        omega
    have hh1 : e1.headCpuStateIndex < 1000 := by rw [h7']; exact hh
    have hmem : e1.mem = e.mem := by
      show e1.toShared.mem = e.toShared.mem
      rw [h2]
    obtain ⟨e', k1, k2, k3, k4, k5, k6, k7, k8⟩ :=
      ih e1 hh1 (by rw [h3, hp]) (by rw [h8])
        (by rw [hslot hh1, hmem]; exact hw)
        (by
          intro inp'
          rw [hslot hh1, hmem, h2]
          exact hop inp')
    refine ⟨e', ?_, k2, by rw [k3, h2], by rw [k4, h7'], by rw [k5, h8, h7', hlive], ?_, ?_, ?_⟩
    · simp only [Engine.runCycles, h1, Option.some_bind, k1]
    · intro hlt
      rw [List.length_cons] at hlt ⊢
      rw [k6 (by rw [h5, Nat.mod_eq_of_lt (by omega)]; omega), h5, Nat.mod_eq_of_lt (by omega)]
      omega
    · intro k hk
      rw [k7 k (by rw [h7']; exact hk), h6, Function.update_noteq]
      intro heq
      exact hk (congrArg Fin.val heq)
    · intro _
      by_cases hr : rest = []
      · subst hr
        have he : e' = e1 := (Option.some.inj k1).symm
        rw [he, h6, Function.update_same]
      · have h9 := k8 hr
        rw [hslot hh1] at h9
        rw [← h9]
        congr 2
        rw [h7']

/-- The run of `selfJump`: no cycle commits, the cursors stay at slot 0, yet every
    cycle adds one to the cycle counter; only slot 1 is written. -/
theorem selfJump_run (n : Nat) :
    ∃ e, (freshEngine selfJump).runCycles noQuirks (List.replicate n noInput) = some e ∧
      e.paused = false ∧ e.headCpuStateIndex = 0 ∧ e.currentCpuStateIndex = 0 ∧
      (n < 2 ^ 64 → e.totalCpuCycles = n) ∧
      ∀ k : Fin 1000, k.val ≠ 1 → e.cpuStates k = (freshEngine selfJump).cpuStates k := by
  have hh : (freshEngine selfJump).headCpuStateIndex < 1000 := by decide
  have hslot : (freshEngine selfJump).cpuStates ⟨(freshEngine selfJump).headCpuStateIndex, hh⟩ =
      (freshEngine selfJump).cpuStates 0 := rfl
  have hw : (freshEngine selfJump).mem.readWord ((freshEngine selfJump).cpuStates 0).pc =
      0x1200 := by decide
  rw [← hslot] at hw
  obtain ⟨e, h1, h2, _, h4, h5, h6, h7, _⟩ :=
    idle_run noQuirks (List.replicate n noInput) (freshEngine selfJump) hh rfl rfl
      (by rw [hw]; decide)
      (by
        intro inp
        rw [hw, processOpcode_1200]
        exact congrArg some (if_pos rfl))
  refine ⟨e, h1, h2, h4, h5, ?_, ?_⟩
  · intro hn
    rw [List.length_replicate] at h6
    have h0 : (freshEngine selfJump).totalCpuCycles = 0 := rfl
    rw [h0] at h6
    rw [h6 (by omega)]
    omega
  · intro k hk
    exact h7 k hk

/-- A step back in a ring that has not wrapped, as far as the counter tells
    (`totalCycles < 1000`), with the head below slot 999 and `current` inside
    `0..head`: `current` stays inside `0..head`, and at slot 0 it stays at slot 0. -/
theorem backOneClockCylce_unwrapped (e : Engine) (ht : e.totalCpuCycles < 1000)
    (hh : e.headCpuStateIndex < 999) (hc : e.currentCpuStateIndex ≤ e.headCpuStateIndex) :
    e.backOneClockCylce.currentCpuStateIndex ≤ e.headCpuStateIndex ∧
    (e.currentCpuStateIndex = 0 → e.backOneClockCylce.currentCpuStateIndex = 0) := by
  have h1 : e.currentCpuStateIndex ≠ e.headCpuStateIndex + 1 := by omega
  cases hp : e.paused
  · have hb : e.backOneClockCylce = e := by
      unfold Engine.backOneClockCylce
      simp only [hp, Bool.not_false, if_true]
    rw [hb]
    exact ⟨hc, id⟩
  · by_cases h0 : e.currentCpuStateIndex = 0
    · have hb : e.backOneClockCylce =
          { e with currentCpuStateIndex := 0, currentCpuStateDisplayIndex := 0 } := by
        have h2 : 1000 - 1 > e.headCpuStateIndex := by omega
        have h3 : ¬ 0 = e.headCpuStateIndex + 1 := by omega
        unfold Engine.backOneClockCylce maxCpuStates
        simp only [hp, Bool.not_true, Bool.false_eq_true, if_false, ne_eq, h3,
          not_false_eq_true, if_true, h0, ht, h2, and_self]
      rw [hb]
      exact ⟨Nat.zero_le _, fun _ => rfl⟩
    · have hb : e.backOneClockCylce =
          { e with currentCpuStateIndex := e.currentCpuStateIndex - 1, currentCpuStateDisplayIndex := e.currentCpuStateDisplayIndex - 1 } := by
        have h2 : ¬ e.currentCpuStateIndex - 1 > e.headCpuStateIndex := by omega
        unfold Engine.backOneClockCylce maxCpuStates
        simp only [hp, Bool.not_true, Bool.false_eq_true, if_false, ne_eq, h1,
          not_false_eq_true, if_true, h0, h2, and_false]
      rw [hb]
      exact ⟨by show e.currentCpuStateIndex - 1 ≤ _; omega, fun h => absurd h h0⟩

/-- **C14** (rewind never goes before the reset state) fails in two ways. First,
    cycles that signal no update still add one to the cycle counter: after 1000
    cycles of `selfJump` from a fresh engine no state has been committed
    (`head = 0`, and this holds after any number of cycles), but `totalCycles` is
    1000, so that, once paused, `backOneClockCylce` takes the ring for a wrapped
    one and moves `current` from slot 0 to slot 999, which holds the blank state
    it held before the run and lies outside `0..head`. Second, after 999
    committing cycles of `loadAndJump` the head is slot 999, and stepping back
    from slot 0 leads to slot 999 instead of staying at slot 0. The last part is
    what holds: with `totalCycles < 1000` and the head below slot 999, a step back
    from a slot in `0..head` stays in `0..head`, and at slot 0 it stays there. -/
theorem C14_rewind_before_the_reset_state :
    (∀ n, ∃ e, (freshEngine selfJump).runCycles noQuirks (List.replicate n noInput) = some e ∧
      e.headCpuStateIndex = 0 ∧ e.currentCpuStateIndex = 0) ∧
    (∃ e, (freshEngine selfJump).runCycles noQuirks (List.replicate 1000 noInput) = some e ∧
      e.headCpuStateIndex = 0 ∧ e.currentCpuStateIndex = 0 ∧ e.totalCpuCycles = 1000 ∧
      e.cpuStates 999 = (freshEngine selfJump).cpuStates 999 ∧
      e.togglePaused.paused = true ∧
      e.togglePaused.backOneClockCylce.currentCpuStateIndex = 999 ∧
      e.togglePaused.backOneClockCylce.getCurrentCpuState = some blankState) ∧
    ((∀ i, i < 999 →
        Engine.Commits noQuirks noInput (loadAndJumpTrace i) (loadAndJumpTrace (i + 1))) ∧
      (loadAndJumpTrace 999).headCpuStateIndex = 999 ∧
      (loadAndJumpTrace 999).totalCpuCycles = 999 ∧
      (Engine.backOneClockCylce^[999]
        (loadAndJumpTrace 999).togglePaused).currentCpuStateIndex = 0 ∧
      (Engine.backOneClockCylce^[1000]
        (loadAndJumpTrace 999).togglePaused).currentCpuStateIndex = 999) ∧
    (∀ e : Engine, e.totalCpuCycles < 1000 → e.headCpuStateIndex < 999 →
      e.currentCpuStateIndex ≤ e.headCpuStateIndex →
      e.backOneClockCylce.currentCpuStateIndex ≤ e.headCpuStateIndex ∧
      (e.currentCpuStateIndex = 0 → e.backOneClockCylce.currentCpuStateIndex = 0)) := by
  refine ⟨?_, ?_, ⟨fun i _ => loadAndJump_commits i, ?_⟩, backOneClockCylce_unwrapped⟩
  · intro n
    obtain ⟨e, h1, _, h3, h4, _⟩ := selfJump_run n
    exact ⟨e, h1, h3, h4⟩
  · obtain ⟨e, h1, h2, h3, h4, h5, h6⟩ := selfJump_run 1000
    have h5' : e.totalCpuCycles = 1000 := h5 (by norm_num)
    obtain ⟨t1, t2, t3, t4, t5, _⟩ := togglePaused_fields e
    have hp : e.togglePaused.paused = true := by rw [t1, h2]; rfl
    have hb : e.togglePaused.backOneClockCylce.currentCpuStateIndex = 999 := by
      rw [backOneClockCylce_wrapped _ hp (by rw [t4, h5']) (by rw [t3, h4]; norm_num)
        (by rw [t3, t2, h3, h4]; norm_num), t3, h4]
    have h999 : e.cpuStates 999 = (freshEngine selfJump).cpuStates 999 := h6 999 (by decide)
    refine ⟨e, h1, h3, h4, h5', h999, hp, hb, ?_⟩
    unfold Engine.getCurrentCpuState
    rw [hb, cpuStateAt_lt _ _ (by norm_num), (backOneClockCylce_frame _).1, t5]
    exact congrArg some h999
  · obtain ⟨a1, a2, a3, _⟩ := loadAndJump_cursors 999
    have a6 := (loadAndJump_run 999).2.1
    norm_num at a1 a2 a3
    generalize loadAndJumpTrace 999 = X at *
    obtain ⟨t1, t2, t3, _, _, _⟩ := togglePaused_fields X
    obtain ⟨_, r2, _, r4, _⟩ :=
      rewind_at_head_999 X.togglePaused (by rw [t1, a6]; rfl) (by rw [t2, t3, a1, a2])
        (by rw [t2, a1])
    exact ⟨a1, a3, r2, r4⟩

/-! ## A program that commits 1000 states and then spins -/

theorem countThenSpin_readWord (a : Nat) (h1 : 0x200 ≤ a) (h2 : a < 0x9D0) (h3 : a % 2 = 0) :
    countThenSpinMemory.readWord a = 0x7001 := by
  have e1 : (a + 1) % 65536 = a + 1 := by omega
  have n1 : ¬ a ≥ 4096 := by omega
  have n2 : ¬ a + 1 ≥ 4096 := by omega
  have n3 : ¬ a < 0x200 := by omega
  have n4 : ¬ a + 1 < 0x200 := by omega
  have n5 : a + 1 < 0x9D0 := by omega
  have n6 : ¬ (a + 1) % 2 = 0 := by omega
  unfold Memory.readWord Memory.readByte maxBufferSize countThenSpinMemory
  simp only [e1, n1, n2, n3, n4, n5, n6, h2, h3, if_true, if_false, dite_false]
  decide

theorem processOpcode_7001 (s : CpuState) (q : Quirks) (inp : Input) (g : Shared) :
    s.processOpcode q inp g 0x7001 =
      some (true,
        { s with v := Function.update s.v 0 ((s.v 0 + 1) % 256), pc := (s.pc + 2) % 65536 },
        g) := rfl

theorem processOpcode_19D0 (s : CpuState) (q : Quirks) (inp : Input) (g : Shared) :
    s.processOpcode q inp g 0x19D0 =
      some (if s.pc = 0x9D0 then (false, s, g) else (true, { s with pc := 0x9D0 }, g)) := by
  show (fun r : Bool × CpuState => some (r.1, r.2, g)) (s.JP_Addr 0x9D0) = _
  unfold CpuState.JP_Addr
  split_ifs <;> rfl

/-- One of the first 1000 cycles of `countThenSpin`: it commits a state whose `pc`
    is 2 further. -/
theorem countThenSpin_cycle (e : Engine) (i : Nat) (hi : i < 1000) (hp : e.paused = false)
    (hg : e.toShared = countThenSpin.toShared)
    (hlive : e.currentCpuStateIndex = e.headCpuStateIndex) (hh : e.headCpuStateIndex < 1000)
    (hpc : (e.cpuStates ⟨e.headCpuStateIndex, hh⟩).pc = 0x200 + 2 * i) :
    ∃ e', e.executeClockCycle noQuirks noInput = some e' ∧
      e'.paused = false ∧ e'.toShared = countThenSpin.toShared ∧
      e'.currentCpuStateIndex = e'.headCpuStateIndex ∧
      e'.headCpuStateIndex ≠ e.headCpuStateIndex ∧
      ∃ hh' : e'.headCpuStateIndex < 1000,
        (e'.cpuStates ⟨e'.headCpuStateIndex, hh'⟩).pc = 0x200 + 2 * (i + 1) := by
  have hf : (e.paused && !e.doAdvanceOneClockCycle) = false := by simp [hp]
  have hmem : e.mem = countThenSpinMemory := by
    show e.toShared.mem = _
    rw [hg]
    rfl
  have hmod : (e.headCpuStateIndex + 1) % 1000 < 1000 := Nat.mod_lt _ (by norm_num)
  have hne : (e.headCpuStateIndex + 1) % 1000 ≠ e.headCpuStateIndex := by omega
  have hw : e.mem.readWord (e.cpuStates ⟨e.headCpuStateIndex, hh⟩).pc = 0x7001 := by
    rw [hpc, hmem]
    exact countThenSpin_readWord _ (by omega) (by omega) (by omega)
  obtain ⟨e', h1, h2, h3, _, _, h6, h7, h8⟩ :=
    executeClockCycle_live e noQuirks noInput hf hlive hh (by rw [hw]; decide) true _ _
      (by rw [hw]; exact processOpcode_7001 _ _ _ _)
  rw [if_pos rfl] at h7
  refine ⟨e', h1, by rw [h3, hp], by rw [h2, hg], h8, by rw [h7]; exact hne,
    by rw [h7]; exact hmod, ?_⟩
  simp only [h6, h7, Function.update_same, hpc]
  omega

/-- The first 1000 cycles of `countThenSpin`: after `i` of them the engine is
    running and Live and the state under the head has `pc = 0x200 + 2 * i`. -/
theorem countThenSpin_run (i : Nat) (hi : i ≤ 1000) :
    countThenSpin.runCycles noQuirks (List.replicate i noInput) =
      some (countThenSpinTrace i) ∧
    (countThenSpinTrace i).paused = false ∧
    (countThenSpinTrace i).toShared = countThenSpin.toShared ∧
    (countThenSpinTrace i).currentCpuStateIndex = (countThenSpinTrace i).headCpuStateIndex ∧
    ∃ hh : (countThenSpinTrace i).headCpuStateIndex < 1000,
      ((countThenSpinTrace i).cpuStates ⟨(countThenSpinTrace i).headCpuStateIndex, hh⟩).pc =
        0x200 + 2 * i := by
  induction i with
  | zero =>
    have hh0 : (countThenSpinTrace 0).headCpuStateIndex < 1000 := by decide
    exact ⟨rfl, rfl, rfl, rfl, hh0, rfl⟩
  | succ i ih =>
    obtain ⟨h1, h2, h3, h4, hh, h5⟩ := ih (by omega)
    obtain ⟨e', k1, k2, k3, k4, _, hh', k7⟩ :=
      countThenSpin_cycle (countThenSpinTrace i) i (by omega) h2 h3 h4 hh h5
    have hrun : countThenSpin.runCycles noQuirks (List.replicate (i + 1) noInput) = some e' := by
      rw [List.replicate_succ', runCycles_snoc, h1]
      exact k1
    have htr : countThenSpinTrace (i + 1) = e' := by
      unfold countThenSpinTrace
      rw [hrun]
      rfl
    rw [htr]
    exact ⟨hrun, k2, k3, k4, hh', k7⟩

theorem countThenSpin_commits (i : Nat) (hi : i < 1000) :
    Engine.Commits noQuirks noInput (countThenSpinTrace i) (countThenSpinTrace (i + 1)) := by
  obtain ⟨h1, h2, h3, h4, hh, h5⟩ := countThenSpin_run i (by omega)
  obtain ⟨e', k1, _, _, _, k6, _⟩ :=
    countThenSpin_cycle (countThenSpinTrace i) i hi h2 h3 h4 hh h5
  have htr : countThenSpinTrace (i + 1) = e' := by
    have hrun := (countThenSpin_run (i + 1) (by omega)).1
    rw [List.replicate_succ', runCycles_snoc, h1] at hrun
    exact Option.some.inj (hrun.symm.trans k1)
  rw [htr]
  exact ⟨k1, k6⟩

/-- An instruction that signals no update has left the machine state as it was. -/
theorem processOpcode_no_update (s : CpuState) (q : Quirks) (inp : Input) (g : Shared) (w : Nat)
    (s' : CpuState) (g' : Shared)
    (h : s.processOpcode q inp g w = some (false, s', g')) : s' = s := by
  unfold CpuState.processOpcode at h
  simp only at h
  split at h
  all_goals
    try
      (simp only [CpuState.JP_Addr, CpuState.SE_Vx_Byte,
        CpuState.SNE_Vx_Byte, CpuState.SE_Vx_Vy, CpuState.LD_Vx_Byte, CpuState.ADD_Vx_Byte,
        CpuState.LD_Vx_Vy, CpuState.OR_Vx_Vy, CpuState.AND_Vx_Vy, CpuState.XOR_Vx_Vy,
        CpuState.ADD_Vx_Vy, CpuState.SUB_Vx_Vy, CpuState.SHR_Vx_Vy, CpuState.SUBN_Vx_Vy,
        CpuState.SHL_Vx_Vy, CpuState.SNE_Vx_Vy,
        CpuState.RND_Vx_Byte, CpuState.SKP_Vx, CpuState.SKNP_Vx, CpuState.LD_Vx_DT,
        CpuState.LD_DT_Vx, CpuState.LD_ST_Vx, CpuState.ADD_I_Vx,
        CpuState.LD_F_Vx, CpuState.LD_B_Vx] at h
       split at h <;> simp_all)
  · simp [CpuState.CLS] at h
  · unfold CpuState.RET at h
    cases hpop : s.popFromStack with
    | none => simp [hpop] at h
    | some r => simp [hpop] at h
  · simp [CpuState.CALL_Addr] at h
  · simp [CpuState.LD_I_Addr] at h
  · simp [CpuState.JP_V0_Addr] at h
  · unfold CpuState.DRW_Vx_Vy_Nibble at h
    split at h
    · split at h
      · simp at h
        exact h.1.symm
      · generalize List.foldlM (s.DRW_row g.mem _ _) _ _ = r at h
        cases r <;> simp at h
    · simp at h
      exact h.1.symm
  · unfold CpuState.LD_Vx_K at h
    split at h
    · simp at h
      exact h.1.symm
    · by_cases hk : g.keyboardPressedValue = 0xFF
      · simp [hk] at h
        exact h.1.symm
      · simp [hk] at h
  · unfold CpuState.LD_IAddr_Vx at h
    simp only [Option.bind_eq_bind, Option.pure_def] at h
    generalize List.foldlM (m := Option) _ g.mem _ = r at h
    cases r <;> simp at h
  · unfold CpuState.LD_Vx_IAddr at h
    simp only [Option.bind_eq_bind, Option.pure_def] at h
    generalize List.foldlM (m := Option) _ s _ = r at h
    cases r <;> simp at h
  · simp at h
    exact h.1.symm

/-- The cycle after the 1000 commits of `countThenSpin`, for an engine `X` in the
    state the run reaches (head at slot 0, `pc = 0x9D0` under the head, slot 1
    still holding the state of the engine `Y` reached by the first cycle): the
    self-jump keeps the cursors, adds one to the counter and overwrites slot 1. -/
theorem countThenSpin_spin (X Y : Engine) (c2 : X.paused = false)
    (c3 : X.toShared = countThenSpin.toShared)
    (a1 : X.headCpuStateIndex = 0) (a2 : X.currentCpuStateIndex = 0)
    (a3 : X.totalCpuCycles = 1000) (hh : X.headCpuStateIndex < 1000)
    (c5 : (X.cpuStates ⟨X.headCpuStateIndex, hh⟩).pc = 0x9D0)
    (b1 : Y.headCpuStateIndex = 1) (b2 : Y.currentCpuStateIndex = 1)
    (hh1 : Y.headCpuStateIndex < 1000)
    (d5 : (Y.cpuStates ⟨Y.headCpuStateIndex, hh1⟩).pc = 0x202)
    (a6 : X.cpuStateAt (1 % 1000) = Y.cpuStateAt (1 % 1000)) :
    ∃ s1 s1000 e',
      s1.pc = 0x202 ∧ s1000.pc = 0x9D0 ∧
      Y.getCurrentCpuState = some s1 ∧
      X.getCurrentCpuState = some s1000 ∧
      X.cpuStateAt 1 = some s1 ∧
      (Engine.backOneClockCylce^[999] X.togglePaused).getCurrentCpuState = some s1 ∧
      X.executeClockCycle noQuirks noInput = some e' ∧
      e'.headCpuStateIndex = 0 ∧ e'.currentCpuStateIndex = 0 ∧ e'.totalCpuCycles = 1001 ∧
      e'.getCurrentCpuState = some s1000 ∧
      e'.cpuStateAt 1 = some s1000 ∧
      (Engine.backOneClockCylce^[999] e'.togglePaused).getCurrentCpuState = some s1000 := by
  norm_num at a6
  have hf : (X.paused && !X.doAdvanceOneClockCycle) = false := by simp [c2]
  have hmem : X.mem = countThenSpinMemory := by
    show X.toShared.mem = _
    rw [c3]
    rfl
  have hw : X.mem.readWord (X.cpuStates ⟨X.headCpuStateIndex, hh⟩).pc = 0x19D0 := by
    rw [c5, hmem]
    decide
  obtain ⟨e', h1, _, h3, _, h5, h6, h7, h8⟩ :=
    executeClockCycle_live X noQuirks noInput hf (by rw [a1, a2]) hh (by rw [hw]; decide)
      false (X.cpuStates ⟨X.headCpuStateIndex, hh⟩) X.toShared
      (by rw [hw, processOpcode_19D0, if_pos c5])
  have h7' : e'.headCpuStateIndex = 0 := by rw [h7]; simpa using a1
  rw [h7'] at h8
  have hX0 : (⟨X.headCpuStateIndex, hh⟩ : Fin 1000) = ⟨0, by norm_num⟩ := Fin.ext a1
  have hY1 : (⟨Y.headCpuStateIndex, hh1⟩ : Fin 1000) = ⟨1, by norm_num⟩ := Fin.ext b1
  rw [hX0] at c5 h6
  rw [hY1] at d5
  have hidx : (⟨(X.headCpuStateIndex + 1) % 1000, Nat.mod_lt _ (by norm_num)⟩ : Fin 1000) =
      ⟨1, by norm_num⟩ := Fin.ext (by simp only; rw [a1])
  rw [hidx] at h6
  rw [cpuStateAt_lt _ _ (by norm_num), cpuStateAt_lt _ _ (by norm_num)] at a6
  obtain ⟨t1, t2, t3, t4, t5, _⟩ := togglePaused_fields X
  obtain ⟨u1, u2, u3, u4, u5, _⟩ := togglePaused_fields e'
  have r1 := back_iterate_wrapped X.togglePaused (by rw [t1, c2]; rfl) (by rw [t4, a3])
    (by rw [t3, t2, a1, a2]) (by rw [t2, a1]; norm_num) 999 (le_refl _)
  have r2 := back_iterate_wrapped e'.togglePaused (by rw [u1, h3, c2]; rfl)
    (by rw [u4, h5, a3]; norm_num) (by rw [u3, u2, h7', h8]) (by rw [u2, h7']; norm_num) 999
    (le_refl _)
  rw [t2, a1] at r1
  rw [u2, h7'] at r2
  rw [show (0 + 1000 - 999) % 1000 = 1 from rfl] at r1 r2
  refine ⟨Y.cpuStates ⟨1, by norm_num⟩, X.cpuStates ⟨0, by norm_num⟩, e', d5, c5,
    ?_, ?_, ?_, ?_,
    h1, h7', h8, ?_, ?_, ?_, ?_⟩
  · unfold Engine.getCurrentCpuState
    rw [b2, cpuStateAt_lt _ _ (by norm_num)]
  · unfold Engine.getCurrentCpuState
    rw [a2, cpuStateAt_lt _ _ (by norm_num)]
  · rw [cpuStateAt_lt _ _ (by norm_num)]
    exact a6
  · unfold Engine.getCurrentCpuState
    rw [r1, cpuStateAt_lt _ _ (by norm_num), (back_iterate_frame 999 _).1, t5]
    exact a6
  · rw [h5, a3]
    rfl
  · unfold Engine.getCurrentCpuState
    rw [h8, cpuStateAt_lt _ _ (by norm_num), h6, Function.update_noteq]
    intro heq
    exact absurd (congrArg Fin.val heq) (by norm_num)
  · rw [cpuStateAt_lt _ _ (by norm_num), h6, Function.update_same]
  · unfold Engine.getCurrentCpuState
    rw [r2, cpuStateAt_lt _ _ (by norm_num), (back_iterate_frame 999 _).1, u5, h6,
      Function.update_same]


/-- **C11** (the no-update spin is transparent to the history) fails.
    `executeClockCycle` copies the current state into slot `(head + 1) mod 1000`
    and adds one to the cycle counter before it runs the instruction, and when the
    instruction signals no update only the two cursors are put back: the first
    part states this for every engine. In a ring that has wrapped, that slot holds
    the oldest retained state. Here the 1000 committing cycles of `countThenSpin`
    leave `head = 0`, the state of cycle 1000 (`pc = 0x9D0`) in slot 0 and the
    state of cycle 1 (`pc = 0x202`) in slot 1, which 999 steps back reach. The
    next cycle executes the self-jump at `0x9D0`: `head` and `current` stay,
    `totalCycles` becomes 1001, and slot 1 now holds a copy of the state of cycle
    1000, which is what 999 steps back reach afterwards. -/
theorem C11_idle_cycle_overwrites_a_slot :
    (∀ (e : Engine) (q : Quirks) (inp : Input) (hh : e.headCpuStateIndex < 1000)
        (s' : CpuState) (g' : Shared),
      (e.paused && !e.doAdvanceOneClockCycle) = false →
      e.currentCpuStateIndex = e.headCpuStateIndex →
      e.mem.readWord (e.cpuStates ⟨e.headCpuStateIndex, hh⟩).pc ≠ 0 →
      (e.cpuStates ⟨e.headCpuStateIndex, hh⟩).processOpcode q inp e.toShared
        (e.mem.readWord (e.cpuStates ⟨e.headCpuStateIndex, hh⟩).pc) = some (false, s', g') →
      ∃ e', e.executeClockCycle q inp = some e' ∧
        e'.headCpuStateIndex = e.headCpuStateIndex ∧
        e'.currentCpuStateIndex = e.currentCpuStateIndex ∧
        e'.totalCpuCycles = (e.totalCpuCycles + 1) % 2 ^ 64 ∧
        e'.cpuStates = Function.update e.cpuStates
          ⟨(e.headCpuStateIndex + 1) % 1000, Nat.mod_lt _ (by norm_num)⟩
          (e.cpuStates ⟨e.headCpuStateIndex, hh⟩)) ∧
    (∀ i, i < 1000 →
      Engine.Commits noQuirks noInput (countThenSpinTrace i) (countThenSpinTrace (i + 1))) ∧
    (countThenSpinTrace 1000).headCpuStateIndex = 0 ∧
    (countThenSpinTrace 1000).currentCpuStateIndex = 0 ∧
    (countThenSpinTrace 1000).totalCpuCycles = 1000 ∧
    ∃ s1 s1000 e',
      s1.pc = 0x202 ∧ s1000.pc = 0x9D0 ∧
      (countThenSpinTrace 1).getCurrentCpuState = some s1 ∧
      (countThenSpinTrace 1000).getCurrentCpuState = some s1000 ∧
      (countThenSpinTrace 1000).cpuStateAt 1 = some s1 ∧
      (Engine.backOneClockCylce^[999]
        (countThenSpinTrace 1000).togglePaused).getCurrentCpuState = some s1 ∧
      (countThenSpinTrace 1000).executeClockCycle noQuirks noInput = some e' ∧
      e'.headCpuStateIndex = 0 ∧ e'.currentCpuStateIndex = 0 ∧ e'.totalCpuCycles = 1001 ∧
      e'.getCurrentCpuState = some s1000 ∧
      e'.cpuStateAt 1 = some s1000 ∧
      (Engine.backOneClockCylce^[999] e'.togglePaused).getCurrentCpuState = some s1000 := by
  refine ⟨?_, countThenSpin_commits, ?_⟩
  · intro e q inp hh s' g' hf hlive hw hp
    obtain ⟨e', h1, _, _, _, h5, h6, h7, h8⟩ :=
      executeClockCycle_live e q inp hf hlive hh hw false s' g' hp
    have h7' : e'.headCpuStateIndex = e.headCpuStateIndex := by simpa using h7
    rw [processOpcode_no_update _ _ _ _ _ _ _ hp] at h6
    exact ⟨e', h1, h7', by rw [h8, h7', hlive], h5, h6⟩
  obtain ⟨a1, a2, _, a4, a5⟩ :=
    forward_ring_invariant noQuirks 1000 countThenSpinTrace (fun _ => noInput) ⟨rfl, rfl⟩
      (fun k hk => countThenSpin_commits k hk) 1000 (le_refl _)
  obtain ⟨b1, b2, _, _, _⟩ :=
    forward_ring_invariant noQuirks 1000 countThenSpinTrace (fun _ => noInput) ⟨rfl, rfl⟩
      (fun k hk => countThenSpin_commits k hk) 1 (by norm_num)
  obtain ⟨_, c2, c3, _, hh, c5⟩ := countThenSpin_run 1000 (le_refl _)
  obtain ⟨_, _, _, _, hh1, d5⟩ := countThenSpin_run 1 (by norm_num)
  have a1' : (countThenSpinTrace 1000).headCpuStateIndex = 0 := a1.trans (by norm_num)
  have a2' : (countThenSpinTrace 1000).currentCpuStateIndex = 0 := a2.trans (by norm_num)
  have a3' : (countThenSpinTrace 1000).totalCpuCycles = 1000 := (a4 rfl).trans (by norm_num)
  exact ⟨a1', a2', a3',
    countThenSpin_spin _ _ c2 c3 a1' a2' a3' hh (c5.trans (by norm_num))
      (b1.trans (by norm_num)) (b2.trans (by norm_num)) hh1 (d5.trans (by norm_num))
      (a5 1 (by norm_num) (by norm_num))⟩

/-! ## The fields of an instruction word -/

/-- **C27** (the instruction fields partition the word). For every 16-bit word `w`
    the fields `instruction`, `x`, `y` and `z` are below 16, `kk` is below 256,
    `nnn` is below 4096, and `w = 4096 * instruction + nnn`, `nnn = 256 * x + kk`,
    `kk = 16 * y + z`. -/
theorem C27_fields_partition (w : Nat) (hw : w < 65536) :
    getOpcodeInstruction w < 16 ∧ getOpcodeX w < 16 ∧ getOpcodeY w < 16 ∧
    getOpcodeZ w < 16 ∧ getOpcodeKK w < 256 ∧ getOpcodeNNN w < 4096 ∧
    w = 4096 * getOpcodeInstruction w + getOpcodeNNN w ∧
    getOpcodeNNN w = 256 * getOpcodeX w + getOpcodeKK w ∧
    getOpcodeKK w = 16 * getOpcodeY w + getOpcodeZ w := by
  rw [getOpcodeInstruction_eq w hw, getOpcodeX_eq, getOpcodeY_eq, getOpcodeZ_eq, getOpcodeKK_eq,
    getOpcodeNNN_eq]
  omega

/-- Instance of C27: the word `0xD123` has the fields `0xD`, 1, 2, 3, `0x23`,
    `0x123`. -/
theorem C27_fields_partition_witness :
    (0xD123 : Nat) < 65536 ∧
    getOpcodeInstruction 0xD123 = 0xD ∧ getOpcodeX 0xD123 = 1 ∧ getOpcodeY 0xD123 = 2 ∧
    getOpcodeZ 0xD123 = 3 ∧ getOpcodeKK 0xD123 = 0x23 ∧ getOpcodeNNN 0xD123 = 0x123 ∧
    (0xD123 : Nat) = 4096 * getOpcodeInstruction 0xD123 + getOpcodeNNN 0xD123 :=
  ⟨by decide, by decide, by decide, by decide, by decide, by decide, by decide,
    (C27_fields_partition 0xD123 (by decide)).2.2.2.2.2.2.1⟩

/-! ## The bounds of the memory -/

theorem writeByte_outside (m : Memory) (a : Int) (d : Nat) (h : a < 0 ∨ a ≥ 4096) :
    m.writeByte a d = m := by
  unfold Memory.writeByte maxBufferSize
  rw [dif_pos (by omega)]

/-- **C23** (memory bounds). `readByte a` is 0 for every address `a ≥ 4096` and
    the stored byte for `a < 4096`. `writeByte a d` with `a < 0` or `a ≥ 4096`
    leaves the memory as it is; with `0 ≤ a < 4096` it makes `readByte a = d` and
    leaves every other byte, and the copy kept for reset, unchanged. -/
theorem C23_memory_bounds (m : Memory) :
    (∀ a : Nat, a ≥ 4096 → m.readByte a = 0) ∧
    (∀ a : Fin 4096, m.readByte a.val = m.buffer a) ∧
    (∀ (a : Int) (d : Nat), a < 0 ∨ a ≥ 4096 → m.writeByte a d = m) ∧
    (∀ (a : Nat) (d : Nat), a < 4096 →
      (m.writeByte (a : Int) d).readByte a = d ∧
      (∀ b : Nat, b ≠ a → (m.writeByte (a : Int) d).readByte b = m.readByte b) ∧
      (m.writeByte (a : Int) d).originalBuffer = m.originalBuffer) := by
  refine ⟨?_, ?_, fun a d h => writeByte_outside m a d h, ?_⟩
  · intro a ha
    unfold Memory.readByte maxBufferSize
    rw [dif_pos ha]
  · intro a
    have := a.isLt
    unfold Memory.readByte maxBufferSize
    rw [dif_neg (by omega)]
  · intro a d ha
    refine ⟨?_, ?_, originalBuffer_writeByte m _ d⟩
    · rw [readByte_writeByte, if_pos ⟨rfl, ha⟩]
    · intro b hb
      rw [readByte_writeByte, if_neg (fun h => hb h.1)]

/-! ## The fetch of a word -/

theorem shiftLeft_8_or (h l : Nat) (hl : l < 256) : (h <<< 8) ||| l = 256 * h + l := by
  have h1 : (2 : Nat) ^ 8 * h + l = (2 : Nat) ^ 8 * h ||| l := Nat.mul_add_lt_is_or hl h
  rw [Nat.shiftLeft_eq, Nat.mul_comm, ← h1]
  rfl

theorem readByte_lt (m : Memory) (hb : ∀ i, m.buffer i < 256) (a : Nat) : m.readByte a < 256 := by
  unfold Memory.readByte
  split
  · norm_num
  · exact hb _

/-- **C24** (big-endian fetch). In a memory of bytes, for every address `a < 4096`
    `readWord a = 256 * readByte a + readByte (a + 1)`: the byte at the lower
    address is the high byte, and `readWord 4095 = 256 * memory[4095]`. For every
    `a ≥ 4096`, `readWord a = 0`. -/
theorem C24_readWord_big_endian (m : Memory) (hb : ∀ i, m.buffer i < 256) :
    (∀ a : Nat, a < 4096 → m.readWord a = 256 * m.readByte a + m.readByte (a + 1)) ∧
    m.readWord 4095 = 256 * m.buffer 4095 ∧
    (∀ a : Nat, a ≥ 4096 → m.readWord a = 0) := by
  have h1 : ∀ a : Nat, a < 4096 → m.readWord a = 256 * m.readByte a + m.readByte (a + 1) := by
    intro a ha
    have hh := readByte_lt m hb a
    have hl := readByte_lt m hb (a + 1)
    unfold Memory.readWord maxBufferSize
    rw [if_neg (by omega)]
    simp only
    rw [Nat.mod_eq_of_lt (show a + 1 < 65536 by omega), shiftLeft_8_or _ _ hl]
    omega
  refine ⟨h1, ?_, ?_⟩
  · rw [h1 4095 (by norm_num)]
    have e1 : m.readByte (4095 + 1) = 0 := by
      unfold Memory.readByte maxBufferSize
      rw [dif_pos (by norm_num)]
    have e2 : m.readByte 4095 = m.buffer 4095 := by
      unfold Memory.readByte maxBufferSize
      rw [dif_neg (by norm_num)]
      rfl
    rw [e1, e2, Nat.add_zero]
  · intro a ha
    unfold Memory.readWord maxBufferSize
    rw [if_pos ha]

theorem exampleMemory_bytes : ∀ i, exampleMemory.buffer i < 256 := by
  intro i
  obtain ⟨i, hi⟩ := i
  show [0xF0, 0x90, 0x90, 0x90, 0xF0].getD i 0 < 256
  by_cases h : i < 5
  · interval_cases i <;> decide
  · rw [List.getD_eq_default _ _ (by simpa using h)]
    norm_num

/-- Instance of C24: the first two bytes `0xF0`, `0x90` of `exampleMemory` are read
    as the word `0xF090`. -/
theorem C24_readWord_big_endian_witness :
    exampleMemory.readWord 0 = 0xF090 ∧
    exampleMemory.readWord 0 = 256 * exampleMemory.readByte 0 + exampleMemory.readByte (0 + 1) :=
  ⟨by decide, (C24_readWord_big_endian exampleMemory exampleMemory_bytes).1 0 (by decide)⟩

/-! ## Pause and single step -/

/-- A cycle that is not frozen and has a result keeps the pause switch and leaves
    no single-step request behind. -/
theorem executeClockCycle_flags (e e' : Engine) (q : Quirks) (inp : Input)
    (hf : (e.paused && !e.doAdvanceOneClockCycle) = false)
    (h : e.executeClockCycle q inp = some e') :
    e'.paused = e.paused ∧ e'.doAdvanceOneClockCycle = false := by
  by_cases hlive : e.currentCpuStateIndex = e.headCpuStateIndex
  swap
  · obtain ⟨e2, h2, _, k2, k3, _⟩ := executeClockCycle_replay e q inp hf hlive
    rw [h2] at h
    cases h
    exact ⟨k2, k3⟩
  by_cases hh : e.headCpuStateIndex < 1000
  swap
  · rw [executeClockCycle_out_of_range e q inp hf hlive hh] at h
    cases h
  by_cases hw : e.mem.readWord (e.cpuStates ⟨e.headCpuStateIndex, hh⟩).pc = 0
  · obtain ⟨e2, h2, _, k2, k3, _⟩ := executeClockCycle_zero_word e q inp hf hlive hh hw
    rw [h2] at h
    cases h
    exact ⟨k2, k3⟩
  cases hp : (e.cpuStates ⟨e.headCpuStateIndex, hh⟩).processOpcode q inp e.toShared
      (e.mem.readWord (e.cpuStates ⟨e.headCpuStateIndex, hh⟩).pc) with
  | none =>
    rw [executeClockCycle_undefined e q inp hf hlive hh hw hp] at h
    cases h
  | some r =>
    obtain ⟨upd, s', g'⟩ := r
    obtain ⟨e2, h2, _, k2, k3, _⟩ := executeClockCycle_live e q inp hf hlive hh hw upd s' g' hp
    rw [h2] at h
    cases h
    exact ⟨k2, k3⟩

/-- The single step of a paused engine is the cycle of the running engine: the
    two results differ in the pause switch only. -/
theorem executeClockCycle_single_step (e : Engine) (q : Quirks) (inp : Input) :
    ({ e with paused := true, doAdvanceOneClockCycle := true }).executeClockCycle q inp =
      (({ e with paused := false, doAdvanceOneClockCycle := false }).executeClockCycle q inp).map
        (fun e' : Engine => { e' with paused := true }) := by
  rcases e with ⟨g, p, d, cs, t, di, ci, hi⟩
  unfold Engine.executeClockCycle Engine.processOpcode Engine.setCpuState
    Engine.getCurrentCpuState Engine.cpuStateAt
  simp only [Bool.not_true, Bool.and_false, Bool.false_eq_true, if_false, Bool.false_and,
    Option.bind_eq_bind, Option.pure_def]
  by_cases hne : ci = hi
  · simp only [hne, ne_eq, not_true_eq_false, if_false]
    by_cases hlt : hi < 1000
    · simp only [hlt, dite_true, Option.some_bind]
      by_cases hw : g.mem.readWord (cs ⟨hi, hlt⟩).pc = 0
      · simp only [hw, if_true, Option.map_some']
      · simp only [hw, if_false]
        have hnx : (if hi = maxCpuStates - 1 then 0 else hi + 1) < 1000 := next_lt hi hlt
        simp only [hnx, dite_true, Option.some_bind, Function.update_same]
        simp only [Option.map_bind, Option.bind_assoc, Option.some_bind]
        congr 1
        funext r
        obtain ⟨upd, s', g'⟩ := r
        cases upd <;> simp only [Bool.not_false, Bool.not_true, if_true, Bool.false_eq_true,
          if_false, Option.map_some', Function.comp_apply]
    · simp only [hlt, dite_false, Option.none_bind, Option.map_none']
  · simp only [hne, ne_eq, not_false_eq_true, if_true, Option.map_some']

theorem advance_paused (e : Engine) (hp : e.paused = true) :
    e.advanceOneClockCycle = { e with paused := true, doAdvanceOneClockCycle := true } := by
  unfold Engine.advanceOneClockCycle
  rw [if_neg (by simp [hp])]
  rcases e with ⟨g, p, d, cs, t, di, ci, hi⟩
  simp only at hp
  subst hp
  rfl

theorem advance_iterate (e : Engine) (hp : e.paused = true) (k : Nat) (hk : 1 ≤ k) :
    Engine.advanceOneClockCycle^[k] e =
      { e with paused := true, doAdvanceOneClockCycle := true } := by
  induction k with
  | zero => omega
  | succ k ih =>
    rw [Function.iterate_succ_apply']
    by_cases h0 : k = 0
    · subst h0
      exact advance_paused e hp
    · rw [ih (by omega), advance_paused _ rfl]

/-- **C21** (pause and single step). While the engine is paused and no single-step
    request is pending, `executeClockCycle` returns the engine as it is. After one
    or more calls of `advanceOneClockCycle` on a paused engine (they set the
    request and nothing else), the next `executeClockCycle` is the cycle the
    running engine would perform, Live or Replaying, with the pause switch kept
    on; it clears the request, so that every `executeClockCycle` after it returns
    the engine as it is. While the engine is not paused, `advanceOneClockCycle`
    and `backOneClockCylce` return the engine as it is. -/
theorem C21_pause_and_single_step (e : Engine) (q : Quirks) (inp : Input) :
    (e.paused = true → e.doAdvanceOneClockCycle = false → e.executeClockCycle q inp = some e) ∧
    (e.paused = true → ∀ k, 1 ≤ k →
      Engine.advanceOneClockCycle^[k] e = { e with doAdvanceOneClockCycle := true } ∧
      (Engine.advanceOneClockCycle^[k] e).executeClockCycle q inp =
        (({ e with paused := false, doAdvanceOneClockCycle := false }).executeClockCycle
          q inp).map (fun e' : Engine => { e' with paused := true }) ∧
      ∀ e', (Engine.advanceOneClockCycle^[k] e).executeClockCycle q inp = some e' →
        e'.paused = true ∧ e'.doAdvanceOneClockCycle = false ∧
        ∀ (q' : Quirks) (inp' : Input), e'.executeClockCycle q' inp' = some e') ∧
    (e.paused = false → e.advanceOneClockCycle = e ∧ e.backOneClockCylce = e) := by
  refine ⟨?_, ?_, ?_⟩
  · intro hp hd
    exact executeClockCycle_frozen e q inp (by simp [hp, hd])
  · intro hp k hk
    have hit := advance_iterate e hp k hk
    refine ⟨?_, ?_, ?_⟩
    · rw [hit]
      rcases e with ⟨g, p, d, cs, t, di, ci, hi⟩
      simp only at hp
      subst hp
      rfl
    · rw [hit]
      exact executeClockCycle_single_step e q inp
    · intro e' he
      rw [hit] at he
      obtain ⟨h1, h2⟩ :=
        executeClockCycle_flags { e with paused := true, doAdvanceOneClockCycle := true } e' q inp
          rfl he
      have h1' : e'.paused = true := h1
      exact ⟨h1', h2, fun q' inp' => executeClockCycle_frozen e' q' inp' (by simp [h1', h2])⟩
  · intro hp
    constructor
    · unfold Engine.advanceOneClockCycle
      rw [if_pos (by simp [hp])]
    · unfold Engine.backOneClockCylce
      rw [if_pos (by simp [hp])]

/-- Instance of C21: a fresh engine with `twoLoads`, paused; one single-step
    request and one cycle commit the first instruction, and the cycle after it
    changes nothing. -/
theorem C21_pause_and_single_step_witness :
    (freshEngine twoLoads).togglePaused.paused = true ∧
    (freshEngine twoLoads).togglePaused.executeClockCycle noQuirks noInput =
      some (freshEngine twoLoads).togglePaused ∧
    ∃ e', (freshEngine twoLoads).togglePaused.advanceOneClockCycle.executeClockCycle
        noQuirks noInput = some e' ∧
      e'.headCpuStateIndex = 1 ∧ e'.paused = true ∧ e'.doAdvanceOneClockCycle = false ∧
      e'.executeClockCycle noQuirks noInput = some e' := by
  obtain ⟨h1, h2, _⟩ :=
    C21_pause_and_single_step (freshEngine twoLoads).togglePaused noQuirks noInput
  obtain ⟨_, _, h5⟩ := h2 rfl 1 (le_refl 1)
  have he : (freshEngine twoLoads).togglePaused.advanceOneClockCycle.executeClockCycle
      noQuirks noInput = some (twoLoadsTrace 1).togglePaused := rfl
  obtain ⟨k1, k2, k3⟩ := h5 _ he
  exact ⟨rfl, h1 rfl rfl, _, he, rfl, k1, k2, k3 noQuirks noInput⟩

/-! ## Single instructions run by a cycle -/

/-- A Live cycle whose instruction reports an update, with everything it
    changes: the result `s'` is stored in the next slot, both cursors move there,
    the counter goes up by one and the shared variables are those the instruction
    returned. -/
theorem live_commit_cycle (e : Engine) (q : Quirks) (inp : Input) (s s' : CpuState)
    (g' : Shared)
    (hlive : e.currentCpuStateIndex = e.headCpuStateIndex)
    (hnf : (e.paused && !e.doAdvanceOneClockCycle) = false)
    (hs : e.getCurrentCpuState = some s)
    (hw : e.mem.readWord s.pc ≠ 0)
    (hupd : s.processOpcode q inp e.toShared (e.mem.readWord s.pc) = some (true, s', g'))
    (htot : e.totalCpuCycles + 1 < 2 ^ 64) :
    ∃ e', e.executeClockCycle q inp = some e' ∧
      e'.headCpuStateIndex = (e.headCpuStateIndex + 1) % 1000 ∧
      e'.currentCpuStateIndex = e'.headCpuStateIndex ∧
      e'.totalCpuCycles = e.totalCpuCycles + 1 ∧
      e'.getCurrentCpuState = some s' ∧
      e'.cpuStateAt e.headCpuStateIndex = some s ∧
      (∀ i, i ≠ e'.headCpuStateIndex → e'.cpuStateAt i = e.cpuStateAt i) ∧
      e'.toShared = g' ∧ e'.paused = e.paused := by
  obtain ⟨hh, hslot⟩ := getCurrentCpuState_some e s hs
  have hh' : e.headCpuStateIndex < 1000 := hlive ▸ hh
  have hslot' : e.cpuStates ⟨e.headCpuStateIndex, hh'⟩ = s := by
    rw [← hslot]; congr 2; exact hlive.symm
  obtain ⟨e', h1, h2, h3, _, h5, h6, h7, h8⟩ :=
    executeClockCycle_live e q inp hnf hlive hh' (by rw [hslot']; exact hw) true s' g'
      (by rw [hslot']; exact hupd)
  have hmod : (e.headCpuStateIndex + 1) % 1000 < 1000 := Nat.mod_lt _ (by norm_num)
  have hhead : e'.headCpuStateIndex = (e.headCpuStateIndex + 1) % 1000 := by simpa using h7
  have hother : ∀ i, i ≠ e'.headCpuStateIndex → e'.cpuStateAt i = e.cpuStateAt i := by
    intro i hi
    unfold Engine.cpuStateAt
    by_cases hlt : i < 1000
    · rw [dif_pos hlt, dif_pos hlt, h6, Function.update_noteq]
      intro heq
      apply hi
      rw [hhead]
      exact congrArg Fin.val heq
    · rw [dif_neg hlt, dif_neg hlt]
  refine ⟨e', h1, hhead, h8, ?_, ?_, ?_, hother, h2, h3⟩
  · rw [h5, Nat.mod_eq_of_lt htot]
  · unfold Engine.getCurrentCpuState
    rw [h8, hhead, cpuStateAt_lt _ _ hmod, h6, Function.update_same]
  · rw [hother _ (by rw [hhead]; omega), cpuStateAt_lt _ _ hh', hslot']

theorem processOpcode_00E0 (s : CpuState) (q : Quirks) (inp : Input) (g : Shared) :
    s.processOpcode q inp g 0x00E0 =
      some (true, { s with vgaState := s.vgaState.clear, pc := (s.pc + 2) % 65536 }, g) := rfl

/-- **C22** (`CLS`). For every engine in Live mode that is not frozen and whose
    current state `s` has its `pc` at the word `0x00E0`, one `executeClockCycle`
    makes current a state in which all 64 x 32 pixels are off, `pc` is `s.pc + 2`
    and every other field is that of `s`, and it commits exactly one history
    entry: `head` advances by one slot, `current` follows it, `totalCycles`
    increases by 1 (the 64-bit counter is assumed not to be at its maximum), the
    old head slot still holds `s`, every other slot but the new head is
    unchanged, and so are the memory and the keyboard variables. -/
theorem C22_CLS (e : Engine) (q : Quirks) (inp : Input) (s : CpuState)
    (hlive : e.currentCpuStateIndex = e.headCpuStateIndex)
    (hnf : (e.paused && !e.doAdvanceOneClockCycle) = false)
    (hs : e.getCurrentCpuState = some s)
    (hw : e.mem.readWord s.pc = 0x00E0)
    (htot : e.totalCpuCycles + 1 < 2 ^ 64) :
    ∃ e' s', e.executeClockCycle q inp = some e' ∧
      e'.getCurrentCpuState = some s' ∧
      (∀ (r : Fin 32) (c : Fin 64), s'.vgaState.frameBuffer r c = false) ∧
      s'.pc = s.pc + 2 ∧ s'.ir = s.ir ∧ s'.dt = s.dt ∧ s'.st = s.st ∧ s'.sp = s.sp ∧
      s'.v = s.v ∧ s'.stack = s.stack ∧
      e'.headCpuStateIndex = (e.headCpuStateIndex + 1) % 1000 ∧
      e'.currentCpuStateIndex = e'.headCpuStateIndex ∧
      e'.totalCpuCycles = e.totalCpuCycles + 1 ∧
      e'.cpuStateAt e.headCpuStateIndex = some s ∧
      (∀ i, i ≠ e'.headCpuStateIndex → e'.cpuStateAt i = e.cpuStateAt i) ∧
      e'.toShared = e.toShared := by
  have hpc : s.pc < 4096 := readWord_lt e.mem s.pc (by rw [hw]; decide)
  obtain ⟨e', h1, h2, h3, h4, h5, h6, h7, h8, _⟩ :=
    live_commit_cycle e q inp s _ _ hlive hnf hs (by rw [hw]; decide)
      (by rw [hw]; exact processOpcode_00E0 s q inp e.toShared) htot
  refine ⟨e', _, h1, h5, fun _ _ => rfl, ?_, rfl, rfl, rfl, rfl, rfl, rfl, h2, h3, h4, h6, h7, h8⟩
  exact Nat.mod_eq_of_lt (by omega)

/-- Instance of C22: `CLS` at `0x200` with every pixel on. -/
theorem C22_CLS_witness :
    (litEngine.getCurrentCpuState.map (fun s => s.vgaState.frameBuffer 3 5) = some true ∧
      litEngine.mem.readWord 0x200 = 0x00E0) ∧
    ∃ e' s', litEngine.executeClockCycle noQuirks noInput = some e' ∧
      e'.getCurrentCpuState = some s' ∧
      (∀ (r : Fin 32) (c : Fin 64), s'.vgaState.frameBuffer r c = false) ∧
      s'.pc = 0x202 ∧ e'.headCpuStateIndex = 1 ∧ e'.totalCpuCycles = 1 := by
  obtain ⟨e', s', h1, h2, h3, h4, _, _, _, _, _, _, h11, _, h13, _⟩ :=
    C22_CLS litEngine noQuirks noInput (litEngine.cpuStates 0) rfl rfl rfl (by decide)
      (by decide)
  exact ⟨⟨rfl, by decide⟩, e', s', h1, h2, h3, h4, h11, h13⟩

/-! ## The random byte -/

theorem and_testBit_right (r kk i : Nat) (h : (r &&& kk).testBit i = true) :
    kk.testBit i = true := by
  rw [Nat.testBit_and, Bool.and_eq_true] at h
  exact h.2

/-- **C28** (`RND Vx, kk`). For every sampled number `r` in 0..255, every immediate
    `kk` and every register index `x`, the instruction reports an update and
    leaves `r AND kk` in `v[x]`, so no bit outside `kk` is set and `v[x] = 0` when
    `kk = 0`; every other register and every other field of the state but `pc` is
    unchanged, and `pc` advances by 2 (the 16-bit `pc` is assumed not to be within
    2 of its maximum). -/
theorem C28_RND_Vx_Byte (s : CpuState) (inp : Input) (x : Fin 16) (kk : Nat)
    (hr : inp.randomValue < 256) (hpc : s.pc + 2 < 65536) :
    s.RND_Vx_Byte inp x kk =
      (true, { s with v := Function.update s.v x (inp.randomValue &&& kk), pc := s.pc + 2 }) ∧
    (s.RND_Vx_Byte inp x kk).2.v x = inp.randomValue &&& kk ∧
    (∀ i, i ≠ x → (s.RND_Vx_Byte inp x kk).2.v i = s.v i) ∧
    (∀ i, ((s.RND_Vx_Byte inp x kk).2.v x).testBit i = true → kk.testBit i = true) ∧
    (kk = 0 → (s.RND_Vx_Byte inp x kk).2.v x = 0) := by
  have hle : inp.randomValue &&& kk ≤ inp.randomValue := Nat.and_le_left
  have heq : s.RND_Vx_Byte inp x kk =
      (true, { s with v := Function.update s.v x (inp.randomValue &&& kk), pc := s.pc + 2 }) := by
    simp only [CpuState.RND_Vx_Byte, getRegister_fin]
    rw [Nat.mod_eq_of_lt hr, Nat.mod_eq_of_lt (show inp.randomValue &&& kk < 256 by omega),
      Nat.mod_eq_of_lt hpc]
  rw [heq]
  refine ⟨rfl, ?_, ?_, ?_, ?_⟩
  · exact Function.update_same _ _ _
  · intro i hi
    exact Function.update_noteq hi _ _
  · intro i hi
    rw [show ({ s with v := Function.update s.v x (inp.randomValue &&& kk), pc := s.pc + 2 } : CpuState).v x = inp.randomValue &&& kk from Function.update_same _ _ _] at hi
    exact and_testBit_right _ _ _ hi
  · intro hk
    rw [show ({ s with v := Function.update s.v x (inp.randomValue &&& kk), pc := s.pc + 2 } : CpuState).v x = inp.randomValue &&& kk from Function.update_same _ _ _, hk]
    exact Nat.and_zero _

/-- Instance of C28: the sampled byte `0xA7` masked with `0x3C` leaves `0x24` in
    `v[1]`. -/
theorem C28_RND_Vx_Byte_witness :
    ((0xA7 : Nat) < 256 ∧ exampleState.pc + 2 < 65536) ∧
    (exampleState.RND_Vx_Byte ⟨[], 0xA7⟩ 1 0x3C).2.v 1 = 0x24 ∧
    (exampleState.RND_Vx_Byte ⟨[], 0xA7⟩ 1 0x3C).2.v 1 = 0xA7 &&& 0x3C :=
  ⟨⟨by decide, by decide⟩, by decide,
    (C28_RND_Vx_Byte exampleState ⟨[], 0xA7⟩ 1 0x3C (by decide) (by decide)).2.1⟩

/-! ## The cycle counter -/

/-- **C30** (`totalCycles` counts exactly the committed states) fails.
    `executeClockCycle` adds one to the counter before it runs the instruction and
    does not take it back when the instruction signals no update: the first part
    states this for every engine. In the run of `selfJump` from a fresh engine no
    cycle commits a state, the head stays at slot 0, and after `n` cycles the
    counter is `n`; after one cycle it is 1. -/
theorem C30_counter_counts_idle_cycles :
    (∀ (e : Engine) (q : Quirks) (inp : Input) (hh : e.headCpuStateIndex < 1000)
        (s' : CpuState) (g' : Shared),
      (e.paused && !e.doAdvanceOneClockCycle) = false →
      e.currentCpuStateIndex = e.headCpuStateIndex →
      e.mem.readWord (e.cpuStates ⟨e.headCpuStateIndex, hh⟩).pc ≠ 0 →
      (e.cpuStates ⟨e.headCpuStateIndex, hh⟩).processOpcode q inp e.toShared
        (e.mem.readWord (e.cpuStates ⟨e.headCpuStateIndex, hh⟩).pc) = some (false, s', g') →
      ∃ e', e.executeClockCycle q inp = some e' ∧
        e'.headCpuStateIndex = e.headCpuStateIndex ∧
        e'.totalCpuCycles = (e.totalCpuCycles + 1) % 2 ^ 64) ∧
    (freshEngine selfJump).totalCpuCycles = 0 ∧
    (∀ n, n < 2 ^ 64 →
      ∃ e, (freshEngine selfJump).runCycles noQuirks (List.replicate n noInput) = some e ∧
        e.headCpuStateIndex = 0 ∧ e.totalCpuCycles = n) ∧
    ∃ e, (freshEngine selfJump).executeClockCycle noQuirks noInput = some e ∧
      e.headCpuStateIndex = 0 ∧ e.totalCpuCycles = 1 := by
  refine ⟨?_, rfl, ?_, ?_⟩
  · intro e q inp hh s' g' hf hlive hw hp
    obtain ⟨e', h1, _, _, _, h5, _, h7, _⟩ :=
      executeClockCycle_live e q inp hf hlive hh hw false s' g' hp
    exact ⟨e', h1, by simpa using h7, h5⟩
  · intro n hn
    obtain ⟨e, h1, _, h3, _, h5, _⟩ := selfJump_run n
    exact ⟨e, h1, h3, h5 hn⟩
  · exact ⟨_, rfl, rfl, rfl⟩

/-! ## The contents of the memory -/

theorem readByte_writeSprite (m : Memory) (addr : Nat) (sprite : List Nat) (a : Nat)
    (h : a < addr ∨ addr + 5 ≤ a) : (m.writeSprite addr sprite).readByte a = m.readByte a := by
  unfold Memory.writeSprite
  have c1 : (addr : Int) + 1 = ((addr + 1 : Nat) : Int) := by push_cast; rfl
  have c2 : (addr : Int) + 2 = ((addr + 2 : Nat) : Int) := by push_cast; rfl
  have c3 : (addr : Int) + 3 = ((addr + 3 : Nat) : Int) := by push_cast; rfl
  have c4 : (addr : Int) + 4 = ((addr + 4 : Nat) : Int) := by push_cast; rfl
  simp only [c1, c2, c3, c4, readByte_writeByte]
  rw [if_neg (by omega), if_neg (by omega), if_neg (by omega), if_neg (by omega),
    if_neg (by omega)]

theorem readByte_writeSprites_fold (l : List Nat) (hl : ∀ i ∈ l, i < 16) (a : Nat)
    (ha : 0x50 ≤ a) :
    ∀ m : Memory, (l.foldl
      (fun (m : Memory) i => m.writeSprite ((0x0 + i * 5) % 65536) (sprites.getD i [])) m).readByte a
        = m.readByte a := by
  induction l with
  | nil => intro m; rfl
  | cons i rest ih =>
    intro m
    have hi : i < 16 := hl i (List.mem_cons_self _ _)
    have hmod : (0x0 + i * 5) % 65536 = i * 5 := by omega
    rw [List.foldl_cons, ih (fun j hj => hl j (List.mem_cons_of_mem _ hj)), hmod,
      readByte_writeSprite _ _ _ _ (by omega)]

theorem readByte_loadDefaultProgram (m : Memory) (a : Nat) (ha : a < 0x200 ∨ 0x200 + 210 ≤ a) :
    m.loadDefaultProgram.readByte a = m.readByte a := by
  unfold Memory.readByte Memory.loadDefaultProgram maxBufferSize
  by_cases h : a ≥ 4096
  · rw [dif_pos h, dif_pos h]
  · rw [dif_neg h, dif_neg h]
    have hlen : defaultProgram.length = 210 := rfl
    simp only [hlen]
    rw [if_neg (by omega)]

theorem initialize_low (m : Memory) (a : Nat) (ha : a < 0x50) :
    ( Memory.initialize m).readByte a = (sprites.getD (a / 5) []).getD (a % 5) 0 := by
  interval_cases a <;> rfl

theorem initialize_gap (m : Memory) (a : Nat) (h1 : 0x50 ≤ a) (h2 : a < 0x200) :
    ( Memory.initialize m).readByte a = 0 := by
  have h : ( Memory.initialize m).readByte a = m.zeroMemory.writeSprites.loadDefaultProgram.readByte a := rfl
  rw [h, readByte_loadDefaultProgram _ _ (Or.inl h2)]
  unfold Memory.writeSprites
  rw [readByte_writeSprites_fold _ (fun i hi => List.mem_range.mp hi) a h1]
  unfold Memory.readByte Memory.zeroMemory maxBufferSize
  rw [dif_neg (by omega)]

theorem originalBuffer_writeBytes (writes : List (Int × Nat)) :
    ∀ m : Memory, (m.writeBytes writes).originalBuffer = m.originalBuffer := by
  induction writes with
  | nil => intro m; rfl
  | cons w rest ih =>
    intro m
    show ((m.writeByte w.1 w.2).writeBytes rest).originalBuffer = _
    rw [ih, originalBuffer_writeByte]

/-- After any sequence of `writeByte` calls, `reset` gives back a memory whose
    buffer was equal to its pristine copy. -/
theorem reset_writeBytes (m : Memory) (h : m.originalBuffer = m.buffer)
    (writes : List (Int × Nat)) : (m.writeBytes writes).reset = m := by
  unfold Memory.reset
  rw [originalBuffer_writeBytes]
  rcases m with ⟨b, o⟩
  simp only at h
  subst h
  rfl

/-- **C25** (font sprites). After `c8::mem::initialize`, whatever the memory held
    before, `getFontSpriteAddress d = 5 * d` for every digit `d` in 0..15 and the
    five bytes at the addresses `5 * d .. 5 * d + 4` are the rows of `sprites[d]`;
    each byte below `0x50` belongs to the sprite `a / 5` as its row `a mod 5`, so
    the sixteen sprites fill `0x000..0x04F` without overlap; the bytes
    `0x050..0x1FF` are 0. After any sequence of `writeByte` calls, `reset` gives
    back the memory as `c8::mem::initialize` left it, so all of this holds after
    every later reset. -/
theorem C25_font_sprites (m : Memory) :
    (∀ d, d < 16 → getFontSpriteAddress d = 5 * d) ∧
    (∀ d k, d < 16 → k < 5 →
      ( Memory.initialize m).readByte (getFontSpriteAddress d + k) =
        (sprites.getD d []).getD k 0) ∧
    (∀ a, a < 0x50 →
      ( Memory.initialize m).readByte a = (sprites.getD (a / 5) []).getD (a % 5) 0) ∧
    (∀ a, 0x50 ≤ a → a < 0x200 → ( Memory.initialize m).readByte a = 0) ∧
    (List.range 5).map (fun k => ( Memory.initialize m).readByte (getFontSpriteAddress 0xA + k)) =
      [0xF0, 0x90, 0xF0, 0x90, 0x90] ∧
    (∀ writes : List (Int × Nat),
      (( Memory.initialize m).writeBytes writes).reset = Memory.initialize m) := by
  have haddr : ∀ d, d < 16 → getFontSpriteAddress d = 5 * d := by
    intro d hd
    unfold getFontSpriteAddress
    omega
  refine ⟨haddr, ?_, initialize_low m, initialize_gap m, rfl, ?_⟩
  · intro d k hd hk
    rw [haddr d hd, initialize_low m (5 * d + k) (by omega)]
    have e1 : (5 * d + k) / 5 = d := by omega
    have e2 : (5 * d + k) % 5 = k := by omega
    rw [e1, e2]
  · intro writes
    exact reset_writeBytes _ rfl writes

/-- **C26** (program load and memory reset). `loadProgram` with a file of at most
    3584 bytes ends; afterwards `memory[0x200 + i]` is byte `i` of the file for
    every `i`, every byte below `0x200` and above the program is unchanged, and
    the pristine copy equals the buffer. After any later sequence of `writeByte`
    calls, `reset` gives back the memory as it was right after the load, all 4096
    bytes of it. -/
theorem C26_loadProgram_and_reset (m : Memory) (file : List Nat) (hlen : file.length ≤ 3584) :
    ∃ m', m.loadProgram file = some m' ∧
      (∀ i, i < file.length → m'.readByte (0x200 + i) = file.getD i 0) ∧
      (∀ a, a < 0x200 ∨ 0x200 + file.length ≤ a → m'.readByte a = m.readByte a) ∧
      m'.originalBuffer = m'.buffer ∧
      ∀ writes : List (Int × Nat),
        (m'.writeBytes writes).reset = m' ∧
        ∀ a : Fin 4096, (m'.writeBytes writes).reset.buffer a = m'.buffer a := by
  have hload : m.loadProgram file = some
      { buffer := fun (a : Fin 4096) => if 0x200 ≤ a.val ∧ a.val < 0x200 + file.length then file.getD (a.val - 0x200) 0 else m.buffer a, originalBuffer := fun (a : Fin 4096) => if 0x200 ≤ a.val ∧ a.val < 0x200 + file.length then file.getD (a.val - 0x200) 0 else m.buffer a } := by
    unfold Memory.loadProgram
    rw [if_neg (by omega)]
  refine ⟨_, hload, ?_, ?_, rfl, ?_⟩
  · intro i hi
    unfold Memory.readByte maxBufferSize
    rw [dif_neg (by omega)]
    simp only
    rw [if_pos (by omega), Nat.add_sub_cancel_left]
  · intro a ha
    unfold Memory.readByte maxBufferSize
    by_cases h : a ≥ 4096
    · rw [dif_pos h, dif_pos h]
    · rw [dif_neg h, dif_neg h]
      simp only
      rw [if_neg (by omega)]
  · intro writes
    have h := reset_writeBytes _ (show ({ buffer := fun (a : Fin 4096) => if 0x200 ≤ a.val ∧ a.val < 0x200 + file.length then file.getD (a.val - 0x200) 0 else m.buffer a, originalBuffer := fun (a : Fin 4096) => if 0x200 ≤ a.val ∧ a.val < 0x200 + file.length then file.getD (a.val - 0x200) 0 else m.buffer a } : Memory).originalBuffer = _ from rfl) writes
    refine ⟨h, ?_⟩
    intro a
    rw [h]

/-- Instance of C26: the two bytes `60 05` loaded into an empty memory, then a
    write at `0x200` and a reset. -/
theorem C26_loadProgram_and_reset_witness :
    ([0x60, 0x05] : List Nat).length ≤ 3584 ∧
    ∃ m', (programMemory []).loadProgram [0x60, 0x05] = some m' ∧
      m'.readByte 0x200 = 0x60 ∧ m'.readByte 0x201 = 0x05 ∧ m'.readByte 0x202 = 0 ∧
      ((m'.writeByte 0x200 0xFF).readByte 0x200 = 0xFF) ∧
      (m'.writeBytes [(0x200, 0xFF)]).reset = m' := by
  obtain ⟨m', h1, h2, h3, _, h5⟩ :=
    C26_loadProgram_and_reset (programMemory []) [0x60, 0x05] (by decide)
  refine ⟨by decide, m', h1, h2 0 (by decide), h2 1 (by decide), ?_, ?_, (h5 _).1⟩
  · rw [h3 0x202 (Or.inr (by decide))]
    rfl
  · exact (readByte_writeByte m' 0x200 0xFF 0x200).trans (if_pos ⟨rfl, by norm_num⟩)

/-! ## The program counter -/

/-- What an instruction that reports an update does to `pc`, started below 4096:
    `JP` and `CALL` set it to `nnn`, `JP V0` to `nnn + v[0]`, `RET` to the popped
    address plus 2 (both as 16 bits), every other instruction adds 2 or 4. -/
theorem processOpcode_pc (s : CpuState) (q : Quirks) (inp : Input) (g : Shared) (w : Nat)
    (s' : CpuState) (g' : Shared) (hpc : s.pc < 4096)
    (h : s.processOpcode q inp g w = some (true, s', g')) :
    (decode w = Opcode.JP_Addr ∨ decode w = Opcode.CALL_Addr → s'.pc = getOpcodeNNN w) ∧
    (decode w = Opcode.JP_V0_Addr → s'.pc = (getOpcodeNNN w + s.v 0) % 65536) ∧
    (decode w = Opcode.RET → ∃ a rest, s.stack = a :: rest ∧ s'.pc = (a + 2) % 65536) ∧
    (decode w ≠ Opcode.JP_Addr → decode w ≠ Opcode.CALL_Addr →
      decode w ≠ Opcode.JP_V0_Addr → decode w ≠ Opcode.RET →
      s'.pc = s.pc + 2 ∨ s'.pc = s.pc + 4) := by
  have e2 : (s.pc + 2) % 65536 = s.pc + 2 := by omega
  have e4 : (s.pc + 2 + 2) % 65536 = s.pc + 4 := by omega
  unfold CpuState.processOpcode at h
  simp only at h
  split at h
  all_goals rename_i heq
  all_goals simp only [heq, reduceCtorEq, false_or, or_false, false_implies, true_implies,
    ne_eq, not_true_eq_false, not_false_eq_true, implies_true, true_and, and_true, or_self]
  all_goals
    try
      (simp only [CpuState.SE_Vx_Byte,
        CpuState.SNE_Vx_Byte, CpuState.SE_Vx_Vy, CpuState.LD_Vx_Byte, CpuState.ADD_Vx_Byte,
        CpuState.LD_Vx_Vy, CpuState.OR_Vx_Vy, CpuState.AND_Vx_Vy, CpuState.XOR_Vx_Vy,
        CpuState.ADD_Vx_Vy, CpuState.SUB_Vx_Vy, CpuState.SHR_Vx_Vy, CpuState.SUBN_Vx_Vy,
        CpuState.SHL_Vx_Vy, CpuState.SNE_Vx_Vy,
        CpuState.RND_Vx_Byte, CpuState.SKP_Vx, CpuState.SKNP_Vx, CpuState.LD_Vx_DT,
        CpuState.LD_DT_Vx, CpuState.LD_ST_Vx, CpuState.ADD_I_Vx,
        CpuState.LD_F_Vx, CpuState.LD_B_Vx] at h
       split at h
       all_goals simp only [Option.some.injEq, Prod.mk.injEq, Bool.false_eq_true, false_and,
         true_and] at h
       all_goals obtain ⟨rfl, -⟩ := h
       all_goals try dsimp only
       all_goals try split_ifs
       all_goals try dsimp only
       all_goals omega)
  · simp only [CpuState.CLS, Option.some.injEq, Prod.mk.injEq, true_and] at h
    obtain ⟨rfl, -⟩ := h
    dsimp only
    omega
  · unfold CpuState.RET CpuState.popFromStack at h
    cases hst : s.stack with
    | nil => simp [hst] at h
    | cons a rest =>
      simp only [hst, Option.some_bind, Option.some.injEq, Prod.mk.injEq, true_and] at h
      obtain ⟨rfl, -⟩ := h
      exact ⟨a, rest, rfl, rfl⟩
  · unfold CpuState.JP_Addr at h
    split_ifs at h
    · simp at h
    · simp only [Option.some.injEq, Prod.mk.injEq, true_and] at h
      obtain ⟨rfl, -⟩ := h
      rfl
  · simp only [CpuState.CALL_Addr, Option.some.injEq, Prod.mk.injEq, true_and] at h
    obtain ⟨rfl, -⟩ := h
    rfl
  · simp only [CpuState.LD_I_Addr, Option.some.injEq, Prod.mk.injEq, true_and] at h
    obtain ⟨rfl, -⟩ := h
    dsimp only
    omega
  · simp only [CpuState.JP_V0_Addr, Option.some.injEq, Prod.mk.injEq, true_and] at h
    obtain ⟨rfl, -⟩ := h
    rfl
  · unfold CpuState.DRW_Vx_Vy_Nibble at h
    split at h
    · split at h
      · simp at h
      · generalize List.foldlM (s.DRW_row g.mem _ _) _ _ = r at h
        cases r with
        | none => simp at h
        | some r =>
          simp only [Option.bind_eq_bind, Option.some_bind, Option.pure_def, Option.some.injEq,
            Prod.mk.injEq, true_and] at h
          obtain ⟨rfl, -⟩ := h
          dsimp only
          omega
    · simp at h
  · unfold CpuState.LD_Vx_K at h
    split at h
    · simp at h
    · by_cases hk : g.keyboardPressedValue = 0xFF
      · simp [hk] at h
      · simp only [hk, if_false, Option.some.injEq, Prod.mk.injEq, true_and] at h
        obtain ⟨rfl, -⟩ := h
        dsimp only
        omega
  · unfold CpuState.LD_IAddr_Vx at h
    simp only [Option.bind_eq_bind, Option.pure_def] at h
    generalize List.foldlM (m := Option) _ g.mem _ = r at h
    cases r with
    | none => simp at h
    | some r =>
      simp only [Option.some_bind, Option.some.injEq, Prod.mk.injEq, true_and] at h
      obtain ⟨rfl, -⟩ := h
      dsimp only
      split_ifs <;> (try dsimp only) <;> omega
  · have hx : getOpcodeX w + 1 ≤ 16 := by
      rw [getOpcodeX_eq]
      omega
    unfold CpuState.LD_Vx_IAddr at h
    rw [LD_Vx_IAddr_loop s g.mem _ hx] at h
    simp only [Option.bind_eq_bind, Option.pure_def, Option.some_bind, Option.some.injEq,
      Prod.mk.injEq, true_and] at h
    obtain ⟨rfl, -⟩ := h
    dsimp only
    split_ifs <;> (try dsimp only) <;> omega
  · simp at h

/-- **C29** (what holds of `pc`). Take an engine in Live mode with current state
    `s` and one `executeClockCycle` with a result. If the cycle commits nothing
    (`head` stays), the current state is still `s`; this is the case whenever
    `s.pc ≥ 4096`, where the fetch returns 0. If the cycle commits a state `s'`,
    then `s.pc < 4096` and, `w` being the word fetched at `s.pc`: `JP nnn` and
    `CALL nnn` leave `s'.pc = nnn < 4096`; `JP V0, nnn` leaves
    `(nnn + v[0]) mod 65536`; `RET` leaves the popped address plus 2, mod 65536;
    every other instruction leaves `s.pc + 2` or `s.pc + 4`, so `pc` keeps its
    parity and stays below 4100. -/
theorem C29_pc_step (e e' : Engine) (q : Quirks) (inp : Input) (s : CpuState)
    (hlive : e.currentCpuStateIndex = e.headCpuStateIndex)
    (hs : e.getCurrentCpuState = some s)
    (hex : e.executeClockCycle q inp = some e') :
    ∃ s', e'.getCurrentCpuState = some s' ∧
      (e'.headCpuStateIndex = e.headCpuStateIndex → s' = s) ∧
      (4096 ≤ s.pc → s' = s) ∧
      (e'.headCpuStateIndex ≠ e.headCpuStateIndex →
        s.pc < 4096 ∧
        (decode (e.mem.readWord s.pc) = Opcode.JP_Addr ∨
          decode (e.mem.readWord s.pc) = Opcode.CALL_Addr →
          s'.pc = getOpcodeNNN (e.mem.readWord s.pc) ∧ s'.pc < 4096) ∧
        (decode (e.mem.readWord s.pc) = Opcode.JP_V0_Addr →
          s'.pc = (getOpcodeNNN (e.mem.readWord s.pc) + s.v 0) % 65536) ∧
        (decode (e.mem.readWord s.pc) = Opcode.RET →
          ∃ a rest, s.stack = a :: rest ∧ s'.pc = (a + 2) % 65536) ∧
        (decode (e.mem.readWord s.pc) ≠ Opcode.JP_Addr →
          decode (e.mem.readWord s.pc) ≠ Opcode.CALL_Addr →
          decode (e.mem.readWord s.pc) ≠ Opcode.JP_V0_Addr →
          decode (e.mem.readWord s.pc) ≠ Opcode.RET →
          (s'.pc = s.pc + 2 ∨ s'.pc = s.pc + 4) ∧ s'.pc % 2 = s.pc % 2 ∧ s'.pc < 4100)) := by
  obtain ⟨hc, hslot⟩ := getCurrentCpuState_some e s hs
  have hh : e.headCpuStateIndex < 1000 := hlive ▸ hc
  have hslot' : e.cpuStates ⟨e.headCpuStateIndex, hh⟩ = s := by
    rw [← hslot]; congr 2; exact hlive.symm
  by_cases hmove : e'.headCpuStateIndex = e.headCpuStateIndex
  · -- nothing committed
    have hsame : e'.getCurrentCpuState = some s := by
      cases hf : (e.paused && !e.doAdvanceOneClockCycle)
      swap
      · rw [executeClockCycle_frozen e q inp hf] at hex
        cases hex
        exact hs
      by_cases hw : e.mem.readWord (e.cpuStates ⟨e.headCpuStateIndex, hh⟩).pc = 0
      · obtain ⟨e2, h2, _, _, _, _, k6, _, k8⟩ :=
          executeClockCycle_zero_word e q inp hf hlive hh hw
        rw [h2] at hex
        cases hex
        unfold Engine.getCurrentCpuState
        rw [k8, cpuStateAt_lt _ _ hc, k6, hslot]
      cases hp : (e.cpuStates ⟨e.headCpuStateIndex, hh⟩).processOpcode q inp e.toShared
          (e.mem.readWord (e.cpuStates ⟨e.headCpuStateIndex, hh⟩).pc) with
      | none =>
        rw [executeClockCycle_undefined e q inp hf hlive hh hw hp] at hex
        cases hex
      | some r =>
        obtain ⟨upd, s2, g2⟩ := r
        obtain ⟨e2, h2, _, _, _, _, k6, k7, k8⟩ :=
          executeClockCycle_live e q inp hf hlive hh hw upd s2 g2 hp
        rw [h2] at hex
        cases hex
        unfold Engine.getCurrentCpuState
        rw [k8, hmove, cpuStateAt_lt _ _ hh, k6, Function.update_noteq, hslot']
        intro heq
        have := congrArg Fin.val heq
        simp only at this
        omega
    refine ⟨s, hsame, fun _ => rfl, fun _ => rfl, fun h => absurd hmove h⟩
  · obtain ⟨_, _, hh2, hw, s', g', hp, _, _, _, _, k5, k6, k7⟩ :=
      executeClockCycle_head_moved e e' q inp hex hmove
    rw [hslot'] at hw hp
    have hpc : s.pc < 4096 := readWord_lt e.mem s.pc hw
    obtain ⟨p1, p2, p3, p4⟩ := processOpcode_pc s q inp e.toShared _ s' g' hpc hp
    have hmod : (e.headCpuStateIndex + 1) % 1000 < 1000 := Nat.mod_lt _ (by norm_num)
    refine ⟨s', ?_, fun h => absurd h hmove, fun h => absurd hpc (by omega), fun _ => ?_⟩
    · unfold Engine.getCurrentCpuState
      rw [k7, k6, cpuStateAt_lt _ _ hmod, k5, Function.update_same]
    · refine ⟨hpc, ?_, p2, p3, ?_⟩
      · intro h
        have h1 := p1 h
        refine ⟨h1, ?_⟩
        rw [h1, getOpcodeNNN_eq]
        omega
      · intro a b c d
        have h1 := p4 a b c d
        exact ⟨h1, by omega, by omega⟩

/-- Instance of C29: the first cycle of `twoLoads` starts at `pc = 0x200`, commits
    a state, and the committed state has `pc = 0x202`. -/
theorem C29_pc_step_witness :
    ((freshEngine twoLoads).currentCpuStateIndex = (freshEngine twoLoads).headCpuStateIndex ∧
      (freshEngine twoLoads).getCurrentCpuState = some ((freshEngine twoLoads).cpuStates 0) ∧
      (freshEngine twoLoads).executeClockCycle noQuirks noInput = some (twoLoadsTrace 1)) ∧
    ∃ s', (twoLoadsTrace 1).getCurrentCpuState = some s' ∧ s'.pc = 0x202 := by
  obtain ⟨s', h1, _, _, h4⟩ :=
    C29_pc_step (freshEngine twoLoads) (twoLoadsTrace 1) noQuirks noInput
      ((freshEngine twoLoads).cpuStates 0) rfl rfl rfl
  obtain ⟨_, _, _, _, h5⟩ := h4 (by decide)
  obtain ⟨_, _, _⟩ := h5 (by decide) (by decide) (by decide) (by decide)
  have h2 : some s' = some ((twoLoadsTrace 1).cpuStates 1) := h1.symm.trans rfl
  exact ⟨⟨rfl, rfl, rfl⟩, s', h1, by rw [Option.some.inj h2]; rfl⟩

/-- **C29** as claimed (`pc` is even and below 4096 in every reachable state) does
    not hold. From a fresh engine, the program `JP 0x201` (`0x1201`) commits a
    state with the odd `pc = 0x201` in its first cycle; and with `JP 0xFFE` at
    `0x200` and `LD V0, 5` in the last two bytes of the memory, the second cycle
    commits a state with `pc = 4096`. -/
theorem C29_pc_odd_or_past_the_end :
    (∃ e' s', (freshEngine [0x12, 0x01]).executeClockCycle noQuirks noInput = some e' ∧
      e'.headCpuStateIndex = 1 ∧ e'.getCurrentCpuState = some s' ∧ s'.pc = 0x201 ∧
      s'.pc % 2 = 1) ∧
    (∃ e' s', (engineWith lastWordMemory).runCycles noQuirks [noInput, noInput] = some e' ∧
      e'.headCpuStateIndex = 2 ∧ e'.getCurrentCpuState = some s' ∧ s'.pc = 4096) :=
  ⟨⟨_, _, rfl, rfl, rfl, rfl, rfl⟩, ⟨_, _, rfl, rfl, rfl, rfl⟩⟩

/-! ## Subroutine call and return -/

/-- **C39** (`CALL` / `RET` round trip). For every state with `pc = p` and `sp`
    below 255, `CALL nnn` reports an update, pushes `p`, increments `sp` and sets
    `pc = nnn`; `RET` executed on the result reports an update and gives back the
    state before the `CALL` with `pc = p + 2`: `sp`, the call stack, all registers,
    `ir`, the timers and the display are those before the pair (the 16-bit `pc` is
    assumed not to be within 2 of its maximum). The last part states the same for
    the two words dispatched by `processOpcode`, which returns the memory and the
    keyboard variables as they were. -/
theorem C39_CALL_RET_round_trip (s : CpuState) (nnn : Nat) (hsp : s.sp < 255)
    (hpc : s.pc + 2 < 65536) :
    s.CALL_Addr nnn =
      (true, { s with pc := nnn, sp := s.sp + 1, stack := s.pc :: s.stack }) ∧
    (s.CALL_Addr nnn).2.RET = some (true, { s with pc := s.pc + 2 }) ∧
    ∀ (q : Quirks) (inp : Input) (g : Shared) (w : Nat), decode w = Opcode.CALL_Addr →
      getOpcodeNNN w = nnn →
      (s.processOpcode q inp g w).bind (fun r => r.2.1.processOpcode q inp r.2.2 0x00EE) =
        some (true, { s with pc := s.pc + 2 }, g) := by
  have e1 : (s.sp + 1) % 256 = s.sp + 1 := Nat.mod_eq_of_lt (by omega)
  have e2 : (s.sp + 1 + 255) % 256 = s.sp := by omega
  have e3 : (s.pc + 2) % 65536 = s.pc + 2 := Nat.mod_eq_of_lt hpc
  have hcall : s.CALL_Addr nnn =
      (true, { s with pc := nnn, sp := s.sp + 1, stack := s.pc :: s.stack }) := by
    simp only [CpuState.CALL_Addr, CpuState.pushToStack, e1]
  have hret : (s.CALL_Addr nnn).2.RET = some (true, { s with pc := s.pc + 2 }) := by
    rw [hcall]
    simp only [CpuState.RET, CpuState.popFromStack, e2, e3]
  refine ⟨hcall, hret, ?_⟩
  intro q inp g w hw hn
  have h1 : s.processOpcode q inp g w = some ((s.CALL_Addr nnn).1, (s.CALL_Addr nnn).2, g) := by
    unfold CpuState.processOpcode
    simp only [hw, hn]
  have h2 : ∀ t : CpuState, t.processOpcode q inp g 0x00EE =
      t.RET.bind (fun r => some (r.1, r.2, g)) := fun t => rfl
  rw [h1, Option.some_bind, h2, hret]
  rfl

/-- Instance of C39: `CALL 0x300` from `exampleState` (`pc = 0x200`), then `RET`. -/
theorem C39_CALL_RET_round_trip_witness :
    (exampleState.sp < 255 ∧ exampleState.pc + 2 < 65536) ∧
    (exampleState.CALL_Addr 0x300).2.pc = 0x300 ∧
    (exampleState.CALL_Addr 0x300).2.stack = [0x200] ∧
    (exampleState.CALL_Addr 0x300).2.RET = some (true, { exampleState with pc := 0x202 }) :=
  ⟨⟨by decide, by decide⟩, rfl, rfl,
    (C39_CALL_RET_round_trip exampleState 0x300 (by decide) (by decide)).2.1⟩

/-! ## The key-skip instructions -/

/-- **C40** (key-skip instructions with no key pressed) fails at `v[x] = 0xFF`.
    `getCurrentKeyboardValue` answers `0xFF` when no key is pressed, and `SKP`
    and `SKNP` compare `v[x]` with that answer: the first part states, for every
    state and every `x`, that with no key pressed `SKP Vx` advances `pc` by 2 and
    `SKNP Vx` by 4 when `v[x] ≠ 0xFF`, and that `SKP Vx` advances `pc` by 4 and
    `SKNP Vx` by 2 when `v[x] = 0xFF`. In `fullRegisters` (`v[0] = 0xFF`,
    `pc = 0x200`), with no key pressed, `SKP V0` leaves `pc = 0x204` and `SKNP V0`
    leaves `pc = 0x202`. -/
theorem C40_skip_on_the_no_key_value :
    (∀ (s : CpuState) (inp : Input) (x : Fin 16), inp.pressedKeys = [] → s.pc + 4 < 65536 →
      (s.v x ≠ 0xFF → (s.SKP_Vx inp x).2.pc = s.pc + 2 ∧ (s.SKNP_Vx inp x).2.pc = s.pc + 4) ∧
      (s.v x = 0xFF → (s.SKP_Vx inp x).2.pc = s.pc + 4 ∧ (s.SKNP_Vx inp x).2.pc = s.pc + 2)) ∧
    (∀ (s : CpuState) (inp : Input) (x : Fin 16) (key : Nat) (rest : List Nat),
      inp.pressedKeys = key :: rest → s.pc + 4 < 65536 →
      ((s.SKP_Vx inp x).2.pc = s.pc + 4 ↔ s.v x = key) ∧
      ((s.SKNP_Vx inp x).2.pc = s.pc + 4 ↔ s.v x ≠ key)) ∧
    noInput.pressedKeys = [] ∧ fullRegisters.v 0 = 0xFF ∧ fullRegisters.pc = 0x200 ∧
    fullRegisters.getCurrentKeyboardValue noInput = 0xFF ∧
    (fullRegisters.SKP_Vx noInput 0).2.pc = 0x204 ∧
    (fullRegisters.SKNP_Vx noInput 0).2.pc = 0x202 := by
  refine ⟨?_, ?_, rfl, rfl, rfl, rfl, rfl, rfl⟩
  · intro s inp x hk hpc
    have e2 : (s.pc + 2) % 65536 = s.pc + 2 := Nat.mod_eq_of_lt (by omega)
    have e4 : (s.pc + 2 + 2) % 65536 = s.pc + 4 := by omega
    simp only [CpuState.SKP_Vx, CpuState.SKNP_Vx, getRegister_fin,
      CpuState.getCurrentKeyboardValue, hk]
    constructor
    · intro hne
      rw [if_neg hne, if_pos hne]
      simp only [e2, e4, and_self]
    · intro heq
      rw [if_pos heq, if_neg (by simp [heq])]
      simp only [e2, e4, and_self]
  · intro s inp x key rest hk hpc
    have e2 : (s.pc + 2) % 65536 = s.pc + 2 := Nat.mod_eq_of_lt (by omega)
    have e4 : (s.pc + 2 + 2) % 65536 = s.pc + 4 := by omega
    simp only [CpuState.SKP_Vx, CpuState.SKNP_Vx, getRegister_fin,
      CpuState.getCurrentKeyboardValue, hk]
    constructor
    · by_cases h : s.v x = key
      · rw [if_pos h]
        simp only [e2, e4, h]
      · rw [if_neg h]
        simp only [e2, h, iff_false]
        omega
    · by_cases h : s.v x = key
      · rw [if_neg (by simp [h])]
        simp only [e2, h, ne_eq, not_true_eq_false, iff_false]
        omega
      · rw [if_pos h]
        simp only [e2, e4, ne_eq, h, not_false_eq_true]

/-! ## The flag register as destination -/

/-- **C31** (flag register when the destination is `v[15]`) fails. The five
    instructions write the flag to `v[15]` first and the result to `v[x]`
    afterwards, so with `x = 15` the result replaces the flag: the first part
    states, for every state and every `y`, that after `ADD`, `SUB` and `SUBN`
    `v[15]` holds the truncated sum or difference, and that `SHR` and `SHL`, which
    read `v[x]` again after the flag was written, shift the flag itself: `SHR`
    leaves 0 and `SHL` leaves 2 or 0. In `exampleState` (`v[15] = 2`,
    `v[14] = 241`): `ADD VF, VE` leaves 243 (the carry is 0), `SUB VF, VE` leaves
    17 (the flag is 0), `SUBN VF, VE` leaves 239 (the flag is 1). In
    `fullRegisters` (`v[15] = 0xFF`): `SHR VF` leaves 0 (the bit shifted out is 1)
    and `SHL VF` leaves 2 (the bit shifted out is 1). -/
theorem C31_result_replaces_flag :
    (∀ (s : CpuState) (q : Quirks) (y : Fin 16),
      (s.ADD_Vx_Vy (15 : Fin 16) y).2.v 15 = (s.v 15 + s.v y) % 256 ∧
      (s.SUB_Vx_Vy (15 : Fin 16) y).2.v 15 = (((s.v 15 : Int) - (s.v y : Int)) % 256).toNat ∧
      (s.SUBN_Vx_Vy (15 : Fin 16) y).2.v 15 = (((s.v y : Int) - (s.v 15 : Int)) % 256).toNat ∧
      (s.SHR_Vx_Vy q (15 : Fin 16) y).2.v 15 = 0 ∧
      (s.SHL_Vx_Vy q (15 : Fin 16) y).2.v 15 =
        (if (if q.shiftWithVy then s.v y else s.v 15) &&& 0b10000000 ≥ 1 then 2 else 0)) ∧
    (exampleState.v 15 = 2 ∧ exampleState.v 14 = 241) ∧
    ((exampleState.ADD_Vx_Vy (15 : Fin 16) (14 : Fin 16)).2.v 15 = 243 ∧
      ¬ (exampleState.v 15 + exampleState.v 14 > 255)) ∧
    ((exampleState.SUB_Vx_Vy (15 : Fin 16) (14 : Fin 16)).2.v 15 = 17 ∧
      ¬ (exampleState.v 15 > exampleState.v 14)) ∧
    ((exampleState.SUBN_Vx_Vy (15 : Fin 16) (14 : Fin 16)).2.v 15 = 239 ∧
      exampleState.v 14 > exampleState.v 15) ∧
    fullRegisters.v 15 = 0xFF ∧
    ((fullRegisters.SHR_Vx_Vy noQuirks (15 : Fin 16) (14 : Fin 16)).2.v 15 = 0 ∧
      fullRegisters.v 15 % 2 = 1) ∧
    ((fullRegisters.SHL_Vx_Vy noQuirks (15 : Fin 16) (14 : Fin 16)).2.v 15 = 2 ∧
      fullRegisters.v 15 / 128 = 1) := by
  refine ⟨?_, ⟨rfl, rfl⟩, ⟨rfl, by decide⟩, ⟨rfl, by decide⟩, ⟨rfl, by decide⟩, rfl,
    ⟨rfl, rfl⟩, ⟨rfl, rfl⟩⟩
  intro s q y
  simp only [CpuState.ADD_Vx_Vy, CpuState.SUB_Vx_Vy, CpuState.SUBN_Vx_Vy, CpuState.SHR_Vx_Vy,
    CpuState.SHL_Vx_Vy, getRegister_fin, Function.update_same, true_and]
  refine ⟨?_, ?_⟩
  · cases q.shiftWithVy <;> simp only [Bool.false_eq_true, if_false, if_true] <;>
      split_ifs <;> rfl
  · cases q.shiftWithVy <;> simp only [Bool.false_eq_true, if_false, if_true,
      Function.update_same] <;> split_ifs <;> rfl

/-! ## Instructions that touch registers only -/

/-- **C36** (register-only instructions). For every state and every word that
    decodes to `LD Vx, byte`, `ADD Vx, byte` or one of `LD`, `OR`, `AND`, `XOR`,
    `ADD`, `SUB`, `SHR`, `SUBN`, `SHL Vx, Vy`, the dispatch reports an update and
    returns the memory and the keyboard variables as they were; `pc` advances by 2
    (the 16-bit `pc` is assumed not to be within 2 of its maximum); `ir`, `dt`,
    `st`, `sp`, the call stack and the display are unchanged; a register other
    than `v[x]` is unchanged, except `v[15]` after `ADD`, `SUB`, `SHR`, `SUBN`,
    `SHL Vx, Vy`; and `ADD Vx, byte` leaves `(Vx + kk) mod 256` in `v[x]`. -/
theorem C36_register_only (s : CpuState) (q : Quirks) (inp : Input) (g : Shared) (w : Nat)
    (hw : decode w ∈ [Opcode.LD_Vx_Byte, Opcode.ADD_Vx_Byte, Opcode.LD_Vx_Vy, Opcode.OR_Vx_Vy,
      Opcode.AND_Vx_Vy, Opcode.XOR_Vx_Vy, Opcode.ADD_Vx_Vy, Opcode.SUB_Vx_Vy, Opcode.SHR_Vx_Vy,
      Opcode.SUBN_Vx_Vy, Opcode.SHL_Vx_Vy])
    (hpc : s.pc + 2 < 65536) :
    ∃ s', s.processOpcode q inp g w = some (true, s', g) ∧
      s' = { s with v := s'.v, pc := s.pc + 2 } ∧
      (∀ i : Fin 16, i.val ≠ getOpcodeX w →
        (i ≠ 15 ∨ decode w ∈ [Opcode.LD_Vx_Byte, Opcode.ADD_Vx_Byte, Opcode.LD_Vx_Vy,
          Opcode.OR_Vx_Vy, Opcode.AND_Vx_Vy, Opcode.XOR_Vx_Vy]) →
        s'.v i = s.v i) ∧
      (decode w = Opcode.ADD_Vx_Byte → ∀ x : Fin 16, x.val = getOpcodeX w →
        s'.v x = (s.v x + getOpcodeKK w) % 256) := by
  have hx : getOpcodeX w < 16 := by rw [getOpcodeX_eq]; omega
  have hy : getOpcodeY w < 16 := by rw [getOpcodeY_eq]; omega
  have e2 : (s.pc + 2) % 65536 = s.pc + 2 := Nat.mod_eq_of_lt hpc
  have rx := getRegister_lt s (getOpcodeX w) hx
  have ry := getRegister_lt s (getOpcodeY w) hy
  have hne : ∀ i : Fin 16, i.val ≠ getOpcodeX w → i ≠ (⟨getOpcodeX w, hx⟩ : Fin 16) := by
    intro i hi h
    exact hi (congrArg Fin.val h)
  unfold CpuState.processOpcode
  simp only
  split
  all_goals rename_i heq
  all_goals simp only [heq, List.mem_cons, reduceCtorEq, List.mem_singleton, or_false, false_or,
    or_self, List.not_mem_nil] at hw
  all_goals simp only [reduceCtorEq, List.mem_cons, List.mem_singleton, or_false, false_or,
    or_self, or_true, true_or, List.not_mem_nil, false_implies, true_implies, implies_true]
  all_goals simp only [CpuState.LD_Vx_Byte, CpuState.ADD_Vx_Byte,
    CpuState.LD_Vx_Vy, CpuState.OR_Vx_Vy, CpuState.AND_Vx_Vy, CpuState.XOR_Vx_Vy,
    CpuState.ADD_Vx_Vy, CpuState.SUB_Vx_Vy, CpuState.SHR_Vx_Vy, CpuState.SUBN_Vx_Vy,
    CpuState.SHL_Vx_Vy, rx, ry, e2]
  all_goals cases q.shiftWithVy
  all_goals try simp only [Bool.false_eq_true, if_false, if_true, e2]
  all_goals refine ⟨_, rfl, rfl, ?_, ?_⟩
  all_goals first
    | (intro i hi hor
       have h1 := hne i hi
       simp only [heq, reduceCtorEq, or_false, or_true, ne_eq] at hor
       first
         | exact Function.update_noteq h1 _ _
         | (dsimp only
            rw [Function.update_noteq h1, Function.update_noteq hor,
              Function.update_noteq h1])
         | (dsimp only
            rw [Function.update_noteq h1, Function.update_noteq hor]))
    | (intro h x hxe
       first
         | (rw [heq] at h
            exact absurd h (by decide))
         | (have hxx : x = (⟨getOpcodeX w, hx⟩ : Fin 16) := Fin.ext hxe
            subst hxx
            exact Function.update_same _ _ _))

/-- Instance of C36: `ADD V1, 0xF0` (`0x71F0`) on `exampleState`, where
    `v[1] = 20`, leaves `v[1] = 4`, `v[15] = 2` as before and `pc = 0x202`. -/
theorem C36_register_only_witness :
    (decode 0x71F0 = Opcode.ADD_Vx_Byte ∧ exampleState.pc + 2 < 65536) ∧
    ∃ s', exampleState.processOpcode noQuirks noInput ⟨exampleMemory, false, 0xFF⟩ 0x71F0 =
        some (true, s', ⟨exampleMemory, false, 0xFF⟩) ∧
      s'.pc = 0x202 ∧ s'.v 1 = 4 ∧ s'.v 15 = 2 ∧ s'.v 2 = 37 := by
  obtain ⟨s', h1, h2, h3, h4⟩ :=
    C36_register_only exampleState noQuirks noInput ⟨exampleMemory, false, 0xFF⟩ 0x71F0
      (by decide) (by decide)
  refine ⟨⟨by decide, by decide⟩, s', h1, ?_, ?_, ?_, ?_⟩
  · exact (congrArg CpuState.pc h2).trans rfl
  · exact h4 (by decide) 1 (by decide)
  · exact h3 15 (by decide) (Or.inr (by decide))
  · exact h3 2 (by decide) (Or.inl (by decide))

/-! ## The columns that `drawByte` touches -/

theorem mapM_option_eq_none {α β : Type} (f : α → Option β) (l : List α) (a : α)
    (ha : a ∈ l) (hf : f a = none) : l.mapM f = none := by
  induction l with
  | nil => cases ha
  | cons b l ih =>
    rw [List.mapM_cons]
    rcases List.mem_cons.mp ha with h | h
    · subst h
      simp only [hf, Option.bind_eq_bind, Option.none_bind, bind]
    · cases hb : f b with
      | none => simp only [Option.bind_eq_bind, Option.none_bind, bind]
      | some c => simp only [ih h, Option.bind_eq_bind, Option.some_bind, Option.none_bind, bind]

theorem drawByte_outside (vga : VgaState) (x y byte : Nat) (h1 : 57 ≤ x) (h2 : x < 64) :
    vga.drawByte x y byte = none := by
  have hg : vga.getPixel (if y ≥ frameBufferHeight then 0 else y) (x + 7) = none := by
    unfold VgaState.getPixel
    rw [dif_neg (by omega)]
  have hm := mapM_option_eq_none
    (fun i => vga.getPixel (if y ≥ frameBufferHeight then 0 else y) (x + i)) (List.range 8) 7
    (by decide) hg
  unfold VgaState.drawByte
  rw [if_neg (by unfold frameBufferWidth; omega)]
  simp only [hm, Option.bind_eq_bind, Option.none_bind]

/-- **C38** (`drawByte` stays inside the grid) fails for `x` in 57..63.
    `drawByte` resets `x` only when `x ≥ 64`, so for `57 ≤ x ≤ 63` the start
    column is `x` itself and the last of the eight columns, `x + 7`, is above 63:
    the access `frameBuffer[y'][x + 7]` is outside the row and `drawByte` has no
    defined result (first part, for every display, row and byte). For `x ≤ 56` and
    for `x ≥ 64` all eight columns are at most 63, the row is at most 31, and
    `drawByte` has a result (second and third part). With `x = 60`, `y = 10` the
    columns are 60..67. -/
theorem C38_drawByte_leaves_the_row :
    (∀ (vga : VgaState) (x y byte : Nat), 57 ≤ x → x < 64 →
      clampColumn x = x ∧ 63 < clampColumn x + 7 ∧
      vga.getPixel (clampRow y) (clampColumn x + 7) = none ∧
      vga.drawByte x y byte = none) ∧
    (∀ (x y : Nat), x ≤ 56 ∨ 64 ≤ x → clampColumn x + 7 ≤ 63 ∧ clampRow y ≤ 31) ∧
    (∀ (vga : VgaState) (x y byte : Nat), x ≤ 56 ∨ 64 ≤ x →
      vga.drawByte x y byte =
        some (vga.rowErases (clampColumn x) (clampRow y) byte,
          vga.xorRow (clampColumn x) (clampRow y) byte)) ∧
    (clampColumn 60 = 60 ∧ clampRow 10 = 10 ∧
      blankState.vgaState.getPixel 10 (60 + 3) = some false ∧
      blankState.vgaState.getPixel 10 (60 + 4) = none ∧
      blankState.vgaState.drawByte 60 10 0xFF = none) := by
  refine ⟨?_, ?_, ?_, ⟨rfl, rfl, rfl, rfl, rfl⟩⟩
  · intro vga x y byte h1 h2
    have hc : clampColumn x = x := by
      unfold clampColumn frameBufferWidth
      rw [if_neg (by omega)]
    refine ⟨hc, by omega, ?_, drawByte_outside vga x y byte h1 h2⟩
    unfold VgaState.getPixel
    rw [dif_neg (by omega)]
  · intro x y hx
    have hy := clampRow_lt y
    refine ⟨?_, by omega⟩
    unfold clampColumn frameBufferWidth
    split_ifs <;> omega
  · intro vga x y byte hx
    apply drawByte_clamped
    unfold clampColumn frameBufferWidth
    split_ifs <;> omega

/-! ## The rows that `DRW` draws into -/

/-- Each pixel after the sprite rows listed in `rows` have been drawn: the pixel
    is XORed with the bit of every sprite row whose display row and columns cover
    it. -/
theorem pixel_drawnRows (s : CpuState) (mem : Memory) (vx vy : Fin 16) (r c : Nat)
    (hr : r < 32) (hc : c < 64) (rows : List Nat) :
    ∀ vga : VgaState,
      (s.drawnRows mem vx vy rows vga).pixel r c =
        rows.foldl
          (fun acc i =>
            if s.spriteRow vy i = r ∧ clampColumn (s.v vx) ≤ c ∧ c < clampColumn (s.v vx) + 8
            then xor acc ((s.spriteByte mem i).testBit (7 - (c - clampColumn (s.v vx))))
            else acc)
          (vga.pixel r c) := by
  induction rows with
  | nil =>
    intro vga
    rfl
  | cons i rows ih =>
    intro vga
    rw [CpuState.drawnRows, ih, List.foldl_cons, pixel_xorRow _ _ _ _ _ _ hr hc]
    congr 1
    by_cases h : s.spriteRow vy i = r
    · simp only [h, true_and]
    · have h' : ¬ r = s.spriteRow vy i := fun e => h e.symm
      simp only [h, h', false_and, if_false]

theorem foldl_keep {α : Type} (l : List Nat) (f : α → Nat → α) (a : α)
    (h : ∀ b, ∀ i ∈ l, f b i = b) : l.foldl f a = a := by
  induction l generalizing a with
  | nil => rfl
  | cons i l ih =>
    rw [List.foldl_cons, h a i (List.mem_cons_self _ _)]
    exact ih a (fun b j hj => h b j (List.mem_cons_of_mem _ hj))

/-- The rows of `DRW`, as the code draws them. For every state, every `n ≥ 1` and
    `Vx ≤ 56` or `Vx ≥ 64`, `DRW` reports an update. The sprite is drawn from
    column `Vx`, or from column 0 when `Vx ≥ 64`. The sprite row `i` is XORed into
    the display row `(Vy + i) mod 256` when that is below 32 and into row 0
    otherwise: the row coordinate is reset for each row on its own. So each pixel
    ends as its old value XORed with the bits of all sprite rows that land on it;
    and with `Vy ≥ 32` and `Vy + n ≤ 256` every sprite row lands on display row 0
    and the rows 1..31 are unchanged. -/
theorem DRW_rows_clamped (s : CpuState) (mem : Memory) (x y : Fin 16) (n : Nat)
    (hn : 1 ≤ n) (hcol : s.v x ≤ 56 ∨ 64 ≤ s.v x) :
    ∃ s', s.DRW_Vx_Vy_Nibble mem x y n = some (true, s') ∧
      (clampColumn (s.v x) = if s.v x < 64 then s.v x else 0) ∧
      (∀ i, s.spriteRow y i = if (s.v y + i) % 256 < 32 then (s.v y + i) % 256 else 0) ∧
      (∀ r c, r < 32 → c < 64 →
        s'.vgaState.pixel r c =
          (List.range n).foldl
            (fun acc i =>
              if s.spriteRow y i = r ∧ clampColumn (s.v x) ≤ c ∧ c < clampColumn (s.v x) + 8
              then xor acc ((s.spriteByte mem i).testBit (7 - (c - clampColumn (s.v x))))
              else acc)
            (s.vgaState.pixel r c)) ∧
      (32 ≤ s.v y → s.v y + n ≤ 256 →
        (∀ i, i < n → s.spriteRow y i = 0) ∧
        ∀ r c, 0 < r → r < 32 → c < 64 → s'.vgaState.pixel r c = s.vgaState.pixel r c) := by
  have hx : clampColumn (s.v x) + 7 < 64 := by
    unfold clampColumn frameBufferWidth
    split_ifs <;> omega
  have hn0 : ¬ n = 0 := by omega
  have h1 : s.DRW_Vx_Vy_Nibble mem x y n = some (true,
      { s with
        vgaState := s.drawnRows mem x y (List.range n) s.vgaState
        v := Function.update s.v 15
          (if s.erasedByRows mem x y (List.range n) s.vgaState then 1 else 0)
        pc := (s.pc + 2) % 65536 }) := by
    unfold CpuState.DRW_Vx_Vy_Nibble
    simp only [getRegister_fin, if_neg hn0, DRW_fold s mem x y hx, Option.bind_eq_bind,
      Option.some_bind, pure, Bool.false_or]
  have hrow : ∀ i, s.spriteRow y i = if (s.v y + i) % 256 < 32 then (s.v y + i) % 256 else 0 := by
    intro i
    unfold CpuState.spriteRow clampRow frameBufferHeight
    split_ifs <;> omega
  have hpix : ∀ r c, r < 32 → c < 64 →
      (s.drawnRows mem x y (List.range n) s.vgaState).pixel r c =
        (List.range n).foldl
          (fun acc i =>
            if s.spriteRow y i = r ∧ clampColumn (s.v x) ≤ c ∧ c < clampColumn (s.v x) + 8
            then xor acc ((s.spriteByte mem i).testBit (7 - (c - clampColumn (s.v x))))
            else acc)
          (s.vgaState.pixel r c) :=
    fun r c hr hc => pixel_drawnRows s mem x y r c hr hc (List.range n) s.vgaState
  refine ⟨_, h1, ?_, hrow, hpix, ?_⟩
  · unfold clampColumn frameBufferWidth
    split_ifs <;> omega
  · intro hy hyn
    have hz : ∀ i, i < n → s.spriteRow y i = 0 := by
      intro i hi
      rw [hrow i, Nat.mod_eq_of_lt (by omega), if_neg (by omega)]
    refine ⟨hz, ?_⟩
    intro r c hr0 hr hc
    show (s.drawnRows mem x y (List.range n) s.vgaState).pixel r c = _
    rw [hpix r c hr hc]
    apply foldl_keep
    intro b i hi
    rw [hz i (List.mem_range.mp hi), if_neg (by omega)]

/-- **C32** (`DRW` resets only the starting coordinate) fails: `drawByte` is called
    once for each sprite row with `y = Vy + i` and resets `y` to 0 whenever it is
    32 or more, so every row that falls below the grid is drawn into display
    row 0. The first part states this for every state, every `n ≥ 1` and every
    start column for which `DRW` has a result (`Vx ≤ 56` or `Vx ≥ 64`): sprite row
    `i` goes to display row `(Vy + i) mod 256` when that is below 32 and to row 0
    otherwise, each pixel ends as its old value XORed with the bits of all sprite
    rows that land on it, and with `Vy ≥ 32`, `Vy + n ≤ 256` all rows land on
    row 0 while the rows 1..31 stay as they were. In `belowGridState` (`Vx = 0`,
    `Vy = 32`, dark display) `DRW V0, V1, 2` with the sprite rows `0xF0`, `0x90`
    leaves row 1 dark where the claim puts `0x90`, leaves `0xF0 XOR 0x90 = 0x60`
    in row 0 where the claim puts `0xF0`, and sets `v[15] = 1`. In
    `bottomEdgeState` (`Vx = 0`, `Vy = 30`, dark display) `DRW V0, V1, 5` with
    the sprite rows `0xF0, 0x90, 0x90, 0x90, 0xF0` draws the rows 0 and 1 into
    the display rows 30 and 31 and the rows 2, 3, 4 on top of each other into
    display row 0, which ends as `0xF0`, and sets `v[15] = 1` on a display that
    was dark. -/
theorem C32_rows_pile_up_on_row_0 :
    (∀ (s : CpuState) (mem : Memory) (x y : Fin 16) (n : Nat),
      1 ≤ n → (s.v x ≤ 56 ∨ 64 ≤ s.v x) →
      ∃ s', s.DRW_Vx_Vy_Nibble mem x y n = some (true, s') ∧
        (clampColumn (s.v x) = if s.v x < 64 then s.v x else 0) ∧
        (∀ i, s.spriteRow y i = if (s.v y + i) % 256 < 32 then (s.v y + i) % 256 else 0) ∧
        (∀ r c, r < 32 → c < 64 →
          s'.vgaState.pixel r c =
            (List.range n).foldl
              (fun acc i =>
                if s.spriteRow y i = r ∧ clampColumn (s.v x) ≤ c ∧ c < clampColumn (s.v x) + 8
                then xor acc ((s.spriteByte mem i).testBit (7 - (c - clampColumn (s.v x))))
                else acc)
              (s.vgaState.pixel r c)) ∧
        (32 ≤ s.v y → s.v y + n ≤ 256 →
          (∀ i, i < n → s.spriteRow y i = 0) ∧
          ∀ r c, 0 < r → r < 32 → c < 64 →
            s'.vgaState.pixel r c = s.vgaState.pixel r c)) ∧
    (belowGridState.v 0 = 0 ∧ belowGridState.v 1 = 32 ∧
      exampleMemory.readByte belowGridState.ir = 0xF0 ∧
      exampleMemory.readByte (belowGridState.ir + 1) = 0x90 ∧
      ∃ s', belowGridState.DRW_Vx_Vy_Nibble exampleMemory 0 1 2 = some (true, s') ∧
        (List.range 8).map (fun c => s'.vgaState.pixel 0 c) =
          [false, true, true, false, false, false, false, false] ∧
        (List.range 8).map (fun c => s'.vgaState.pixel 1 c) =
          [false, false, false, false, false, false, false, false] ∧
        s'.v 15 = 1) ∧
    (bottomEdgeState.v 0 = 0 ∧ bottomEdgeState.v 1 = 30 ∧
      (List.range 5).map (fun i => exampleMemory.readByte (bottomEdgeState.ir + i)) =
        [0xF0, 0x90, 0x90, 0x90, 0xF0] ∧
      (List.range 5).map (fun i => bottomEdgeState.spriteRow 1 i) = [30, 31, 0, 0, 0] ∧
      ∃ s', bottomEdgeState.DRW_Vx_Vy_Nibble exampleMemory 0 1 5 = some (true, s') ∧
        (List.range 8).map (fun c => s'.vgaState.pixel 30 c) =
          [true, true, true, true, false, false, false, false] ∧
        (List.range 8).map (fun c => s'.vgaState.pixel 31 c) =
          [true, false, false, true, false, false, false, false] ∧
        (List.range 8).map (fun c => s'.vgaState.pixel 0 c) =
          [true, true, true, true, false, false, false, false] ∧
        (List.range 8).map (fun c => s'.vgaState.pixel 1 c) =
          [false, false, false, false, false, false, false, false] ∧
        (List.range 8).map (fun c => s'.vgaState.pixel 2 c) =
          [false, false, false, false, false, false, false, false] ∧
        s'.v 15 = 1) :=
  ⟨fun s mem x y n hn hcol => DRW_rows_clamped s mem x y n hn hcol,
    ⟨rfl, rfl, by decide, by decide, _, rfl, rfl, rfl, rfl⟩,
    ⟨rfl, rfl, by decide, by decide, _, rfl, rfl, rfl, rfl, rfl, rfl, rfl⟩⟩

/-! ## Block transfers at addresses outside the memory -/

theorem LD_Vx_IAddr_any (s : CpuState) (q : Quirks) (mem : Memory) (x : Fin 16) :
    s.LD_Vx_IAddr q mem x =
      some (true,
        { s with v := fun i => if i ≤ x then mem.readByte ((s.ir + i.val) % 65536) else s.v i,
                 ir := if q.memoryIncrementI then (s.ir + (x.val + 1)) % 65536 else s.ir,
                 pc := (s.pc + 2) % 65536 }) := by
  unfold CpuState.LD_Vx_IAddr
  rw [LD_Vx_IAddr_loop s mem (x.val + 1) (by omega)]
  have hv : (fun i : Fin 16 => if i.val < x.val + 1 then mem.readByte ((s.ir + i.val) % 65536)
      else s.v i) = fun i => if i ≤ x then mem.readByte ((s.ir + i.val) % 65536) else s.v i := by
    funext i
    by_cases hi : i ≤ x
    · have hi2 : i.val ≤ x.val := hi
      rw [if_pos hi, if_pos (by omega)]
    · have hi2 : ¬ i.val ≤ x.val := hi
      rw [if_neg hi, if_neg (by omega)]
  rw [hv]
  simp only [Option.bind_eq_bind, Option.some_bind, Option.pure_def]
  cases q.memoryIncrementI <;> rfl

/-- **C33** (out-of-range addresses in block transfers) fails for the loads whose
    address passes 65535. `LD Vx, [I]` hands `ir + i` to `readByte`, whose
    parameter is a 16-bit number, so the byte loaded into `v[i]` is the one at
    `(ir + i) mod 65536` (first part, for every state): it is 0 when
    `4096 ≤ ir + i ≤ 65535`, and it is `memory[ir + i - 65536]` when
    `ir + i ≥ 65536`. `LD [I], Vx` hands `ir + i` to `writeByte` as an `int`, and
    does change no byte for an `i` with `ir + i ≥ 4096` (second part). In
    `topIndexState` (`ir = 0xFFFF`) with `memory[0] = 0xF0`, `LD V1, [I]` loads 0
    into `v[0]` and `0xF0` into `v[1]`. -/
theorem C33_load_wraps_past_65535 :
    (∀ (s : CpuState) (q : Quirks) (mem : Memory) (x : Fin 16),
      ∃ s', s.LD_Vx_IAddr q mem x = some (true, s') ∧
        ∀ i : Fin 16, i ≤ x →
          s'.v i = mem.readByte ((s.ir + i.val) % 65536) ∧
          (4096 ≤ s.ir + i.val → s.ir + i.val < 65536 → s'.v i = 0) ∧
          (65536 ≤ s.ir + i.val → s.ir < 65536 →
            s'.v i = mem.readByte (s.ir + i.val - 65536) ∧ s.ir + i.val - 65536 < 15)) ∧
    (∀ (s : CpuState) (q : Quirks) (mem : Memory) (x : Fin 16),
      ∃ s' mem', s.LD_IAddr_Vx q mem x = some (true, s', mem') ∧
        (∀ a : Fin 4096, mem'.buffer a ≠ mem.buffer a → s.ir ≤ a.val ∧ a.val ≤ s.ir + x.val) ∧
        (4096 ≤ s.ir → mem'.buffer = mem.buffer)) ∧
    (topIndexState.ir = 0xFFFF ∧ exampleMemory.readByte 0 = 0xF0 ∧
      ∃ s', topIndexState.LD_Vx_IAddr noQuirks exampleMemory 1 = some (true, s') ∧
        s'.v 0 = 0 ∧ s'.v 1 = 0xF0) := by
  refine ⟨?_, ?_, ⟨rfl, by decide, _, LD_Vx_IAddr_any topIndexState noQuirks exampleMemory 1,
    by decide, by decide⟩⟩
  · intro s q mem x
    refine ⟨_, LD_Vx_IAddr_any s q mem x, ?_⟩
    intro i hi
    have hv : (if i ≤ x then mem.readByte ((s.ir + i.val) % 65536) else s.v i) =
        mem.readByte ((s.ir + i.val) % 65536) := if_pos hi
    refine ⟨hv, ?_, ?_⟩
    · intro h1 h2
      show (if i ≤ x then mem.readByte ((s.ir + i.val) % 65536) else s.v i) = 0
      rw [hv, Nat.mod_eq_of_lt h2]
      unfold Memory.readByte maxBufferSize
      rw [dif_pos h1]
    · intro h1 h2
      have := i.isLt
      refine ⟨?_, by omega⟩
      have e : (s.ir + i.val) % 65536 = s.ir + i.val - 65536 := by omega
      show (if i ≤ x then mem.readByte ((s.ir + i.val) % 65536) else s.v i) = _
      rw [hv, e]
  · intro s q mem x
    obtain ⟨mem', h1, h2, h3⟩ := LD_IAddr_Vx_loop s mem (x.val + 1) (by omega)
    have hbuf : ∀ a : Fin 4096, (a.val < s.ir ∨ s.ir + x.val < a.val) →
        mem'.buffer a = mem.buffer a := by
      intro a ha
      have hlt : ¬ a.val ≥ 4096 := by have := a.isLt; omega
      have := h3.1 a.val (by omega)
      simp only [Memory.readByte, maxBufferSize, dif_neg hlt] at this
      exact this
    have hres : ∃ s', s.LD_IAddr_Vx q mem x = some (true, s', mem') := by
      unfold CpuState.LD_IAddr_Vx
      rw [h1]
      exact ⟨_, rfl⟩
    obtain ⟨s', hres⟩ := hres
    refine ⟨s', mem', hres, ?_, ?_⟩
    · intro a ha
      by_contra hcon
      exact ha (hbuf a (by omega))
    · intro hir
      funext a
      exact hbuf a (Or.inl (by have := a.isLt; omega))

/-! ## Which instructions signal no update -/

/-- An instruction of a valid kind that has a result reports no update exactly in
    three cases: a `JP` to its own address, an `LD Vx, K` while no key value is
    stored, and a `DRW` with `n = 0`. -/
theorem processOpcode_flag (s : CpuState) (q : Quirks) (inp : Input) (g : Shared) (w : Nat)
    (r : Bool × CpuState × Shared) (hv : decode w ≠ Opcode.Invalid)
    (h : s.processOpcode q inp g w = some r) :
    r.1 = false ↔
      ((decode w = Opcode.JP_Addr ∧ getOpcodeNNN w = s.pc) ∨
        (decode w = Opcode.LD_Vx_K ∧ g.keyboardPressedValue = 0xFF) ∨
        (decode w = Opcode.DRW_Vx_Vy_Nibble ∧ getOpcodeZ w = 0)) := by
  have hx : getOpcodeX w < 16 := by rw [getOpcodeX_eq]; omega
  have hy : getOpcodeY w < 16 := by rw [getOpcodeY_eq]; omega
  have rx := getRegister_lt s (getOpcodeX w) hx
  have ry := getRegister_lt s (getOpcodeY w) hy
  unfold CpuState.processOpcode at h
  simp only at h
  split at h
  all_goals rename_i heq
  all_goals simp only [heq, reduceCtorEq, false_and, true_and, or_false, false_or, iff_false,
    Bool.not_eq_false, ne_eq, not_true_eq_false] at hv ⊢
  all_goals
    try
      (simp only [CpuState.CLS, CpuState.CALL_Addr, CpuState.SE_Vx_Byte,
        CpuState.SNE_Vx_Byte, CpuState.SE_Vx_Vy, CpuState.LD_Vx_Byte, CpuState.ADD_Vx_Byte,
        CpuState.LD_Vx_Vy, CpuState.OR_Vx_Vy, CpuState.AND_Vx_Vy, CpuState.XOR_Vx_Vy,
        CpuState.ADD_Vx_Vy, CpuState.SUB_Vx_Vy, CpuState.SHR_Vx_Vy, CpuState.SUBN_Vx_Vy,
        CpuState.SHL_Vx_Vy, CpuState.SNE_Vx_Vy, CpuState.LD_I_Addr, CpuState.JP_V0_Addr,
        CpuState.RND_Vx_Byte, CpuState.SKP_Vx, CpuState.SKNP_Vx, CpuState.LD_Vx_DT,
        CpuState.LD_DT_Vx, CpuState.LD_ST_Vx, CpuState.ADD_I_Vx,
        CpuState.LD_F_Vx, CpuState.LD_B_Vx, rx, ry, Option.some.injEq] at h
       rw [← h])
  · unfold CpuState.RET at h
    cases hp : s.popFromStack with
    | none => simp [hp] at h
    | some a =>
      simp only [hp, Option.some_bind, Option.some.injEq] at h
      rw [← h]
  · unfold CpuState.JP_Addr
    by_cases hc : s.pc = getOpcodeNNN w
    · simp only [if_pos hc, true_iff]
      exact hc.symm
    · simp only [if_neg hc, Bool.true_eq_false, false_iff]
      exact fun e => hc e.symm
  · unfold CpuState.DRW_Vx_Vy_Nibble at h
    simp only [rx, ry] at h
    by_cases hz : getOpcodeZ w = 0
    · simp only [if_pos hz, Option.some_bind, Option.some.injEq] at h
      rw [← h]
      simp only [hz]
    · simp only [if_neg hz] at h
      cases hf : (List.range (getOpcodeZ w)).foldlM
          (s.DRW_row g.mem ⟨getOpcodeX w, hx⟩ ⟨getOpcodeY w, hy⟩) (false, s.vgaState) with
      | none => simp [hf] at h
      | some a =>
        simp only [hf, Option.bind_eq_bind, Option.some_bind, Option.pure_def,
          Option.some.injEq] at h
        rw [← h]
        simp only [hz, Bool.true_eq_false]
  · unfold CpuState.LD_Vx_K
    simp only [rx]
    by_cases hk : g.keyboardPressedValue = 0xFF
    · simp only [if_pos hk]
      exact ⟨fun _ => hk, fun _ => trivial⟩
    · simp only [if_neg hk, Bool.true_eq_false]
      exact ⟨False.elim, fun e => hk e⟩
  · obtain ⟨mem', h1, -⟩ := LD_IAddr_Vx_loop s g.mem (getOpcodeX w + 1) (by omega)
    unfold CpuState.LD_IAddr_Vx at h
    rw [h1] at h
    simp only [Option.bind_eq_bind, Option.some_bind, Option.pure_def, Option.some.injEq] at h
    rw [← h]
  · have hl := LD_Vx_IAddr_any s q g.mem ⟨getOpcodeX w, hx⟩
    simp only at hl
    rw [hl] at h
    simp only [Option.some_bind, Option.some.injEq] at h
    rw [← h]

/-- An instruction has a result unless it is a `RET` on an empty call stack or a
    `DRW` of at least one row that starts in the columns 57..63. -/
theorem processOpcode_defined (s : CpuState) (q : Quirks) (inp : Input) (g : Shared) (w : Nat)
    (hret : decode w = Opcode.RET → s.stack ≠ [])
    (hdrw : decode w = Opcode.DRW_Vx_Vy_Nibble → getOpcodeZ w ≠ 0 →
      ∀ x : Fin 16, x.val = getOpcodeX w → s.v x ≤ 56 ∨ 64 ≤ s.v x) :
    ∃ r, s.processOpcode q inp g w = some r := by
  have hx : getOpcodeX w < 16 := by rw [getOpcodeX_eq]; omega
  have hy : getOpcodeY w < 16 := by rw [getOpcodeY_eq]; omega
  have rx := getRegister_lt s (getOpcodeX w) hx
  have ry := getRegister_lt s (getOpcodeY w) hy
  unfold CpuState.processOpcode
  simp only
  split
  all_goals rename_i heq
  all_goals try exact ⟨_, rfl⟩
  · cases hst : s.stack with
    | nil => exact absurd hst (hret heq)
    | cons a rest =>
      simp only [CpuState.RET, CpuState.popFromStack, hst, Option.some_bind]
      exact ⟨_, rfl⟩
  · unfold CpuState.DRW_Vx_Vy_Nibble
    simp only [rx, ry]
    by_cases hz : getOpcodeZ w = 0
    · simp only [if_pos hz, Option.some_bind]
      exact ⟨_, rfl⟩
    · have hcol := hdrw heq hz ⟨getOpcodeX w, hx⟩ rfl
      have hc : clampColumn (s.v ⟨getOpcodeX w, hx⟩) + 7 < 64 := by
        unfold clampColumn frameBufferWidth
        split_ifs <;> omega
      simp only [if_neg hz, DRW_fold s g.mem _ _ hc, Option.bind_eq_bind, Option.some_bind,
        Option.pure_def]
      exact ⟨_, rfl⟩
  · obtain ⟨mem', h1, -⟩ := LD_IAddr_Vx_loop s g.mem (getOpcodeX w + 1) (by omega)
    unfold CpuState.LD_IAddr_Vx
    rw [h1]
    exact ⟨_, rfl⟩
  · have hl := LD_Vx_IAddr_any s q g.mem ⟨getOpcodeX w, hx⟩
    simp only at hl
    rw [hl]
    exact ⟨_, rfl⟩

/-- **C35** (the cases of no-update, as the code has them). For every state and
    every word of a valid kind there are three cases in which the instruction
    signals no-update, and then it leaves the machine state, the memory and the
    stored key value as they were: a `JP` whose target equals `pc`, an `LD Vx, K`
    while no key value is stored (`keyboardPressedValue = 0xFF`), and a `DRW`
    with `n = 0`. In every other case an instruction that has a result reports an
    update; and it has a result unless it is a `RET` on an empty call stack or a
    `DRW` that starts in the columns 57..63. -/
theorem C35_no_update_cases (s : CpuState) (q : Quirks) (inp : Input) (g : Shared) (w : Nat)
    (hv : decode w ≠ Opcode.Invalid) :
    (((decode w = Opcode.JP_Addr ∧ getOpcodeNNN w = s.pc) ∨
        (decode w = Opcode.LD_Vx_K ∧ g.keyboardPressedValue = 0xFF) ∨
        (decode w = Opcode.DRW_Vx_Vy_Nibble ∧ getOpcodeZ w = 0)) →
      ∃ g', s.processOpcode q inp g w = some (false, s, g') ∧ g'.mem = g.mem ∧
        g'.keyboardPressedValue = g.keyboardPressedValue) ∧
    (¬ ((decode w = Opcode.JP_Addr ∧ getOpcodeNNN w = s.pc) ∨
        (decode w = Opcode.LD_Vx_K ∧ g.keyboardPressedValue = 0xFF) ∨
        (decode w = Opcode.DRW_Vx_Vy_Nibble ∧ getOpcodeZ w = 0)) →
      (∀ r, s.processOpcode q inp g w = some r → r.1 = true) ∧
      ((decode w = Opcode.RET → s.stack ≠ []) →
        (decode w = Opcode.DRW_Vx_Vy_Nibble →
          ∀ x : Fin 16, x.val = getOpcodeX w → s.v x ≤ 56 ∨ 64 ≤ s.v x) →
        ∃ s' g', s.processOpcode q inp g w = some (true, s', g'))) := by
  have hx : getOpcodeX w < 16 := by rw [getOpcodeX_eq]; omega
  have hy : getOpcodeY w < 16 := by rw [getOpcodeY_eq]; omega
  have rx := getRegister_lt s (getOpcodeX w) hx
  have ry := getRegister_lt s (getOpcodeY w) hy
  constructor
  · intro hcase
    rcases hcase with ⟨hd, hn⟩ | ⟨hd, hk⟩ | ⟨hd, hz⟩
    · refine ⟨g, ?_, rfl, rfl⟩
      unfold CpuState.processOpcode
      simp only [hd, CpuState.JP_Addr, hn, if_true]
    · refine ⟨{ g with waitingForKeyboard := true }, ?_, rfl, rfl⟩
      unfold CpuState.processOpcode
      simp only [hd, CpuState.LD_Vx_K, rx, hk, if_true]
    · refine ⟨g, ?_, rfl, rfl⟩
      unfold CpuState.processOpcode
      simp only [hd, CpuState.DRW_Vx_Vy_Nibble, rx, ry, hz, if_true, Option.some_bind]
  · intro hcase
    have hupd : ∀ r, s.processOpcode q inp g w = some r → r.1 = true := by
      intro r hr
      have := processOpcode_flag s q inp g w r hv hr
      cases h1 : r.1
      · exact absurd (this.mp h1) hcase
      · rfl
    refine ⟨hupd, ?_⟩
    intro hret hdrw
    obtain ⟨r, hr⟩ := processOpcode_defined s q inp g w hret (fun hd _ => hdrw hd)
    obtain ⟨upd, s', g'⟩ := r
    have h1 : upd = true := hupd _ hr
    subst h1
    exact ⟨s', g', hr⟩

/-- Instance of C35: `DRW V1, V2, 0` (`0xD120`) on `exampleState` signals
    no-update and leaves the state as it was. -/
theorem C35_no_update_cases_witness :
    decode 0xD120 ≠ Opcode.Invalid ∧ decode 0xD120 = Opcode.DRW_Vx_Vy_Nibble ∧
    getOpcodeZ 0xD120 = 0 ∧
    ∃ g', exampleState.processOpcode noQuirks noInput ⟨exampleMemory, false, 0xFF⟩ 0xD120 =
      some (false, exampleState, g') :=
  have h := (C35_no_update_cases exampleState noQuirks noInput ⟨exampleMemory, false, 0xFF⟩
    0xD120 (by decide)).1 (Or.inr (Or.inr ⟨by decide, by decide⟩))
  ⟨by decide, by decide, by decide, h.elim (fun g' hg => ⟨g', hg.1⟩)⟩

/-- **C35** as claimed (no-update only for a `JP` to its own address and for an
    `LD Vx, K` without a key) does not hold: `DRW V1, V2, 0` (`0xD120`) is a valid
    instruction, neither of the two, and signals no-update. A fresh engine with
    this word at `0x200` commits nothing in its first cycle and stays at
    `pc = 0x200`. -/
theorem C35_DRW_of_no_rows :
    decode 0xD120 = Opcode.DRW_Vx_Vy_Nibble ∧
    exampleState.processOpcode noQuirks noInput ⟨exampleMemory, false, 0xFF⟩ 0xD120 =
      some (false, exampleState, ⟨exampleMemory, false, 0xFF⟩) ∧
    (freshEngine [0xD1, 0x20]).mem.readWord 0x200 = 0xD120 ∧
    ∃ e', (freshEngine [0xD1, 0x20]).executeClockCycle noQuirks noInput = some e' ∧
      e'.headCpuStateIndex = 0 ∧ e'.currentCpuStateIndex = 0 ∧
      e'.getProgramCounter = some 0x200 :=
  ⟨by decide, rfl, by decide, _, rfl, rfl, rfl, rfl⟩

/-! ## Committed states that equal their predecessor -/

/-- An instruction that reports an update, started below 4096, has changed the
    machine state, except for a `JP V0, nnn` whose target
    `(nnn + v[0]) mod 65536` is its own address. -/
theorem processOpcode_changes (s : CpuState) (q : Quirks) (inp : Input) (g : Shared) (w : Nat)
    (s' : CpuState) (g' : Shared) (hpc : s.pc < 4096)
    (h : s.processOpcode q inp g w = some (true, s', g')) :
    s' ≠ s ∨ (decode w = Opcode.JP_V0_Addr ∧ (getOpcodeNNN w + s.v 0) % 65536 = s.pc) := by
  obtain ⟨_, p2, _, p4⟩ := processOpcode_pc s q inp g w s' g' hpc h
  by_cases hjp : decode w = Opcode.JP_Addr
  · left
    unfold CpuState.processOpcode at h
    simp only [hjp, CpuState.JP_Addr] at h
    by_cases hc : s.pc = getOpcodeNNN w
    · simp [hc] at h
    · simp only [if_neg hc, Option.some.injEq, Prod.mk.injEq, true_and] at h
      intro e
      rw [← h.1] at e
      exact hc (congrArg CpuState.pc e).symm
  by_cases hcall : decode w = Opcode.CALL_Addr
  · left
    unfold CpuState.processOpcode at h
    simp only [hcall, CpuState.CALL_Addr, CpuState.pushToStack, Option.some.injEq,
      Prod.mk.injEq, true_and] at h
    intro e
    rw [← h.1] at e
    have := congrArg (fun t : CpuState => t.stack.length) e
    simp at this
  by_cases hret : decode w = Opcode.RET
  · left
    unfold CpuState.processOpcode at h
    simp only [hret, CpuState.RET, CpuState.popFromStack] at h
    cases hst : s.stack with
    | nil => simp [hst] at h
    | cons a rest =>
      simp only [hst, Option.some_bind, Option.some.injEq, Prod.mk.injEq, true_and] at h
      intro e
      rw [← h.1] at e
      have := congrArg (fun t : CpuState => t.stack.length) e
      simp [hst] at this
  by_cases hv0 : decode w = Opcode.JP_V0_Addr
  · by_cases htarget : (getOpcodeNNN w + s.v 0) % 65536 = s.pc
    · exact Or.inr ⟨hv0, htarget⟩
    · left
      intro e
      have := p2 hv0
      rw [e] at this
      exact htarget this.symm
  · left
    intro e
    have := p4 hjp hcall hv0 hret
    rw [e] at this
    omega

/-- **C34** (only material changes are committed) fails for `JP V0, nnn`.
    The first part states what holds for every cycle that commits a state: the
    new head state differs from the previous head state, which is still stored in
    its slot, unless the instruction is a `JP V0, nnn` with
    `(nnn + v[0]) mod 65536 = pc`. The second part states that such a jump always
    reports an update with the state unchanged. A fresh engine with `JP V0, 0x200`
    (`0xB200`) at `0x200` and `v[0] = 0` commits in its first cycle a state equal
    to the previous head state: the head moves to slot 1, `totalCycles` becomes 1
    and the slots 0 and 1 hold the same state. -/
theorem C34_jump_V0_to_itself_is_committed :
    (∀ (e e' : Engine) (q : Quirks) (inp : Input),
      e.executeClockCycle q inp = some e' → e'.headCpuStateIndex ≠ e.headCpuStateIndex →
      ∃ s s', e.cpuStateAt e.headCpuStateIndex = some s ∧
        e'.cpuStateAt e.headCpuStateIndex = some s ∧
        e'.cpuStateAt e'.headCpuStateIndex = some s' ∧
        (s' ≠ s ∨
          (decode (e.mem.readWord s.pc) = Opcode.JP_V0_Addr ∧
            (getOpcodeNNN (e.mem.readWord s.pc) + s.v 0) % 65536 = s.pc))) ∧
    (∀ (s : CpuState) (q : Quirks) (inp : Input) (g : Shared) (w : Nat),
      decode w = Opcode.JP_V0_Addr → (getOpcodeNNN w + s.v 0) % 65536 = s.pc →
      s.processOpcode q inp g w = some (true, s, g)) ∧
    ((freshEngine [0xB2, 0x00]).mem.readWord 0x200 = 0xB200 ∧
      decode 0xB200 = Opcode.JP_V0_Addr ∧
      ∃ e', (freshEngine [0xB2, 0x00]).executeClockCycle noQuirks noInput = some e' ∧
        (freshEngine [0xB2, 0x00]).headCpuStateIndex = 0 ∧
        e'.headCpuStateIndex = 1 ∧ e'.totalCpuCycles = 1 ∧
        e'.cpuStates 1 = e'.cpuStates 0 ∧
        e'.cpuStates 0 = (freshEngine [0xB2, 0x00]).cpuStates 0) := by
  refine ⟨?_, ?_, ⟨by decide, by decide, _, rfl, rfl, rfl, rfl, rfl, rfl⟩⟩
  · intro e e' q inp hex hmove
    obtain ⟨_, _, hh, hw, s', g', hp, _, _, _, _, k5, k6, _⟩ :=
      executeClockCycle_head_moved e e' q inp hex hmove
    have hmod : (e.headCpuStateIndex + 1) % 1000 < 1000 := Nat.mod_lt _ (by norm_num)
    have hpc := readWord_lt e.mem _ hw
    refine ⟨e.cpuStates ⟨e.headCpuStateIndex, hh⟩, s', cpuStateAt_lt e _ hh, ?_, ?_,
      processOpcode_changes _ q inp e.toShared _ s' g' hpc hp⟩
    · rw [cpuStateAt_lt e' _ hh, k5, Function.update_noteq]
      intro heq
      have := congrArg Fin.val heq
      simp only at this
      omega
    · rw [k6, cpuStateAt_lt e' _ hmod, k5, Function.update_same]
  · intro s q inp g w hd ht
    unfold CpuState.processOpcode
    simp only [hd, CpuState.JP_V0_Addr, ht]

/-! ## The cursors stay inside the ring -/

theorem executeClockCycle_in_range (e e' : Engine) (q : Quirks) (inp : Input)
    (hh : e.headCpuStateIndex < 1000) (hc : e.currentCpuStateIndex < 1000)
    (h : e.executeClockCycle q inp = some e') :
    e'.headCpuStateIndex < 1000 ∧ e'.currentCpuStateIndex < 1000 := by
  cases hf : (e.paused && !e.doAdvanceOneClockCycle)
  swap
  · rw [executeClockCycle_frozen e q inp hf] at h
    cases h
    exact ⟨hh, hc⟩
  by_cases hlive : e.currentCpuStateIndex = e.headCpuStateIndex
  swap
  · obtain ⟨e2, h2, _, _, _, _, _, h7, h8⟩ := executeClockCycle_replay e q inp hf hlive
    rw [h2] at h
    cases h
    rw [h7, h8]
    exact ⟨hh, next_lt _ hc⟩
  by_cases hw : e.mem.readWord (e.cpuStates ⟨e.headCpuStateIndex, hh⟩).pc = 0
  · obtain ⟨e2, h2, _, _, _, _, _, h7, h8⟩ := executeClockCycle_zero_word e q inp hf hlive hh hw
    rw [h2] at h
    cases h
    rw [h7, h8]
    exact ⟨hh, hc⟩
  cases hp : (e.cpuStates ⟨e.headCpuStateIndex, hh⟩).processOpcode q inp e.toShared
      (e.mem.readWord (e.cpuStates ⟨e.headCpuStateIndex, hh⟩).pc) with
  | none =>
    rw [executeClockCycle_undefined e q inp hf hlive hh hw hp] at h
    cases h
  | some r =>
    obtain ⟨upd, s', g'⟩ := r
    obtain ⟨e2, h2, _, _, _, _, _, k6, k7⟩ :=
      executeClockCycle_live e q inp hf hlive hh hw upd s' g' hp
    rw [h2] at h
    cases h
    have hmod : (e.headCpuStateIndex + 1) % 1000 < 1000 := Nat.mod_lt _ (by norm_num)
    have hhead : e'.headCpuStateIndex < 1000 := by
      rw [k6]
      split_ifs
      · exact hmod
      · exact hh
    exact ⟨hhead, k7 ▸ hhead⟩

theorem backOneClockCylce_in_range (e : Engine)
    (hh : e.headCpuStateIndex < 1000) (hc : e.currentCpuStateIndex < 1000) :
    e.backOneClockCylce.headCpuStateIndex < 1000 ∧
    e.backOneClockCylce.currentCpuStateIndex < 1000 := by
  obtain ⟨_, h2, _, _, _, _, h7⟩ := backOneClockCylce_frame e
  exact ⟨h2 ▸ hh, h7 hc⟩

theorem decrementTimers_in_range (e : Engine) (hc : e.currentCpuStateIndex < 1000) :
    ∃ e', e.decrementTimers = some e' ∧
      e'.headCpuStateIndex = e.headCpuStateIndex ∧
      e'.currentCpuStateIndex = e.currentCpuStateIndex := by
  unfold Engine.decrementTimers
  split_ifs
  · exact ⟨e, rfl, rfl, rfl⟩
  · simp only [Engine.getCurrentCpuState, cpuStateAt_lt _ _ hc, Option.bind_eq_bind,
      Option.some_bind, setCpuState_lt _ _ _ hc]
    exact ⟨_, rfl, rfl, rfl⟩

theorem call_in_range (e e' : Engine) (q : Quirks) (c : EngineCall)
    (hh : e.headCpuStateIndex < 1000) (hc : e.currentCpuStateIndex < 1000)
    (h : e.call q c = some e') :
    e'.headCpuStateIndex < 1000 ∧ e'.currentCpuStateIndex < 1000 := by
  cases c with
  | executeClockCycle inp => exact executeClockCycle_in_range e e' q inp hh hc h
  | backOneClockCylce =>
    cases h
    exact backOneClockCylce_in_range e hh hc
  | advanceOneClockCycle =>
    cases h
    unfold Engine.advanceOneClockCycle
    split_ifs <;> exact ⟨hh, hc⟩
  | togglePaused =>
    cases h
    exact ⟨hh, hc⟩
  | decrementTimers =>
    obtain ⟨e2, h2, k1, k2⟩ := decrementTimers_in_range e hc
    have h' : e.decrementTimers = some e' := h
    rw [h2] at h'
    cases h'
    rw [k1, k2]
    exact ⟨hh, hc⟩

theorem calls_in_range (q : Quirks) (cs : List EngineCall) :
    ∀ (e e' : Engine), e.headCpuStateIndex < 1000 → e.currentCpuStateIndex < 1000 →
      e.calls q cs = some e' →
      e'.headCpuStateIndex < 1000 ∧ e'.currentCpuStateIndex < 1000 := by
  induction cs with
  | nil =>
    intro e e' hh hc h
    cases h
    exact ⟨hh, hc⟩
  | cons c cs ih =>
    intro e e' hh hc h
    unfold Engine.calls at h
    cases h1 : e.call q c with
    | none => simp [h1] at h
    | some e1 =>
      rw [h1, Option.some_bind] at h
      obtain ⟨k1, k2⟩ := call_in_range e e1 q c hh hc h1
      exact ih e1 e' k1 k2 h

/-- With both cursors inside the ring, a call has no result only if it is an
    `executeClockCycle` in Live mode whose instruction itself has none. -/
theorem call_undefined (e : Engine) (q : Quirks) (c : EngineCall)
    (hh : e.headCpuStateIndex < 1000) (hc : e.currentCpuStateIndex < 1000)
    (h : e.call q c = none) :
    ∃ inp s, c = EngineCall.executeClockCycle inp ∧ e.getCurrentCpuState = some s ∧
      s.processOpcode q inp e.toShared (e.mem.readWord s.pc) = none := by
  cases c with
  | executeClockCycle inp =>
    have h' : e.executeClockCycle q inp = none := h
    refine ⟨inp, e.cpuStates ⟨e.currentCpuStateIndex, hc⟩, rfl, cpuStateAt_lt e _ hc, ?_⟩
    cases hf : (e.paused && !e.doAdvanceOneClockCycle)
    swap
    · rw [executeClockCycle_frozen e q inp hf] at h'
      cases h'
    by_cases hlive : e.currentCpuStateIndex = e.headCpuStateIndex
    swap
    · obtain ⟨e2, h2, _⟩ := executeClockCycle_replay e q inp hf hlive
      rw [h2] at h'
      cases h'
    have hslot : e.cpuStates ⟨e.currentCpuStateIndex, hc⟩ =
        e.cpuStates ⟨e.headCpuStateIndex, hh⟩ := by
      congr 2
    rw [hslot]
    by_cases hw : e.mem.readWord (e.cpuStates ⟨e.headCpuStateIndex, hh⟩).pc = 0
    · obtain ⟨e2, h2, _⟩ := executeClockCycle_zero_word e q inp hf hlive hh hw
      rw [h2] at h'
      cases h'
    cases hp : (e.cpuStates ⟨e.headCpuStateIndex, hh⟩).processOpcode q inp e.toShared
        (e.mem.readWord (e.cpuStates ⟨e.headCpuStateIndex, hh⟩).pc) with
    | none => rfl
    | some r =>
      obtain ⟨upd, s', g'⟩ := r
      obtain ⟨e2, h2, _⟩ := executeClockCycle_live e q inp hf hlive hh hw upd s' g' hp
      rw [h2] at h'
      cases h'
  | backOneClockCylce => cases h
  | advanceOneClockCycle => cases h
  | togglePaused => cases h
  | decrementTimers =>
    obtain ⟨e2, h2, _⟩ := decrementTimers_in_range e hc
    have h' : e.decrementTimers = none := h
    rw [h2] at h'
    cases h'

/-- **C37** (the cursors stay in range). Start from `reset` of any engine and make
    any sequence of calls of `executeClockCycle`, `backOneClockCylce`,
    `advanceOneClockCycle`, `togglePaused` and `decrementTimers` that has a
    result `e'`. Then `head < 1000` and `current < 1000` in `e'`, so the slots
    `cpuStates[head]` and `cpuStates[current]` exist, and no further call fails
    because of a cursor: a call on `e'` without a result is an
    `executeClockCycle` in Live mode whose instruction has none (a `RET` on an
    empty call stack, a `DRW` past the right edge). -/
theorem C37_cursors_in_range (e0 : Engine) (q : Quirks) (cs : List EngineCall) (e' : Engine)
    (h : e0.reset.calls q cs = some e') :
    e'.headCpuStateIndex < 1000 ∧ e'.currentCpuStateIndex < 1000 ∧
    (∃ s, e'.cpuStateAt e'.headCpuStateIndex = some s) ∧
    (∃ s, e'.getCurrentCpuState = some s) ∧
    ∀ c, e'.call q c = none →
      ∃ inp s, c = EngineCall.executeClockCycle inp ∧ e'.getCurrentCpuState = some s ∧
        s.processOpcode q inp e'.toShared (e'.mem.readWord s.pc) = none := by
  have h0 : e0.reset.headCpuStateIndex < 1000 ∧ e0.reset.currentCpuStateIndex < 1000 :=
    ⟨(by norm_num : (0 : Nat) < 1000), (by norm_num : (0 : Nat) < 1000)⟩
  obtain ⟨k1, k2⟩ := calls_in_range q cs e0.reset e' h0.1 h0.2 h
  exact ⟨k1, k2, ⟨_, cpuStateAt_lt e' _ k1⟩, ⟨_, cpuStateAt_lt e' _ k2⟩,
    fun c hc => call_undefined e' q c k1 k2 hc⟩

/-- Instance of C37: from a fresh engine with `twoLoads`, two cycles, a pause, two
    steps back, a single step and a timer tick; the cursors end at `head = 2`,
    `current = 1`. -/
theorem C37_cursors_in_range_witness :
    ∃ e', (Engine.reset (freshEngine twoLoads)).calls noQuirks
        [EngineCall.executeClockCycle noInput, EngineCall.executeClockCycle noInput,
          EngineCall.togglePaused, EngineCall.backOneClockCylce, EngineCall.backOneClockCylce,
          EngineCall.advanceOneClockCycle, EngineCall.executeClockCycle noInput,
          EngineCall.decrementTimers] = some e' ∧
      e'.headCpuStateIndex = 2 ∧ e'.currentCpuStateIndex = 1 ∧
      e'.headCpuStateIndex < 1000 ∧ e'.currentCpuStateIndex < 1000 := by
  obtain ⟨e', he⟩ : ∃ e', (Engine.reset (freshEngine twoLoads)).calls noQuirks
      [EngineCall.executeClockCycle noInput, EngineCall.executeClockCycle noInput,
        EngineCall.togglePaused, EngineCall.backOneClockCylce, EngineCall.backOneClockCylce,
        EngineCall.advanceOneClockCycle, EngineCall.executeClockCycle noInput,
        EngineCall.decrementTimers] = some e' := Option.isSome_iff_exists.mp rfl
  have hcur : ((Engine.reset (freshEngine twoLoads)).calls noQuirks
      [EngineCall.executeClockCycle noInput, EngineCall.executeClockCycle noInput,
        EngineCall.togglePaused, EngineCall.backOneClockCylce, EngineCall.backOneClockCylce,
        EngineCall.advanceOneClockCycle, EngineCall.executeClockCycle noInput,
        EngineCall.decrementTimers]).map
      (fun e => (e.headCpuStateIndex, e.currentCpuStateIndex)) = some (2, 1) := rfl
  rw [he] at hcur
  have h2 := Option.some.inj hcur
  obtain ⟨k1, k2, _⟩ := C37_cursors_in_range (freshEngine twoLoads) noQuirks _ e' he
  exact ⟨e', he, (Prod.mk.inj h2).1, (Prod.mk.inj h2).2, k1, k2⟩

end C8
